import Mathlib

/-!
# Cascade object detection: `object_detection.cpp`

A shallow embedding of the multi-scale sliding-window scanner
(`detectObjects`, `detectObjectsOptimized`) and of the clusterer
(`partitionData`, `filterResult`).

## Number model

* The scanner and the clusterer as whole functions (`detectObjects`,
  `detectObjectsOptimized`, `partitionData`, `filterResult`) are embedded
  with exact rationals for the C `float` and `double` values: every
  arithmetic operation is the exact one, the scale factor `1.1` is `11/10`
  and the tolerance `EPS` is `1/5`.  The square root is not a rational
  function; it is a parameter `sq : ℚ → ℚ` of every definition that uses it,
  and `fsqrt` is one concrete choice (exact on squares of rationals).
* The scale-counting loop, the similarity test (with the partition built on
  it), the window variance and the stages of one window are embedded a
  second time, in the definitions with the suffix `F32`, with the
  arithmetic of the C types: a value is a `CFloat`, that is a rational, an
  infinity or a NaN; every operation is evaluated in the type of its
  operands and rounds its exact result to the nearest value of 24 (`float`)
  or 53 (`double`) significant bits, ties to even (`f32`, `f64`); there is
  no excess precision and no fused multiply-add.  The scale factor is the
  `float` nearest to `1.1`, the tolerance the `float` nearest to `0.2`, and
  `sqrtF32` is the correctly rounded square root of a `float`.
* The array `opt_rectangles` is an unbounded function in
  `detectObjectsOptimized`; the definitions with the suffix `Checked` have
  no result when the precomputation writes outside the entries that the
  source allocates.
* `cl_uint` values are naturals; arithmetic that can wrap is reduced modulo
  `2 ^ 32` (`toU32`).  `int` values are integers; the sums of rectangle
  coordinates in the clusterer are reduced to the two's complement range
  (`toI32`).
* A buffer (`cl_uint*`, `cl_double*`) is a function from the element index
  to the element; a pointer into the buffer is an index.
* A loop that the source leaves unbounded (`for` over the scale, `while`
  over parent links) takes a fuel argument and answers `none` when the
  fuel runs out.
-/

namespace CLFaceDetection

/-! ## Numbers -/

/-- C `round`: the nearest integer, halfway cases away from zero. -/
def cround (q : ℚ) : Int :=
  if 0 ≤ q then ⌊q + 1 / 2⌋ else -⌊-q + 1 / 2⌋

/-- C `lrint` in the default rounding mode: the nearest integer, halfway
cases to the even neighbour. -/
def clrint (q : ℚ) : Int :=
  if q - ⌊q⌋ < 1 / 2 then ⌊q⌋
  else if 1 / 2 < q - ⌊q⌋ then ⌊q⌋ + 1
  else if ⌊q⌋ % 2 = 0 then ⌊q⌋ else ⌊q⌋ + 1

/-- Conversion of a floating value to `int`: truncation toward zero. -/
def ctrunc (q : ℚ) : Int :=
  if 0 ≤ q then ⌊q⌋ else ⌈q⌉

/-- Conversion to `cl_uint`: the value modulo `2 ^ 32`. -/
def toU32 (z : Int) : Nat :=
  (z % 2 ^ 32).toNat

/-- Conversion to `int` / `cl_int`: the two's complement value. -/
def toI32 (z : Int) : Int :=
  (z + 2 ^ 31) % 2 ^ 32 - 2 ^ 31

/-- The constant `INT_MAX`. -/
def INT_MAX : Int := 2147483647

/-- The constant `EPS` (`#define EPS 0.2`). -/
def EPS : ℚ := 1 / 5

/-- The scale growth factor (`float scale_factor = 1.1`). -/
def scale_factor : ℚ := 11 / 10

/-- One concrete square root on the rationals: the root of numerator times
denominator, rounded down, over the denominator.  It is exact whenever the
argument is the square of a rational, in particular at `0` and `1`. -/
def fsqrt (q : ℚ) : ℚ :=
  if q ≤ 0 then 0 else (Nat.sqrt (q.num.toNat * q.den) : ℚ) / q.den

/-! ## Buffers and the four-corner macros -/

/-- The macro `mato(stride,x,y)`: linear offset of column `x`, row `y`. -/
def mato (stride x y : Nat) : Nat :=
  stride * y + x

/-- The macro `matp(matrix,stride,x,y)`: the pointer to column `x`, row `y`,
as an index into the buffer that starts at `matrix`. -/
def matp (matrix stride x y : Nat) : Nat :=
  matrix + stride * y + x

/-- The macro `mate(matrix,stride,x,y)`: the element at column `x`, row `y`. -/
def mate {α : Type} (matrix : Nat → α) (stride x y : Nat) : α :=
  matrix (matp 0 stride x y)

/-- The macro `mats(matrix,stride,x,y,w,h)` on a `cl_uint` buffer:
`T[y,x] - T[y,x+w] - T[y+h,x] + T[y+h,x+w]` in 32-bit unsigned arithmetic. -/
def mats (matrix : Nat → Nat) (stride x y w h : Nat) : Nat :=
  toU32 (((mate matrix stride x y : Nat) : Int) - ((mate matrix stride (x + w) y : Nat) : Int)
    - ((mate matrix stride x (y + h) : Nat) : Int)
    + ((mate matrix stride (x + w) (y + h) : Nat) : Int))

/-- The macro `mats(matrix,stride,x,y,w,h)` on the `cl_double` buffer of
squared sums. -/
def matsD (matrix : Nat → ℚ) (stride x y w h : Nat) : ℚ :=
  mate matrix stride x y - mate matrix stride (x + w) y
    - mate matrix stride x (y + h) + mate matrix stride (x + w) (y + h)

/-- The macro `matsp(lefttop,righttop,leftbottom,rightbottom)` on pointers
into a `cl_uint` buffer. -/
def matsp (mem : Nat → Nat) (lefttop righttop leftbottom rightbottom : Nat) : Nat :=
  toU32 ((mem lefttop : Int) - (mem righttop : Int) - (mem leftbottom : Int)
    + (mem rightbottom : Int))

/-- Modelled from the spec: the sum table that `cvIntegral` (an external
library routine) builds for a `height` by `width` image, as the glossary
describes it: entry `(r, c)` of the `(height+1) x (width+1)` table is the sum
of all pixels above and to the left, stored in 32 bits; the table is laid out
row by row with stride `width + 1`, and indices outside the table read `0`. -/
def integralTable (width height : Nat) (pixel : Nat → Nat → Nat) (i : Nat) : Nat :=
  if i < (height + 1) * (width + 1) then
    (∑ r in Finset.range (i / (width + 1)), ∑ c in Finset.range (i % (width + 1)), pixel r c)
      % 2 ^ 32
  else 0

/-- The sum of the pixels of the rectangle with left top corner `(x, y)`,
width `w` and height `h`. -/
def rectPixelSum (pixel : Nat → Nat → Nat) (x y w h : Nat) : Nat :=
  ∑ r in Finset.Ico y (y + h), ∑ c in Finset.Ico x (x + w), pixel r c

/-! ## Data model -/

/-- The struct `CLWeightedRect`: a rectangle with `int` coordinates and a
floating weight. -/
structure CLWeightedRect where
  x : Int
  y : Int
  width : Int
  height : Int
  weight : ℚ
  deriving DecidableEq

/-- The struct `CvRect`. -/
structure CvRect where
  x : Int
  y : Int
  width : Int
  height : Int
  deriving DecidableEq

/-- One entry `rect[i]` of a `CvHaarFeature`: the rectangle `r` and its
`weight`. -/
structure CvHaarRect where
  r : CvRect
  weight : ℚ
  deriving DecidableEq

/-- The struct `CvHaarFeature`: the array `rect[3]`. -/
structure CvHaarFeature where
  rect0 : CvHaarRect
  rect1 : CvHaarRect
  rect2 : CvHaarRect
  deriving DecidableEq

/-- The array access `feature.rect[i]` for `i < 3`. -/
def CvHaarFeature.rect (f : CvHaarFeature) (i : Nat) : CvHaarRect :=
  match i with
  | 0 => f.rect0
  | 1 => f.rect1
  | _ => f.rect2

/-- The struct `CvHaarClassifier` as the scanner reads it: the first feature
`haar_feature[0]`, the threshold `*threshold` and the pair `alpha[0]`,
`alpha[1]`. -/
structure CvHaarClassifier where
  haar_feature : CvHaarFeature
  threshold : ℚ
  alpha0 : ℚ
  alpha1 : ℚ
  deriving DecidableEq

/-- The array access `classifier.alpha[b]` for a comparison result `b`. -/
def CvHaarClassifier.alpha (c : CvHaarClassifier) (b : Bool) : ℚ :=
  if b then c.alpha1 else c.alpha0

/-- The struct `CvHaarStageClassifier`: `count` classifiers and the stage
threshold. -/
structure CvHaarStageClassifier where
  classifier : List CvHaarClassifier
  threshold : ℚ
  deriving DecidableEq

/-- The field `count` of a stage. -/
def CvHaarStageClassifier.count (s : CvHaarStageClassifier) : Nat :=
  s.classifier.length

/-- The struct `CvHaarClassifierCascade`: the canonical window size
`orig_window_size` (non-negative `int` values) and the stages. -/
structure CvHaarClassifierCascade where
  orig_window_width : Nat
  orig_window_height : Nat
  stage_classifier : List CvHaarStageClassifier
  deriving DecidableEq

/-- The field `count` of a cascade. -/
def CvHaarClassifierCascade.count (c : CvHaarClassifierCascade) : Nat :=
  c.stage_classifier.length

/-- The image as the scanner reads it: its size (`image->width` and
`image->height`, non-negative `int` values), the sum table `integral_image`
and the squared-sum table `square_integral_image`, both of stride
`width + 1`. -/
structure Image where
  width : Nat
  height : Nat
  integral_image : Nat → Nat
  square_integral_image : Nat → ℚ

/-! ## The scanner: what both variants share -/

/-- The scale counting loop of `detectObjects`: it counts the scales until
the scaled canonical window reaches `width - 10` or `height - 10`. -/
def scaleCountLoop (image : Image) (cascade : CvHaarClassifierCascade) :
    Nat → ℚ → Nat → Option Nat
  | 0, _, _ => none
  | fuel + 1, current_scale, scale_count =>
    if current_scale * (cascade.orig_window_width : ℚ) < ((image.width : Int) - 10 : Int) ∧
        current_scale * (cascade.orig_window_height : ℚ) < ((image.height : Int) - 10 : Int) then
      scaleCountLoop image cascade fuel (current_scale * scale_factor) (scale_count + 1)
    else some scale_count

/-- The variable `scale_count` after the counting loop. -/
def scaleCount (fuel : Nat) (image : Image) (cascade : CvHaarClassifierCascade) : Option Nat :=
  scaleCountLoop image cascade fuel 1 0

/-- The scale of index `scale_index`: `current_scale` after that many
multiplications by the scale factor. -/
def scaleAt (scale_index : Nat) : ℚ :=
  scale_factor ^ scale_index

/-- The step `ystep = fmax(2.0, current_scale)`. -/
def ystepOf (current_scale : ℚ) : ℚ :=
  max 2 current_scale

/-- The value `scaled_window_width` (or height, for the canonical height). -/
def scaledWindow (orig : Nat) (current_scale : ℚ) : Nat :=
  toU32 (cround ((orig : ℚ) * current_scale))

/-- The value `equ_rect_x` (and `equ_rect_y`). -/
def equRectX (current_scale : ℚ) : Nat :=
  toU32 (cround current_scale)

/-- The value `equ_rect_width` (or height, for the canonical height). -/
def equRectSize (orig : Nat) (current_scale : ℚ) : Nat :=
  toU32 (cround ((((orig : Int) - 2 : Int) : ℚ) * current_scale))

/-- The value `scaled_window_area`, a `cl_uint` product. -/
def scaledWindowArea (cascade : CvHaarClassifierCascade) (current_scale : ℚ) : Nat :=
  (equRectSize cascade.orig_window_width current_scale
    * equRectSize cascade.orig_window_height current_scale) % 2 ^ 32

/-- The bound `end_x` (or `end_y`) of the window grid:
`lrint((image size - scaled window size) / ystep)`. -/
def gridEnd (image_size scaled_window : Nat) (ystep : ℚ) : Int :=
  clrint ((toU32 ((image_size : Int) - (scaled_window : Int)) : ℚ) / ystep)

/-- The statement "Fix wrong variance": the square root of a non-negative
value, and `1` otherwise. -/
def normVariance (sq : ℚ → ℚ) (variance : ℚ) : ℚ :=
  if variance ≥ 0 then sq variance else 1

/-- The value `E(x^2) - E(x)^2` of the window at `(x, y)`: mean and squared
mean over the equalized rectangle, from the two tables. -/
def rawVariance (image : Image) (cascade : CvHaarClassifierCascade) (current_scale : ℚ)
    (x y : Int) : ℚ :=
  let equ_rect_x := equRectX current_scale
  let equ_rect_y := equ_rect_x
  let equ_rect_width := equRectSize cascade.orig_window_width current_scale
  let equ_rect_height := equRectSize cascade.orig_window_height current_scale
  let scaled_window_area := scaledWindowArea cascade current_scale
  let mean : ℚ := (mats image.integral_image (image.width + 1) (x + equ_rect_x).toNat
    (y + equ_rect_y).toNat equ_rect_width equ_rect_height : ℚ) / (scaled_window_area : ℚ)
  let variance : ℚ := matsD image.square_integral_image (image.width + 1)
    (x + equ_rect_x).toNat (y + equ_rect_y).toNat equ_rect_width equ_rect_height
  variance / (scaled_window_area : ℚ) - mean * mean

/-- The variable `variance` that the stages of the window at `(x, y)` use. -/
def windowVariance (sq : ℚ → ℚ) (image : Image) (cascade : CvHaarClassifierCascade)
    (current_scale : ℚ) (x y : Int) : ℚ :=
  normVariance sq (rawVariance image cascade current_scale x y)

/-- The assignment `exit_stage = -stage_index`: the negation of a `cl_uint`
stored in a `cl_int`. -/
def exitStageOf (stage_index : Nat) : Int :=
  toI32 (toU32 (-(stage_index : Int)))

/-- The loop over the stages of one window in `detectObjects`, from stage
`stage_index` on: `stageSum s` is the variable `stage_sum` of stage `s` after
its classifiers; the result is the variable `exit_stage` after the loop
(`100` when no stage rejects). -/
def runStages (stageSum : CvHaarStageClassifier → ℚ) :
    Nat → List CvHaarStageClassifier → Int
  | _, [] => 100
  | stage_index, stage :: rest =>
    if stageSum stage < stage.threshold then exitStageOf stage_index
    else runStages stageSum (stage_index + 1) rest

/-- The rectangle recorded for the window at `(x, y)`. -/
def matchRect (x y : Int) (scaled_window_width scaled_window_height : Nat) : CLWeightedRect :=
  { x := x, y := y, width := scaled_window_width, height := scaled_window_height, weight := 0 }

/-- The loop over `x_index` of one row, from `x_index` on: `windowExit x y`
is the variable `exit_stage` of the window at `(x, y)`.  A window rejected by
the first stage (`exit_stage == 0`) advances `x_index` once more; a window
that no stage rejects (`exit_stage > 0`) is recorded.  The first argument
bounds the number of iterations. -/
def scanRow (windowExit : Int → Int → Int) (xstep ystep : ℚ) (end_x : Int)
    (scaled_window_width scaled_window_height : Nat) (y_index : Nat) :
    Nat → Nat → List CLWeightedRect
  | 0, _ => []
  | fuel + 1, x_index =>
    if (x_index : Int) < end_x then
      let x := cround ((x_index : ℚ) * xstep)
      let y := cround ((y_index : ℚ) * ystep)
      let exit_stage := windowExit x y
      let rest := scanRow windowExit xstep ystep end_x scaled_window_width scaled_window_height
        y_index fuel (if exit_stage = 0 then x_index + 1 + 1 else x_index + 1)
      if exit_stage > 0 then matchRect x y scaled_window_width scaled_window_height :: rest
      else rest
    else []

/-- The loop over `y_index` and `x_index` of one scale: the rectangles it
appends to `matches`, in order. -/
def scanWindows (windowExit : Int → Int → Int) (ystep : ℚ) (end_x end_y : Int)
    (scaled_window_width scaled_window_height : Nat) : List CLWeightedRect :=
  (List.range end_y.toNat).flatMap fun y_index =>
    scanRow windowExit ystep ystep end_x scaled_window_width scaled_window_height y_index
      end_x.toNat 0

/-- What the loop over the scales does with one scale before it looks at any
window. -/
inductive ScaleAction where
  | skip
  | stop
  | scan
  deriving DecidableEq

/-- The four tests at the head of the loop over the scales: `continue` when
the scaled window is below the minimum or above a non-zero maximum, `break`
when it is bigger than the image. -/
def scaleAction (image : Image) (cascade : CvHaarClassifierCascade)
    (min_window_width min_window_height max_window_width max_window_height : Nat)
    (current_scale : ℚ) : ScaleAction :=
  let scaled_window_width := scaledWindow cascade.orig_window_width current_scale
  let scaled_window_height := scaledWindow cascade.orig_window_height current_scale
  if scaled_window_width < min_window_width ∨ scaled_window_height < min_window_height then
    ScaleAction.skip
  else if max_window_width ≠ 0 ∧ scaled_window_width > max_window_width then ScaleAction.skip
  else if max_window_height ≠ 0 ∧ scaled_window_height > max_window_height then
    ScaleAction.skip
  else if scaled_window_width > image.width ∨ scaled_window_height > image.height then
    ScaleAction.stop
  else ScaleAction.scan

/-- The window loop of one scale for a given window evaluator. -/
def scanScale (image : Image) (cascade : CvHaarClassifierCascade) (current_scale : ℚ)
    (windowExit : Int → Int → Int) : List CLWeightedRect :=
  let ystep := ystepOf current_scale
  let scaled_window_width := scaledWindow cascade.orig_window_width current_scale
  let scaled_window_height := scaledWindow cascade.orig_window_height current_scale
  scanWindows windowExit ystep (gridEnd image.width scaled_window_width ystep)
    (gridEnd image.height scaled_window_height ystep) scaled_window_width scaled_window_height

/-! ## The clusterer -/

/-- The function `areRectSimilar`. -/
def areRectSimilar (r1 r2 : CLWeightedRect) (eps : ℚ) : Bool :=
  let delta : ℚ := eps * ((toI32 (min r1.width r2.width + min r1.height r2.height) : Int) : ℚ)
    * (1 / 2)
  decide (((|toI32 (r1.x - r2.x)| : Int) : ℚ) ≤ delta) &&
  decide (((|toI32 (r1.y - r2.y)| : Int) : ℚ) ≤ delta) &&
  decide (((|toI32 (r1.x + r1.width - r2.x - r2.width)| : Int) : ℚ) ≤ delta) &&
  decide (((|toI32 (r1.y + r1.height - r2.y - r2.height)| : Int) : ℚ) ≤ delta)

/-- The array `nodes` of `partitionData`: column `PARENT` and column `RANK`. -/
structure Nodes where
  parent : Nat → Int
  rank : Nat → Int

/-- The loop `while(nodes[root][PARENT] >= 0) root = nodes[root][PARENT];`. -/
def findRoot (parent : Nat → Int) : Nat → Nat → Option Nat
  | 0, _ => none
  | fuel + 1, root =>
    if parent root ≥ 0 then findRoot parent fuel (parent root).toNat else some root

/-- The loop `while((parent = nodes[k][PARENT]) >= 0) { nodes[k][PARENT] =
root; k = parent; }`. -/
def compressPath (root : Nat) : Nat → (Nat → Int) → Nat → Option (Nat → Int)
  | 0, _, _ => none
  | fuel + 1, parent, k =>
    if parent k ≥ 0 then
      compressPath root fuel (Function.update parent k (root : Int)) (parent k).toNat
    else some parent

/-- The zero rectangle, read where a list of rectangles has no entry. -/
def zeroRect : CLWeightedRect :=
  { x := 0, y := 0, width := 0, height := 0, weight := 0 }

/-- The body of the loop over `j` in the merge pass of `partitionData`, for
the outer index `i`: the state is the array `nodes` and the variable `root`. -/
def mergeStep (fuel : Nat) (data : List CLWeightedRect) (eps : ℚ) (i : Nat)
    (st : Nodes × Nat) (j : Nat) : Option (Nodes × Nat) :=
  if i = j ∨ areRectSimilar (data.getD i zeroRect) (data.getD j zeroRect) eps = false then
    some st
  else
    (findRoot st.1.parent fuel j).bind fun root2 =>
      if root2 ≠ st.2 then
        let rank := st.1.rank st.2
        let rank2 := st.1.rank root2
        let merged : Nodes × Nat :=
          if rank > rank2 then
            ({ parent := Function.update st.1.parent root2 (st.2 : Int), rank := st.1.rank }, st.2)
          else
            ({ parent := Function.update st.1.parent st.2 (root2 : Int),
               rank := Function.update st.1.rank root2
                 (rank2 + (if rank = rank2 then 1 else 0)) }, root2)
        (compressPath merged.2 fuel merged.1.parent j).bind fun parent2 =>
          (compressPath merged.2 fuel parent2 i).bind fun parent3 =>
            some ({ parent := parent3, rank := merged.1.rank }, merged.2)
      else some st

/-- The body of the loop over `i` in the merge pass of `partitionData`. -/
def mergeRow (fuel : Nat) (data : List CLWeightedRect) (eps : ℚ) (nodes : Nodes) (i : Nat) :
    Option Nodes :=
  (findRoot nodes.parent fuel i).bind fun root =>
    ((List.range data.length).foldlM (mergeStep fuel data eps i) (nodes, root)).map Prod.fst

/-- The state of the final pass of `partitionData`: the column `RANK`, the
counter `nclasses` and the labels written so far. -/
structure LabelState where
  rank : Nat → Int
  nclasses : Int
  labels : List Int

/-- The body of the final pass of `partitionData`: the class of the root of
`i` is the bitwise complement of its rank, set to the complement of the next
class id when the rank is still non-negative. -/
def labelStep (fuel : Nat) (parent : Nat → Int) (st : LabelState) (i : Nat) :
    Option LabelState :=
  (findRoot parent fuel i).bind fun root =>
    if st.rank root ≥ 0 then
      some { rank := Function.update st.rank root (-st.nclasses - 1),
             nclasses := st.nclasses + 1,
             labels := st.labels ++ [-(-st.nclasses - 1) - 1] }
    else
      some { rank := st.rank, nclasses := st.nclasses,
             labels := st.labels ++ [-(st.rank root) - 1] }

/-- The function `partitionData`: the array `labels` and the returned
`nclasses`. -/
def partitionData (fuel : Nat) (data : List CLWeightedRect) (eps : ℚ) :
    Option (List Int × Int) :=
  let nodes0 : Nodes := { parent := fun _ => -1, rank := fun _ => 0 }
  ((List.range data.length).foldlM (mergeRow fuel data eps) nodes0).bind fun nodes =>
    ((List.range data.length).foldlM (labelStep fuel nodes.parent)
      { rank := nodes.rank, nclasses := 0, labels := [] }).map fun st =>
        (st.labels, st.nclasses)

/-- The macro `MAX`. -/
def MAX {α : Type} [LinearOrder α] (a b : α) : α :=
  max a b

/-- The arrays `rrects` and `rweights` of `filterResult`. -/
structure Classes where
  rrects : Nat → CLWeightedRect
  rweights : Nat → Int

/-- The body of the first loop of `filterResult`: rectangle `i` is added to
the sums of its class and counted. -/
def accumulateStep (st : Classes) (item : Int × CLWeightedRect) : Classes :=
  let cls := item.1.toNat
  let r := st.rrects cls
  { rrects := Function.update st.rrects cls
      { x := toI32 (r.x + item.2.x), y := toI32 (r.y + item.2.y),
        width := toI32 (r.width + item.2.width), height := toI32 (r.height + item.2.height),
        weight := r.weight },
    rweights := Function.update st.rweights cls (toI32 (st.rweights cls + 1)) }

/-- The body of the second loop of `filterResult`: the sums of class `i` are
scaled by `s = 1/rweights[i]`, passed through `MAX(.., INT_MAX)` and
converted to `int`; the weight is the member count. -/
def averageRect (st : Classes) (i : Nat) : CLWeightedRect :=
  let r := st.rrects i
  let s : ℚ := 1 / (st.rweights i : ℚ)
  { x := toI32 (ctrunc (MAX ((r.x : ℚ) * s) (INT_MAX : ℚ))),
    y := toI32 (ctrunc (MAX ((r.y : ℚ) * s) (INT_MAX : ℚ))),
    width := toI32 (ctrunc (MAX ((r.width : ℚ) * s) (INT_MAX : ℚ))),
    height := toI32 (ctrunc (MAX ((r.height : ℚ) * s) (INT_MAX : ℚ))),
    weight := (st.rweights i : ℚ) }

/-- The test of the loop over `j` in the last pass of `filterResult`: class
`j` is above the threshold, is not `i`, and its rectangle, grown by `dx` and
`dy`, contains the rectangle of `i` while its support is larger. -/
def suppresses (rrects : Nat → CLWeightedRect) (rweights : Nat → Int) (group_threshold : Int)
    (eps : ℚ) (i j : Nat) : Bool :=
  let r1 := rrects i
  let n1 := rweights i
  let n2 := rweights j
  if j = i ∨ n2 ≤ group_threshold then false
  else
    let r2 := rrects j
    let dx := toI32 (ctrunc (MAX ((r2.width : ℚ) * eps) (INT_MAX : ℚ)))
    let dy := toI32 (ctrunc (MAX ((r2.height : ℚ) * eps) (INT_MAX : ℚ)))
    decide (i ≠ j) &&
    decide (r1.x ≥ toI32 (r2.x - dx)) &&
    decide (r1.y ≥ toI32 (r2.y - dy)) &&
    decide (toI32 (r1.x + r1.width) ≤ toI32 (r2.x + r2.width + dx)) &&
    decide (toI32 (r1.y + r1.height) ≤ toI32 (r2.y + r2.height + dy)) &&
    (decide (n2 > MAX 3 n1) || decide (n1 < 3))

/-- The function `filterResult`: the first `insertion_point` entries of
`data` after the call.  The arrays `rrects` (from `malloc`) and `rweights`
(from `calloc`) start at zero. -/
def filterResult (fuel : Nat) (data : List CLWeightedRect) (group_threshold : Int) (eps : ℚ) :
    Option (List CLWeightedRect) :=
  (partitionData fuel data eps).map fun part =>
    let labels := part.1
    let nclasses := part.2.toNat
    let sums : Classes := (labels.zip data).foldl accumulateStep
      { rrects := fun _ => zeroRect, rweights := fun _ => 0 }
    let rrects : Nat → CLWeightedRect := fun i =>
      if i < nclasses then averageRect sums i else sums.rrects i
    (List.range nclasses).filterMap fun i =>
      if sums.rweights i ≤ group_threshold then none
      else if (List.range nclasses).any (suppresses rrects sums.rweights group_threshold eps i)
        then none
      else some (rrects i)

/-! ## `detectObjects` -/

/-- The block that fills `final_rect[i]` in `detectObjects`: the feature
rectangle scaled and rounded, and its weight divided by the window area.  The
rounded values are `cl_uint` stored in `int` fields. -/
def scaleFeatureRect (rect : CvHaarRect) (current_scale : ℚ) (scaled_window_area : Nat) :
    CLWeightedRect :=
  { x := (toU32 (cround ((rect.r.x : ℚ) * current_scale)) : Int),
    y := (toU32 (cround ((rect.r.y : ℚ) * current_scale)) : Int),
    width := (toU32 (cround ((rect.r.width : ℚ) * current_scale)) : Int),
    height := (toU32 (cround ((rect.r.height : ℚ) * current_scale)) : Int),
    weight := rect.weight / (scaled_window_area : ℚ) }

/-- The region sum `mats(integral_image, width + 1, x + r.x, y + r.y, r.width,
r.height)` of a scaled rectangle `r` for the window at `(x, y)`. -/
def regionSum (image : Image) (x y : Int) (r : CLWeightedRect) : Nat :=
  mats image.integral_image (image.width + 1) (x + r.x).toNat (y + r.y).toNat
    r.width.toNat r.height.toNat

/-- The variable `sum_rect_area` of `detectObjects` before the weight of the
first rectangle is derived from it. -/
def sumRectArea (feature : CvHaarFeature) (current_scale : ℚ) (scaled_window_area : Nat) : ℚ :=
  let final_rect1 := scaleFeatureRect feature.rect1 current_scale scaled_window_area
  let sum_rect_area : ℚ :=
    0 + final_rect1.weight * (final_rect1.width : ℚ) * (final_rect1.height : ℚ)
  if feature.rect2.weight ≠ 0 then
    let final_rect2 := scaleFeatureRect feature.rect2 current_scale scaled_window_area
    sum_rect_area + final_rect2.weight * (final_rect2.width : ℚ) * (final_rect2.height : ℚ)
  else sum_rect_area

/-- The variable `rect_sum` of `detectObjects` for one classifier's feature
at the window `(x, y)`. -/
def rectSum (image : Image) (current_scale : ℚ) (scaled_window_area : Nat) (x y : Int)
    (feature : CvHaarFeature) : ℚ :=
  let final_rect0 := scaleFeatureRect feature.rect0 current_scale scaled_window_area
  let first_rect_area : ℚ := ((final_rect0.width * final_rect0.height : Int) : ℚ)
  let final_rect1 := scaleFeatureRect feature.rect1 current_scale scaled_window_area
  let sum_rect_area := sumRectArea feature current_scale scaled_window_area
  let weight0 : ℚ := -sum_rect_area / first_rect_area
  0 + ((regionSum image x y final_rect0 : ℚ) * weight0
    + (regionSum image x y final_rect1 : ℚ) * final_rect1.weight)

/-- The variable `stage_sum` of `detectObjects` after the classifiers of one
stage: each classifier adds `alpha[rect_sum >= norm_threshold]`. -/
def stageSum (image : Image) (current_scale : ℚ) (scaled_window_area : Nat) (variance : ℚ)
    (x y : Int) (stage : CvHaarStageClassifier) : ℚ :=
  stage.classifier.foldl (fun stage_sum classifier =>
    stage_sum + classifier.alpha
      (decide (rectSum image current_scale scaled_window_area x y classifier.haar_feature
        ≥ classifier.threshold * variance))) 0

/-- The variable `exit_stage` of `detectObjects` for the window at `(x, y)`. -/
def windowExit (sq : ℚ → ℚ) (image : Image) (cascade : CvHaarClassifierCascade)
    (current_scale : ℚ) (x y : Int) : Int :=
  runStages (stageSum image current_scale (scaledWindowArea cascade current_scale)
    (windowVariance sq image cascade current_scale x y) x y) 0 cascade.stage_classifier

/-- The loop over the scales of `detectObjects`: the first argument is the
number of scales left, `scale_count - scale_index`. -/
def scanScales (sq : ℚ → ℚ) (image : Image) (cascade : CvHaarClassifierCascade)
    (min_window_width min_window_height max_window_width max_window_height : Nat) :
    Nat → ℚ → List CLWeightedRect
  | 0, _ => []
  | n + 1, current_scale =>
    match scaleAction image cascade min_window_width min_window_height max_window_width
        max_window_height current_scale with
    | ScaleAction.skip =>
      scanScales sq image cascade min_window_width min_window_height max_window_width
        max_window_height n (current_scale * scale_factor)
    | ScaleAction.stop => []
    | ScaleAction.scan =>
      scanScale image cascade current_scale (windowExit sq image cascade current_scale)
        ++ scanScales sq image cascade min_window_width min_window_height max_window_width
          max_window_height n (current_scale * scale_factor)

/-- The raw candidate list of `detectObjects`: the array `matches` before the
clusterer runs. -/
def rawMatches (sq : ℚ → ℚ) (fuel : Nat) (image : Image) (cascade : CvHaarClassifierCascade)
    (min_window_width min_window_height max_window_width max_window_height : Nat) :
    Option (List CLWeightedRect) :=
  (scaleCount fuel image cascade).map fun scale_count =>
    scanScales sq image cascade min_window_width min_window_height max_window_width
      max_window_height scale_count 1

/-- The function `detectObjects`: the first `*final_match_count` entries of
the returned array; the count is the length of the list. -/
def detectObjects (sq : ℚ → ℚ) (fuel : Nat) (image : Image) (cascade : CvHaarClassifierCascade)
    (min_window_width min_window_height max_window_width max_window_height
      min_neighbors : Nat) : Option (List CLWeightedRect) :=
  (rawMatches sq fuel image cascade min_window_width min_window_height max_window_width
    max_window_height).bind fun raw =>
      if min_neighbors ≠ 0 then filterResult fuel raw (toI32 (MAX min_neighbors 1)) EPS
      else some raw

/-! ## `detectObjectsOptimized` -/

/-- The struct `OptimizedRect`: four pointers into the sum table and a
weight. -/
structure OptimizedRect where
  sum_left_top : Nat
  sum_left_bottom : Nat
  sum_right_top : Nat
  sum_right_bottom : Nat
  weight : ℚ
  deriving DecidableEq

/-- The state of the precomputation loop: the array `opt_rectangles`, the
index `opt_rect_index` and the variables `first_rect_area` and
`sum_rect_area` of the current feature. -/
structure PrecomputeState where
  opt_rectangles : Nat → OptimizedRect
  opt_rect_index : Nat
  first_rect_area : ℚ
  sum_rect_area : ℚ

/-- The body of the loop over `i < MAX_FEATURE_RECT_COUNT` of the
precomputation, for rectangle `i` of a feature. -/
def precomputeRect (image : Image) (current_scale : ℚ) (scaled_window_area : Nat)
    (feature : CvHaarFeature) (st : PrecomputeState) (i : Nat) : PrecomputeState :=
  let cleared := Function.update st.opt_rectangles st.opt_rect_index
    { st.opt_rectangles st.opt_rect_index with weight := 0 }
  if (feature.rect i).weight ≠ 0 then
    let temp_rect := (feature.rect i).r
    let rect_x := toU32 (cround ((temp_rect.x : ℚ) * current_scale))
    let rect_y := toU32 (cround ((temp_rect.y : ℚ) * current_scale))
    let rect_width := toU32 (cround ((temp_rect.width : ℚ) * current_scale))
    let rect_height := toU32 (cround ((temp_rect.height : ℚ) * current_scale))
    let rect_weight : ℚ := (feature.rect i).weight / (scaled_window_area : ℚ)
    let filled := Function.update cleared st.opt_rect_index
      { sum_left_top := matp 0 (image.width + 1) rect_x rect_y,
        sum_right_top := matp 0 (image.width + 1) (rect_x + rect_width) rect_y,
        sum_left_bottom := matp 0 (image.width + 1) rect_x (rect_y + rect_height),
        sum_right_bottom := matp 0 (image.width + 1) (rect_x + rect_width) (rect_y + rect_height),
        weight := rect_weight }
    if i > 0 then
      { opt_rectangles := filled, opt_rect_index := st.opt_rect_index + 1,
        first_rect_area := st.first_rect_area,
        sum_rect_area := st.sum_rect_area + rect_weight * (rect_width : ℚ) * (rect_height : ℚ) }
    else
      { opt_rectangles := filled, opt_rect_index := st.opt_rect_index + 1,
        first_rect_area := ((rect_width * rect_height % 2 ^ 32 : Nat) : ℚ),
        sum_rect_area := st.sum_rect_area }
  else
    { opt_rectangles := cleared, opt_rect_index := st.opt_rect_index,
      first_rect_area := st.first_rect_area, sum_rect_area := st.sum_rect_area }

/-- The body of the loop over the classifiers of the precomputation: the
rectangles of the classifier's feature are appended to `opt_rectangles`, and
the weight of the first one is derived.  The variable `first_rect_area` has
no initial value in the source; it starts at `0` here. -/
def precomputeFeature (image : Image) (current_scale : ℚ) (scaled_window_area : Nat)
    (st : (Nat → OptimizedRect) × Nat) (classifier : CvHaarClassifier) :
    (Nat → OptimizedRect) × Nat :=
  let first_rect_index := st.2
  let done := [0, 1, 2].foldl
    (precomputeRect image current_scale scaled_window_area classifier.haar_feature)
    { opt_rectangles := st.1, opt_rect_index := st.2, first_rect_area := 0, sum_rect_area := 0 }
  (Function.update done.opt_rectangles first_rect_index
    { done.opt_rectangles first_rect_index with
      weight := -done.sum_rect_area / done.first_rect_area }, done.opt_rect_index)

/-- The precomputation of one scale: the array `opt_rectangles` after the
loops over the stages and their classifiers, from index `0`. -/
def precompute (image : Image) (cascade : CvHaarClassifierCascade) (current_scale : ℚ)
    (opt_rectangles : Nat → OptimizedRect) : Nat → OptimizedRect :=
  (cascade.stage_classifier.foldl (fun st stage =>
    stage.classifier.foldl
      (precomputeFeature image current_scale (scaledWindowArea cascade current_scale)) st)
    (opt_rectangles, 0)).1

/-- One term of `rect_sum` in `detectObjectsOptimized`: the four-corner sum
through the pointers of `r`, shifted by `offset`, times the weight of `r`. -/
def optTerm (image : Image) (r : OptimizedRect) (offset : Nat) : ℚ :=
  (matsp image.integral_image (r.sum_left_top + offset) (r.sum_right_top + offset)
    (r.sum_left_bottom + offset) (r.sum_right_bottom + offset) : ℚ) * r.weight

/-- The variable `rect_sum` of `detectObjectsOptimized` for the classifier
whose rectangles start at `opt_rect_index`. -/
def rectSumOptimized (image : Image) (opt_rectangles : Nat → OptimizedRect) (offset : Nat)
    (opt_rect_index : Nat) (feature : CvHaarFeature) : ℚ :=
  let rect_sum := optTerm image (opt_rectangles opt_rect_index) offset
    + optTerm image (opt_rectangles (opt_rect_index + 1)) offset
  if feature.rect2.weight ≠ 0 then
    rect_sum + optTerm image (opt_rectangles (opt_rect_index + 1 + 1)) offset
  else rect_sum

/-- The body of the loop over the classifiers of a stage in
`detectObjectsOptimized`: the state is `stage_sum` and `opt_rect_index`. -/
def classifierStepOptimized (image : Image) (opt_rectangles : Nat → OptimizedRect)
    (variance : ℚ) (offset : Nat) (st : ℚ × Nat) (classifier : CvHaarClassifier) : ℚ × Nat :=
  (st.1 + classifier.alpha
      (decide (rectSumOptimized image opt_rectangles offset st.2 classifier.haar_feature
        ≥ classifier.threshold * variance)),
    if classifier.haar_feature.rect2.weight ≠ 0 then st.2 + 1 + 1 + 1 else st.2 + 1 + 1)

/-- The loop over the stages of one window in `detectObjectsOptimized`, from
stage `stage_index` on, with the running `opt_rect_index`. -/
def runStagesOptimized (image : Image) (opt_rectangles : Nat → OptimizedRect) (variance : ℚ)
    (offset : Nat) : Nat → Nat → List CvHaarStageClassifier → Int
  | _, _, [] => 100
  | stage_index, opt_rect_index, stage :: rest =>
    let after := stage.classifier.foldl
      (classifierStepOptimized image opt_rectangles variance offset) (0, opt_rect_index)
    if after.1 < stage.threshold then exitStageOf stage_index
    else runStagesOptimized image opt_rectangles variance offset (stage_index + 1) after.2 rest

/-- The variable `exit_stage` of `detectObjectsOptimized` for the window at
`(x, y)`. -/
def windowExitOptimized (sq : ℚ → ℚ) (image : Image) (cascade : CvHaarClassifierCascade)
    (opt_rectangles : Nat → OptimizedRect) (current_scale : ℚ) (x y : Int) : Int :=
  runStagesOptimized image opt_rectangles (windowVariance sq image cascade current_scale x y)
    (mato (image.width + 1) x.toNat y.toNat) 0 0 cascade.stage_classifier

/-- The loop over the scales of `detectObjectsOptimized`, with the array
`opt_rectangles` as it is when the scale starts. -/
def scanScalesOptimized (sq : ℚ → ℚ) (image : Image) (cascade : CvHaarClassifierCascade)
    (min_window_width min_window_height max_window_width max_window_height : Nat) :
    Nat → ℚ → (Nat → OptimizedRect) → List CLWeightedRect
  | 0, _, _ => []
  | n + 1, current_scale, opt_rectangles =>
    match scaleAction image cascade min_window_width min_window_height max_window_width
        max_window_height current_scale with
    | ScaleAction.skip =>
      scanScalesOptimized sq image cascade min_window_width min_window_height max_window_width
        max_window_height n (current_scale * scale_factor) opt_rectangles
    | ScaleAction.stop => []
    | ScaleAction.scan =>
      scanScale image cascade current_scale
          (windowExitOptimized sq image cascade
            (precompute image cascade current_scale opt_rectangles) current_scale)
        ++ scanScalesOptimized sq image cascade min_window_width min_window_height
          max_window_width max_window_height n (current_scale * scale_factor)
          (precompute image cascade current_scale opt_rectangles)

/-- The raw candidate list of `detectObjectsOptimized`; `arena` is the
content of the freshly allocated array `opt_rectangles`. -/
def rawMatchesOptimized (sq : ℚ → ℚ) (fuel : Nat) (arena : Nat → OptimizedRect) (image : Image)
    (cascade : CvHaarClassifierCascade)
    (min_window_width min_window_height max_window_width max_window_height : Nat) :
    Option (List CLWeightedRect) :=
  (scaleCount fuel image cascade).map fun scale_count =>
    scanScalesOptimized sq image cascade min_window_width min_window_height max_window_width
      max_window_height scale_count 1 arena

/-- The function `detectObjectsOptimized`: the first `*final_match_count`
entries of the returned array. -/
def detectObjectsOptimized (sq : ℚ → ℚ) (fuel : Nat) (arena : Nat → OptimizedRect)
    (image : Image) (cascade : CvHaarClassifierCascade)
    (min_window_width min_window_height max_window_width max_window_height
      min_neighbors : Nat) : Option (List CLWeightedRect) :=
  (rawMatchesOptimized sq fuel arena image cascade min_window_width min_window_height
    max_window_width max_window_height).bind fun raw =>
      if min_neighbors ≠ 0 then filterResult fuel raw (toI32 (MAX min_neighbors 1)) EPS
      else some raw

/-! ## The scan, stated declaratively -/

/-- The x-indices that the loop over one row visits, counted from a visited
index `start`: `start` itself is visited, and `start + d + 1` is visited
unless `start + d` was visited and rejected by the first stage. -/
def visitedFrom (rejectedFirst : Nat → Bool) (start : Nat) : Nat → Bool
  | 0 => true
  | d + 1 => !(visitedFrom rejectedFirst start d && rejectedFirst (start + d))

/-- The x-indices that the loop over one row visits: index `0` is visited,
and `k + 1` is visited unless `k` was visited and rejected by the first
stage. -/
def visited (rejectedFirst : Nat → Bool) (x_index : Nat) : Bool :=
  visitedFrom rejectedFirst 0 x_index

/-- The pixel coordinate of a grid index at a scale: `round(index * step)`. -/
def gridCoord (current_scale : ℚ) (index : Nat) : Int :=
  cround ((index : ℚ) * ystepOf current_scale)

/-- The bound `end_x` of the scale of index `k`. -/
def gridEndX (image : Image) (cascade : CvHaarClassifierCascade) (k : Nat) : Int :=
  gridEnd image.width (scaledWindow cascade.orig_window_width (scaleAt k)) (ystepOf (scaleAt k))

/-- The bound `end_y` of the scale of index `k`. -/
def gridEndY (image : Image) (cascade : CvHaarClassifierCascade) (k : Nat) : Int :=
  gridEnd image.height (scaledWindow cascade.orig_window_height (scaleAt k))
    (ystepOf (scaleAt k))

/-- The rectangle of the window at grid position `(x_index, y_index)` of the
scale of index `k`. -/
def gridRect (cascade : CvHaarClassifierCascade) (k x_index y_index : Nat) : CLWeightedRect :=
  matchRect (gridCoord (scaleAt k) x_index) (gridCoord (scaleAt k) y_index)
    (scaledWindow cascade.orig_window_width (scaleAt k))
    (scaledWindow cascade.orig_window_height (scaleAt k))

/-- The stage sum of `detectObjects` for a stage at a grid window. -/
def gridStageSum (sq : ℚ → ℚ) (image : Image) (cascade : CvHaarClassifierCascade)
    (k x_index y_index : Nat) (stage : CvHaarStageClassifier) : ℚ :=
  stageSum image (scaleAt k) (scaledWindowArea cascade (scaleAt k))
    (windowVariance sq image cascade (scaleAt k) (gridCoord (scaleAt k) x_index)
      (gridCoord (scaleAt k) y_index))
    (gridCoord (scaleAt k) x_index) (gridCoord (scaleAt k) y_index) stage

/-- A grid window passes every stage of the cascade: no stage sum is below
the threshold of its stage. -/
def windowPasses (sq : ℚ → ℚ) (image : Image) (cascade : CvHaarClassifierCascade)
    (k x_index y_index : Nat) : Bool :=
  cascade.stage_classifier.all fun stage =>
    !decide (gridStageSum sq image cascade k x_index y_index stage < stage.threshold)

/-- A grid window is rejected by the first stage of the cascade. -/
def rejectedByFirstStage (sq : ℚ → ℚ) (image : Image) (cascade : CvHaarClassifierCascade)
    (k x_index y_index : Nat) : Bool :=
  match cascade.stage_classifier with
  | [] => false
  | stage :: _ => decide (gridStageSum sq image cascade k x_index y_index stage < stage.threshold)

/-- The grid positions of a row that `detectObjects` visits. -/
def rowVisited (sq : ℚ → ℚ) (image : Image) (cascade : CvHaarClassifierCascade)
    (k y_index x_index : Nat) : Bool :=
  visited (fun j => rejectedByFirstStage sq image cascade k j y_index) x_index

/-- The indices of the scales whose windows are scanned, among `count` scales
from index `start`: the scales before the first one that is bigger than the
image, without those outside the minimum and maximum window sizes. -/
def scannedScales (action : Nat → ScaleAction) (start count : Nat) : List Nat :=
  ((List.range' start count).takeWhile fun k => decide (action k ≠ ScaleAction.stop)).filter
    fun k => decide (action k = ScaleAction.scan)

/-- The action of the loop over the scales at the scale of index `k`. -/
def scaleActionAt (image : Image) (cascade : CvHaarClassifierCascade)
    (min_window_width min_window_height max_window_width max_window_height : Nat) (k : Nat) :
    ScaleAction :=
  scaleAction image cascade min_window_width min_window_height max_window_width
    max_window_height (scaleAt k)

/-- The windows that are visited and pass every stage, in scan order: scale,
then row, then column. -/
def survivors (sq : ℚ → ℚ) (image : Image) (cascade : CvHaarClassifierCascade)
    (min_window_width min_window_height max_window_width max_window_height : Nat)
    (scale_count : Nat) : List CLWeightedRect :=
  (scannedScales (scaleActionAt image cascade min_window_width min_window_height
      max_window_width max_window_height) 0 scale_count).flatMap fun k =>
    (List.range (gridEndY image cascade k).toNat).flatMap fun y_index =>
      ((List.range (gridEndX image cascade k).toNat).filter fun x_index =>
        rowVisited sq image cascade k y_index x_index &&
          windowPasses sq image cascade k x_index y_index).map fun x_index =>
        gridRect cascade k x_index y_index

/-- All the grid windows of the scanned scales, in scan order. -/
def allWindows (image : Image) (cascade : CvHaarClassifierCascade)
    (min_window_width min_window_height max_window_width max_window_height : Nat)
    (scale_count : Nat) : List CLWeightedRect :=
  (scannedScales (scaleActionAt image cascade min_window_width min_window_height
      max_window_width max_window_height) 0 scale_count).flatMap fun k =>
    (List.range (gridEndY image cascade k).toNat).flatMap fun y_index =>
      (List.range (gridEndX image cascade k).toNat).map fun x_index =>
        gridRect cascade k x_index y_index


/-! ## Concrete inputs -/

/-- The `21 x 21` image whose pixels are all `1`: both tables hold `r * c` at
row `r`, column `c` (stride `22`). -/
def onesImage : Image :=
  { width := 21, height := 21,
    integral_image := fun i => (i / 22) * (i % 22),
    square_integral_image := fun i => (((i / 22) * (i % 22) : Nat) : ℚ) }


/-- A feature with three active rectangles: `(0,0,4,4)` of weight `-1`,
`(0,0,2,2)` of weight `-1` and `(2,2,2,2)` of weight `2`. -/
def threeRectFeature : CvHaarFeature :=
  { rect0 := { r := { x := 0, y := 0, width := 4, height := 4 }, weight := -1 },
    rect1 := { r := { x := 0, y := 0, width := 2, height := 2 }, weight := -1 },
    rect2 := { r := { x := 2, y := 2, width := 2, height := 2 }, weight := 2 } }

/-- A cascade with canonical window `10 x 10` and one stage of threshold
`1/2`, whose one classifier has threshold `0`, alphas `0` and `1` and the
feature `threeRectFeature`. -/
def threeRectCascade : CvHaarClassifierCascade :=
  { orig_window_width := 10, orig_window_height := 10,
    stage_classifier :=
      [{ classifier := [{ haar_feature := threeRectFeature, threshold := 0,
                          alpha0 := 0, alpha1 := 1 }],
         threshold := 1 / 2 }] }

/-- An array `opt_rectangles` whose entries are all zero. -/
def zeroArena : Nat → OptimizedRect :=
  fun _ => { sum_left_top := 0, sum_left_bottom := 0, sum_right_top := 0,
             sum_right_bottom := 0, weight := 0 }

/-- A cascade with canonical window `10 x 10` and no stage. -/
def zeroStageCascade : CvHaarClassifierCascade :=
  { orig_window_width := 10, orig_window_height := 10, stage_classifier := [] }

/-- The `21 x 21` image whose pixels are `0` in columns `0` and `1` and `1`
elsewhere: both tables hold `r * (c - 2)` at row `r`, column `c >= 2`, and `0`
in the columns before. -/
def stepImage : Image :=
  { width := 21, height := 21,
    integral_image := fun i => (i / 22) * (i % 22 - 2),
    square_integral_image := fun i => (((i / 22) * (i % 22 - 2) : Nat) : ℚ) }

/-- A feature with two active rectangles, the pixel `(0,0)` and the pixel
`(2,0)` of the window, the second of weight `-64`. -/
def pixelPairFeature : CvHaarFeature :=
  { rect0 := { r := { x := 0, y := 0, width := 1, height := 1 }, weight := 1 },
    rect1 := { r := { x := 2, y := 0, width := 1, height := 1 }, weight := -64 },
    rect2 := { r := { x := 0, y := 0, width := 0, height := 0 }, weight := 0 } }

/-- A cascade with canonical window `10 x 10` and one stage of threshold
`1/2`, whose one classifier has threshold `0`, alphas `0` and `1` and the
feature `pixelPairFeature`. -/
def pixelPairCascade : CvHaarClassifierCascade :=
  { orig_window_width := 10, orig_window_height := 10,
    stage_classifier :=
      [{ classifier := [{ haar_feature := pixelPairFeature, threshold := 0,
                          alpha0 := 0, alpha1 := 1 }],
         threshold := 1 / 2 }] }

/-- The feature response as the specification words it: the weighted sum of
the region sums of the active rectangles of the feature, the third one
included when its weight is not zero, with the weights that `detectObjects`
normalises. -/
def weightedRectSum (image : Image) (current_scale : ℚ) (scaled_window_area : Nat) (x y : Int)
    (feature : CvHaarFeature) : ℚ :=
  let final_rect0 := scaleFeatureRect feature.rect0 current_scale scaled_window_area
  let final_rect1 := scaleFeatureRect feature.rect1 current_scale scaled_window_area
  let final_rect2 := scaleFeatureRect feature.rect2 current_scale scaled_window_area
  let weight0 : ℚ := -sumRectArea feature current_scale scaled_window_area
    / ((final_rect0.width * final_rect0.height : Int) : ℚ)
  (regionSum image x y final_rect0 : ℚ) * weight0
    + (regionSum image x y final_rect1 : ℚ) * final_rect1.weight
    + (if feature.rect2.weight ≠ 0 then
        (regionSum image x y final_rect2 : ℚ) * final_rect2.weight else 0)

/-- A `15 x 15` image with zero tables: it is not larger than the canonical
window `10 x 10` plus `10` pixels. -/
def smallImage : Image :=
  { width := 15, height := 15,
    integral_image := fun _ => 0,
    square_integral_image := fun _ => 0 }

/-! ## The partition, stated declaratively -/

/-- The loop `findRoot` started at `k` ends at `r`, with some number of
steps. -/
def RootOf (parent : Nat → Int) (k r : Nat) : Prop :=
  ∃ fuel, findRoot parent fuel k = some r

/-- Two nodes have the same root. -/
def SameClass (parent : Nat → Int) (a b : Nat) : Prop :=
  ∃ r, RootOf parent a r ∧ RootOf parent b r

/-- The array `nodes` is a forest over the indices below `N`: a parent entry
is `-1` or an index below `N`, only indices below `N` have a parent, the rank
grows strictly along every parent link, and every rank lies between `0` and
`B`. -/
structure Forest (N B : Nat) (nodes : Nodes) : Prop where
  parent_lt : ∀ k, 0 ≤ nodes.parent k → (nodes.parent k).toNat < N
  parent_neg : ∀ k, nodes.parent k < 0 → nodes.parent k = -1
  child_lt : ∀ k, 0 ≤ nodes.parent k → k < N
  rank_lt : ∀ k, 0 ≤ nodes.parent k → nodes.rank k < nodes.rank (nodes.parent k).toNat
  rank_nonneg : ∀ k, 0 ≤ nodes.rank k
  rank_le : ∀ k, nodes.rank k ≤ (B : Int)

/-- The test of the merge pass for the pair of indices `(i, j)`: both index
the list, they differ, and `areRectSimilar(&data[i], &data[j], eps)` holds. -/
def similarAt (data : List CLWeightedRect) (eps : ℚ) (i j : Nat) : Prop :=
  i < data.length ∧ j < data.length ∧ i ≠ j ∧
    areRectSimilar (data.getD i zeroRect) (data.getD j zeroRect) eps = true

/-- What the final pass of `partitionData` has established after the nodes
`0 .. m-1`: one label per node; the class ids handed out are `0 ..
nclasses-1`, each to one root (whose rank holds the complement of the id),
each used by some node; and the label of a node is the id of its root. -/
structure LabelInv (parent : Nat → Int) (m : Nat) (st : LabelState) : Prop where
  length_eq : st.labels.length = m
  nclasses_nonneg : 0 ≤ st.nclasses
  nclasses_le : st.nclasses ≤ (m : Int)
  rank_ge : ∀ k, st.rank k < 0 → -st.nclasses ≤ st.rank k
  rank_inj : ∀ k k2, st.rank k < 0 → st.rank k = st.rank k2 → k = k2
  label_eq : ∀ i, i < m →
    ∃ r, RootOf parent i r ∧ st.rank r < 0 ∧ st.labels.getD i 0 = -(st.rank r) - 1
  label_used : ∀ c : Int, 0 ≤ c → c < st.nclasses → ∃ i, i < m ∧ st.labels.getD i 0 = c

/-- The input list rearranged by a permutation of its indices: entry `i` of
the new list is entry `σ i` of `data`. -/
def permuteData (data : List CLWeightedRect) (σ : Equiv.Perm (Fin data.length)) :
    List CLWeightedRect :=
  List.ofFn fun i => data.get (σ i)

/-- Three rectangles of size `10 x 10` in a chain: the first is similar to
the second and the second to the third, the first and the third are not
similar (tolerance `1/5`, so `delta = 2`). -/
def chainData : List CLWeightedRect :=
  [{ x := 0, y := 0, width := 10, height := 10, weight := 0 },
   { x := 2, y := 0, width := 10, height := 10, weight := 0 },
   { x := 4, y := 0, width := 10, height := 10, weight := 0 }]

/-- The value `delta` of the similarity test:
`eps * 0.5 * (min(width1, width2) + min(height1, height2))`. -/
def similarityDelta (r1 r2 : CLWeightedRect) (eps : ℚ) : ℚ :=
  eps * (1 / 2) * (((min r1.width r2.width + min r1.height r2.height : Int)) : ℚ)

/-- The similarity test as the specification words it: the centers (in x and
in y) and the extents (width and height) of the two rectangles each differ by
no more than `delta`. -/
def centersAndExtentsClose (r1 r2 : CLWeightedRect) (eps : ℚ) : Bool :=
  decide (|((r1.x : ℚ) + (r1.width : ℚ) / 2) - ((r2.x : ℚ) + (r2.width : ℚ) / 2)|
    ≤ similarityDelta r1 r2 eps) &&
  decide (|((r1.y : ℚ) + (r1.height : ℚ) / 2) - ((r2.y : ℚ) + (r2.height : ℚ) / 2)|
    ≤ similarityDelta r1 r2 eps) &&
  decide (|(r1.width : ℚ) - (r2.width : ℚ)| ≤ similarityDelta r1 r2 eps) &&
  decide (|(r1.height : ℚ) - (r2.height : ℚ)| ≤ similarityDelta r1 r2 eps)

/-- The rectangle `(0, 0, 10, 10)`. -/
def wideRect : CLWeightedRect :=
  { x := 0, y := 0, width := 10, height := 10, weight := 0 }

/-- The rectangle `(1, 0, 8, 10)`: its left and right edges are `1` away from
those of `wideRect`, its width is `2` less, its center is the same. -/
def narrowRect : CLWeightedRect :=
  { x := 1, y := 0, width := 8, height := 10, weight := 0 }

/-- The rectangle whose fields are given, with weight `0`, as the scanner
records it. -/
def rawRect (x y width height : Int) : CLWeightedRect :=
  { x := x, y := y, width := width, height := height, weight := 0 }

/-- The average of a list of rectangles as the specification words it: the
sums of `x`, `y`, `width` and `height` divided by the number of members and
converted to an integer, with the number of members as the weight. -/
def meanRect (members : List CLWeightedRect) : CLWeightedRect :=
  { x := ctrunc (((members.map fun r => r.x).sum : ℚ) / (members.length : ℚ)),
    y := ctrunc (((members.map fun r => r.y).sum : ℚ) / (members.length : ℚ)),
    width := ctrunc (((members.map fun r => r.width).sum : ℚ) / (members.length : ℚ)),
    height := ctrunc (((members.map fun r => r.height).sum : ℚ) / (members.length : ℚ)),
    weight := (members.length : ℚ) }

/-- Two similar rectangles, `(10, 20, 30, 40)` and `(12, 20, 30, 40)`. -/
def nearPair : List CLWeightedRect :=
  [rawRect 10 20 30 40, rawRect 12 20 30 40]

/-- Four copies of `(0, 0, 10, 10)` and one rectangle `(1000, 1000, 10, 10)`
far from them. -/
def groupAndOutlier : List CLWeightedRect :=
  [rawRect 0 0 10 10, rawRect 0 0 10 10, rawRect 0 0 10 10, rawRect 0 0 10 10,
   rawRect 1000 1000 10 10]

/-- The arrays `rrects` and `rweights` of `filterResult` after its first
loop, for the labels that `partitionData` returned. -/
def classSums (labels : List Int) (data : List CLWeightedRect) : Classes :=
  (labels.zip data).foldl accumulateStep
    { rrects := fun _ => zeroRect, rweights := fun _ => 0 }

/-- The condition of the scale-counting loop of `detectObjects` at the scale
`1.1 ^ k`: the scaled canonical window is below the image size less `10`, in
both dimensions. -/
def scaleFits (image : Image) (cascade : CvHaarClassifierCascade) (k : Nat) : Prop :=
  scaleAt k * (cascade.orig_window_width : ℚ) < ((image.width : Int) - 10 : Int) ∧
  scaleAt k * (cascade.orig_window_height : ℚ) < ((image.height : Int) - 10 : Int)

instance (image : Image) (cascade : CvHaarClassifierCascade) (k : Nat) :
    Decidable (scaleFits image cascade k) :=
  inferInstanceAs (Decidable (_ ∧ _))

/-- A `40 x 40` image without content, for the scale-counting loop: with the
canonical window `10 x 10` the loop counts the scales below `3`. -/
def plainImage : Image :=
  { width := 40, height := 40,
    integral_image := fun _ => 0,
    square_integral_image := fun _ => 0 }


/-! ## The precomputed rectangles, stated declaratively -/

/-- The value `(cl_uint)round(v * current_scale)` of a field `v` of a feature
rectangle. -/
def scaledCoord (v : Int) (current_scale : ℚ) : Nat :=
  toU32 (cround ((v : ℚ) * current_scale))

/-- The entry of `opt_rectangles` that the precomputation fills for an active
rectangle of a feature: the four pointers to the corners of the scaled
rectangle in the sum table, and the weight divided by the window area. -/
def optRect (image : Image) (current_scale : ℚ) (scaled_window_area : Nat) (rect : CvHaarRect) :
    OptimizedRect :=
  { sum_left_top := matp 0 (image.width + 1) (scaledCoord rect.r.x current_scale)
      (scaledCoord rect.r.y current_scale),
    sum_right_top := matp 0 (image.width + 1)
      (scaledCoord rect.r.x current_scale + scaledCoord rect.r.width current_scale)
      (scaledCoord rect.r.y current_scale),
    sum_left_bottom := matp 0 (image.width + 1) (scaledCoord rect.r.x current_scale)
      (scaledCoord rect.r.y current_scale + scaledCoord rect.r.height current_scale),
    sum_right_bottom := matp 0 (image.width + 1)
      (scaledCoord rect.r.x current_scale + scaledCoord rect.r.width current_scale)
      (scaledCoord rect.r.y current_scale + scaledCoord rect.r.height current_scale),
    weight := rect.weight / (scaled_window_area : ℚ) }

/-- The variable `sum_rect_area` of the precomputation after the three
rectangles of a feature whose second rectangle is active. -/
def sumRectAreaOptimized (feature : CvHaarFeature) (current_scale : ℚ)
    (scaled_window_area : Nat) : ℚ :=
  let sum_rect_area : ℚ := 0 + feature.rect1.weight / (scaled_window_area : ℚ)
    * (scaledCoord feature.rect1.r.width current_scale : ℚ)
    * (scaledCoord feature.rect1.r.height current_scale : ℚ)
  if feature.rect2.weight ≠ 0 then
    sum_rect_area + feature.rect2.weight / (scaled_window_area : ℚ)
      * (scaledCoord feature.rect2.r.width current_scale : ℚ)
      * (scaledCoord feature.rect2.r.height current_scale : ℚ)
  else sum_rect_area

/-- The variable `first_rect_area` of the precomputation: a `cl_uint`
product. -/
def firstRectAreaOptimized (feature : CvHaarFeature) (current_scale : ℚ) : Nat :=
  scaledCoord feature.rect0.r.width current_scale
    * scaledCoord feature.rect0.r.height current_scale % 2 ^ 32

/-- The `21 x 21` image whose pixels are all `7`, with the tables that
`integralTable` gives for it. -/
def flatImage : Image :=
  { width := 21, height := 21,
    integral_image := integralTable 21 21 (fun _ _ => 7),
    square_integral_image := fun i => ((integralTable 21 21 (fun _ _ => 49) i : Nat) : ℚ) }

/-- The one classifier of `threeRectCascade`. -/
def threeRectClassifier : CvHaarClassifier :=
  { haar_feature := threeRectFeature, threshold := 0, alpha0 := 0, alpha1 := 1 }

/-- A value of a C floating type. -/
inductive CFloat where
  | finite (value : ℚ)
  | posInf
  | negInf
  | nan
  deriving DecidableEq

/-- The number of binary digits of `n`, with `fuel` at least that number. -/
def bitLength : Nat → Nat → Nat
  | 0, _ => 0
  | fuel + 1, n => if n = 0 then 0 else bitLength fuel (n / 2) + 1

/-- The exponent of a non-zero rational: the `e` with
`2 ^ e ≤ |q| < 2 ^ (e + 1)`. -/
def ilog2 (q : ℚ) : Int :=
  let e : Int := (bitLength q.num.natAbs q.num.natAbs : Int) - (bitLength q.den q.den : Int)
  if (2 : ℚ) ^ e ≤ |q| then e else e - 1

/-- Rounding to `prec` significant bits with the least exponent `emin`: the
nearest multiple of the unit in the last place, ties to even. -/
def roundTo (prec : Nat) (emin : Int) (q : ℚ) : ℚ :=
  if q = 0 then 0
  else
    let e := max (ilog2 q) emin
    let ulp : ℚ := (2 : ℚ) ^ (e - ((prec : Int) - 1))
    (clrint (q / ulp) : ℚ) * ulp

/-- Rounding to a floating type with `prec` significant bits and exponents
from `emin` to `emax`: a rounded value of `2 ^ (emax + 1)` or more in
magnitude is an infinity. -/
def fpRound (prec : Nat) (emin emax : Int) (q : ℚ) : CFloat :=
  let r := roundTo prec emin q
  if (2 : ℚ) ^ (emax + 1) ≤ r then CFloat.posInf
  else if r ≤ -(2 : ℚ) ^ (emax + 1) then CFloat.negInf
  else CFloat.finite r

/-- Rounding to `float` (IEEE single precision). -/
def f32 (q : ℚ) : CFloat :=
  fpRound 24 (-126) 127 q

/-- Rounding to `double` (IEEE double precision). -/
def f64 (q : ℚ) : CFloat :=
  fpRound 53 (-1022) 1023 q

/-- Conversion of a floating value to the type whose rounding is `rnd`. -/
def CFloat.cast (rnd : ℚ → CFloat) : CFloat → CFloat
  | CFloat.finite x => rnd x
  | CFloat.posInf => CFloat.posInf
  | CFloat.negInf => CFloat.negInf
  | CFloat.nan => CFloat.nan

/-- The negation of a floating value. -/
def CFloat.neg : CFloat → CFloat
  | CFloat.finite x => CFloat.finite (-x)
  | CFloat.posInf => CFloat.negInf
  | CFloat.negInf => CFloat.posInf
  | CFloat.nan => CFloat.nan

/-- The sum of two floating values in the type whose rounding is `rnd`. -/
def CFloat.add (rnd : ℚ → CFloat) : CFloat → CFloat → CFloat
  | CFloat.finite x, CFloat.finite y => rnd (x + y)
  | CFloat.finite _, CFloat.posInf => CFloat.posInf
  | CFloat.finite _, CFloat.negInf => CFloat.negInf
  | CFloat.posInf, CFloat.finite _ => CFloat.posInf
  | CFloat.posInf, CFloat.posInf => CFloat.posInf
  | CFloat.negInf, CFloat.finite _ => CFloat.negInf
  | CFloat.negInf, CFloat.negInf => CFloat.negInf
  | _, _ => CFloat.nan

/-- The difference of two floating values. -/
def CFloat.sub (rnd : ℚ → CFloat) (a b : CFloat) : CFloat :=
  CFloat.add rnd a b.neg

/-- The infinity with the sign of `x * y`, and NaN when `x` is zero. -/
def CFloat.infOfSign (x : ℚ) (positive : Bool) : CFloat :=
  if x = 0 then CFloat.nan
  else if decide (0 < x) = positive then CFloat.posInf else CFloat.negInf

/-- The product of two floating values. -/
def CFloat.mul (rnd : ℚ → CFloat) : CFloat → CFloat → CFloat
  | CFloat.finite x, CFloat.finite y => rnd (x * y)
  | CFloat.finite x, CFloat.posInf => CFloat.infOfSign x true
  | CFloat.finite x, CFloat.negInf => CFloat.infOfSign x false
  | CFloat.posInf, CFloat.finite y => CFloat.infOfSign y true
  | CFloat.negInf, CFloat.finite y => CFloat.infOfSign y false
  | CFloat.posInf, CFloat.posInf => CFloat.posInf
  | CFloat.posInf, CFloat.negInf => CFloat.negInf
  | CFloat.negInf, CFloat.posInf => CFloat.negInf
  | CFloat.negInf, CFloat.negInf => CFloat.posInf
  | _, _ => CFloat.nan

/-- The quotient of two floating values; a zero divisor is `+0`. -/
def CFloat.div (rnd : ℚ → CFloat) : CFloat → CFloat → CFloat
  | CFloat.finite x, CFloat.finite y =>
    if y = 0 then
      if x = 0 then CFloat.nan else if 0 < x then CFloat.posInf else CFloat.negInf
    else rnd (x / y)
  | CFloat.finite _, CFloat.posInf => CFloat.finite 0
  | CFloat.finite _, CFloat.negInf => CFloat.finite 0
  | CFloat.posInf, CFloat.finite y => if 0 ≤ y then CFloat.posInf else CFloat.negInf
  | CFloat.negInf, CFloat.finite y => if 0 ≤ y then CFloat.negInf else CFloat.posInf
  | _, _ => CFloat.nan

/-- The comparison `a < b` of two floating values: false when one is NaN. -/
def CFloat.lt : CFloat → CFloat → Bool
  | CFloat.finite x, CFloat.finite y => decide (x < y)
  | CFloat.finite _, CFloat.posInf => true
  | CFloat.negInf, CFloat.finite _ => true
  | CFloat.negInf, CFloat.posInf => true
  | _, _ => false

/-- The comparison `a <= b` of two floating values: false when one is NaN. -/
def CFloat.le : CFloat → CFloat → Bool
  | CFloat.finite x, CFloat.finite y => decide (x ≤ y)
  | CFloat.finite _, CFloat.posInf => true
  | CFloat.negInf, CFloat.finite _ => true
  | CFloat.negInf, CFloat.posInf => true
  | CFloat.posInf, CFloat.posInf => true
  | CFloat.negInf, CFloat.negInf => true
  | _, _ => false

/-- The comparison `a >= b` of two floating values: false when one is NaN. -/
def CFloat.ge (a b : CFloat) : Bool :=
  CFloat.le b a

/-- The square root of a floating value, for a root `sq` of the non-negative
rationals: NaN for a negative value and for NaN. -/
def CFloat.sqrt (sq : ℚ → ℚ) : CFloat → CFloat
  | CFloat.finite x => if 0 ≤ x then CFloat.finite (sq x) else CFloat.nan
  | CFloat.posInf => CFloat.posInf
  | _ => CFloat.nan

/-- The loop of the integer square root: the bits of the root from bit `b`
down, for the root `r` found so far. -/
def isqrtLoop (n : Nat) : Nat → Nat → Nat
  | 0, r => r
  | b + 1, r =>
    if (r + 2 ^ b) * (r + 2 ^ b) ≤ n then isqrtLoop n b (r + 2 ^ b) else isqrtLoop n b r

/-- The integer square root: the greatest `r` with `r * r ≤ n`. -/
def isqrt (n : Nat) : Nat :=
  isqrtLoop n (bitLength n n) 0

/-- The square root of a non-negative `float`, rounded to `float`: the
multiple of the unit in the last place of the root that is nearest to the
root.  It is the value of C `sqrt` at a `float` argument, stored in a
`float`. -/
def sqrtF32 (q : ℚ) : ℚ :=
  if q ≤ 0 then 0
  else
    let e : Int := ilog2 q / 2
    let ulp : ℚ := (2 : ℚ) ^ (e - 23)
    let t : ℚ := q / (ulp * ulp)
    let n : Nat := isqrt ⌊t⌋.toNat
    let m : Nat :=
      if 4 * t < ((2 * n + 1 : Nat) : ℚ) ^ 2 then n
      else if ((2 * n + 1 : Nat) : ℚ) ^ 2 < 4 * t then n + 1
      else if n % 2 = 0 then n else n + 1
    (m : ℚ) * ulp

/-! ## The scale-counting loop in single precision -/

/-- The variable `scale_factor` (`float scale_factor = 1.1`): the `float`
nearest to `1.1`. -/
def scaleFactorF32 : CFloat :=
  f32 (11 / 10)

/-- The variable `current_scale` after `k` multiplications by the scale
factor, each rounded to `float`. -/
def scaleAtF32 : Nat → CFloat
  | 0 => CFloat.finite 1
  | k + 1 => CFloat.mul f32 (scaleAtF32 k) scaleFactorF32

/-- The condition of the scale-counting loop:
`current_scale * width < image->width - 10 && current_scale * height <
image->height - 10`, with the `int` operands converted to `float` and the
products rounded to `float`. -/
def scaleFitsF32 (image : Image) (cascade : CvHaarClassifierCascade) (current_scale : CFloat) :
    Bool :=
  CFloat.lt (CFloat.mul f32 current_scale (f32 (cascade.orig_window_width : ℚ)))
      (f32 (((image.width : Int) - 10 : Int) : ℚ)) &&
    CFloat.lt (CFloat.mul f32 current_scale (f32 (cascade.orig_window_height : ℚ)))
      (f32 (((image.height : Int) - 10 : Int) : ℚ))

/-- The scale-counting loop of `detectObjects` in single precision. -/
def scaleCountLoopF32 (image : Image) (cascade : CvHaarClassifierCascade) :
    Nat → CFloat → Nat → Option Nat
  | 0, _, _ => none
  | fuel + 1, current_scale, scale_count =>
    if scaleFitsF32 image cascade current_scale = true then
      scaleCountLoopF32 image cascade fuel (CFloat.mul f32 current_scale scaleFactorF32)
        (scale_count + 1)
    else some scale_count

/-- The variable `scale_count` after the counting loop, in single
precision. -/
def scaleCountF32 (fuel : Nat) (image : Image) (cascade : CvHaarClassifierCascade) :
    Option Nat :=
  scaleCountLoopF32 image cascade fuel (CFloat.finite 1) 0

/-- A `1321 x 1321` image without content. -/
def largeImage : Image :=
  { width := 1321, height := 1321,
    integral_image := fun _ => 0,
    square_integral_image := fun _ => 0 }

/-- A cascade with canonical window `100 x 100` and no stage. -/
def largeWindowCascade : CvHaarClassifierCascade :=
  { orig_window_width := 100, orig_window_height := 100, stage_classifier := [] }

/-! ## The similarity test and the partition in single precision -/

/-- The function `areRectSimilar` in single precision: `eps` is a `float`,
the `int` sum of the minima is converted to `float` for the product, the
factor `0.5` is a `double`, the result is stored in the `float` variable
`delta`, and each `int` absolute difference is converted to `float` for its
comparison with `delta`. -/
def areRectSimilarF32 (r1 r2 : CLWeightedRect) (eps : CFloat) : Bool :=
  let delta : CFloat := CFloat.cast f32 (CFloat.mul f64
    (CFloat.mul f32 eps
      (f32 ((toI32 (min r1.width r2.width + min r1.height r2.height) : Int) : ℚ)))
    (CFloat.finite (1 / 2)))
  CFloat.le (f32 ((|toI32 (r1.x - r2.x)| : Int) : ℚ)) delta &&
  CFloat.le (f32 ((|toI32 (r1.y - r2.y)| : Int) : ℚ)) delta &&
  CFloat.le (f32 ((|toI32 (r1.x + r1.width - r2.x - r2.width)| : Int) : ℚ)) delta &&
  CFloat.le (f32 ((|toI32 (r1.y + r1.height - r2.y - r2.height)| : Int) : ℚ)) delta

/-- The body of the loop over `j` in the merge pass of `partitionData`, with
the similarity test in single precision. -/
def mergeStepF32 (fuel : Nat) (data : List CLWeightedRect) (eps : CFloat) (i : Nat)
    (st : Nodes × Nat) (j : Nat) : Option (Nodes × Nat) :=
  if i = j ∨ areRectSimilarF32 (data.getD i zeroRect) (data.getD j zeroRect) eps = false then
    some st
  else
    (findRoot st.1.parent fuel j).bind fun root2 =>
      if root2 ≠ st.2 then
        let rank := st.1.rank st.2
        let rank2 := st.1.rank root2
        let merged : Nodes × Nat :=
          if rank > rank2 then
            ({ parent := Function.update st.1.parent root2 (st.2 : Int), rank := st.1.rank }, st.2)
          else
            ({ parent := Function.update st.1.parent st.2 (root2 : Int),
               rank := Function.update st.1.rank root2
                 (rank2 + (if rank = rank2 then 1 else 0)) }, root2)
        (compressPath merged.2 fuel merged.1.parent j).bind fun parent2 =>
          (compressPath merged.2 fuel parent2 i).bind fun parent3 =>
            some ({ parent := parent3, rank := merged.1.rank }, merged.2)
      else some st

/-- The body of the loop over `i` in the merge pass of `partitionData`, with
the similarity test in single precision. -/
def mergeRowF32 (fuel : Nat) (data : List CLWeightedRect) (eps : CFloat) (nodes : Nodes)
    (i : Nat) : Option Nodes :=
  (findRoot nodes.parent fuel i).bind fun root =>
    ((List.range data.length).foldlM (mergeStepF32 fuel data eps i) (nodes, root)).map Prod.fst

/-- The function `partitionData` with the similarity test in single
precision: the array `labels` and the returned `nclasses`. -/
def partitionDataF32 (fuel : Nat) (data : List CLWeightedRect) (eps : CFloat) :
    Option (List Int × Int) :=
  let nodes0 : Nodes := { parent := fun _ => -1, rank := fun _ => 0 }
  ((List.range data.length).foldlM (mergeRowF32 fuel data eps) nodes0).bind fun nodes =>
    ((List.range data.length).foldlM (labelStep fuel nodes.parent)
      { rank := nodes.rank, nclasses := 0, labels := [] }).map fun st =>
        (st.labels, st.nclasses)

/-- The macro `EPS` (`0.2`) as the `cl_float` parameter `eps` receives it. -/
def epsF32 : CFloat :=
  f32 EPS

/-- The value `delta` of the similarity test in single precision, for
rectangles whose sizes do not overflow an `int`:
`eps * (min(width1, width2) + min(height1, height2)) * 0.5`. -/
def similarityDeltaF32 (r1 r2 : CLWeightedRect) (eps : CFloat) : CFloat :=
  CFloat.cast f32 (CFloat.mul f64
    (CFloat.mul f32 eps (f32 ((min r1.width r2.width + min r1.height r2.height : Int) : ℚ)))
    (CFloat.finite (1 / 2)))

/-- The four edges (left, top, right, bottom) of the two rectangles each
differ by no more than the single-precision `delta`; the differences are
the exact integers. -/
def edgesCloseF32 (r1 r2 : CLWeightedRect) (eps : CFloat) : Bool :=
  CFloat.le (CFloat.finite |(r1.x : ℚ) - (r2.x : ℚ)|) (similarityDeltaF32 r1 r2 eps) &&
  CFloat.le (CFloat.finite |(r1.y : ℚ) - (r2.y : ℚ)|) (similarityDeltaF32 r1 r2 eps) &&
  CFloat.le (CFloat.finite |((r1.x : ℚ) + (r1.width : ℚ)) - ((r2.x : ℚ) + (r2.width : ℚ))|)
    (similarityDeltaF32 r1 r2 eps) &&
  CFloat.le (CFloat.finite |((r1.y : ℚ) + (r1.height : ℚ)) - ((r2.y : ℚ) + (r2.height : ℚ))|)
    (similarityDeltaF32 r1 r2 eps)

/-- A rectangle whose coordinates and sizes lie between `-2^22` and `2^22`:
the `int` sums and differences of the similarity test are then below `2^24`
in magnitude, and their conversion to `float` is exact. -/
def ExactRect (r : CLWeightedRect) : Prop :=
  (-2 ^ 22 ≤ r.x ∧ r.x < 2 ^ 22) ∧ (-2 ^ 22 ≤ r.y ∧ r.y < 2 ^ 22) ∧
  (-2 ^ 22 ≤ r.width ∧ r.width < 2 ^ 22) ∧ (-2 ^ 22 ≤ r.height ∧ r.height < 2 ^ 22)

/-- The distance in x between the centers of two rectangles. -/
def centerOffsetX (r1 r2 : CLWeightedRect) : ℚ :=
  |((r1.x : ℚ) + (r1.width : ℚ) / 2) - ((r2.x : ℚ) + (r2.width : ℚ) / 2)|

/-- The distance in y between the centers of two rectangles. -/
def centerOffsetY (r1 r2 : CLWeightedRect) : ℚ :=
  |((r1.y : ℚ) + (r1.height : ℚ) / 2) - ((r2.y : ℚ) + (r2.height : ℚ) / 2)|

/-- The rectangle `(0, 0, 83886080, 83886080)`. -/
def hugeRect : CLWeightedRect :=
  { x := 0, y := 0, width := 83886080, height := 83886080, weight := 0 }

/-- The rectangle `(16777217, 0, 83886080, 83886080)`: `hugeRect` moved to
the right by `2^24 + 1`. -/
def shiftedHugeRect : CLWeightedRect :=
  { x := 16777217, y := 0, width := 83886080, height := 83886080, weight := 0 }

/-! ## The window variance and the stages in single precision -/

/-- The conversion `(cl_uint)round(v)` of a floating value.  The conversion
of an infinity or of a NaN is not defined by the language; it is `0` here. -/
def roundU32 : CFloat → Nat
  | CFloat.finite q => toU32 (cround q)
  | _ => 0

/-- The value `equ_rect_x` (and `equ_rect_y`) for a `float` scale. -/
def equRectXF32 (current_scale : CFloat) : Nat :=
  roundU32 current_scale

/-- The value `equ_rect_width` (or height, for the canonical height) for a
`float` scale: the `int` value `orig - 2` is converted to `float` and the
product is rounded to `float`. -/
def equRectSizeF32 (orig : Nat) (current_scale : CFloat) : Nat :=
  roundU32 (CFloat.mul f32 (f32 (((orig : Int) - 2 : Int) : ℚ)) current_scale)

/-- The value `scaled_window_area` for a `float` scale, a `cl_uint`
product. -/
def scaledWindowAreaF32 (cascade : CvHaarClassifierCascade) (current_scale : CFloat) : Nat :=
  (equRectSizeF32 cascade.orig_window_width current_scale
    * equRectSizeF32 cascade.orig_window_height current_scale) % 2 ^ 32

/-- The macro `mats(matrix,stride,x,y,w,h)` on the `cl_double` buffer of
squared sums, each difference and sum rounded to `double`. -/
def matsF64 (matrix : Nat → ℚ) (stride x y w h : Nat) : CFloat :=
  CFloat.add f64
    (CFloat.sub f64
      (CFloat.sub f64 (CFloat.finite (mate matrix stride x y))
        (CFloat.finite (mate matrix stride (x + w) y)))
      (CFloat.finite (mate matrix stride x (y + h))))
    (CFloat.finite (mate matrix stride (x + w) (y + h)))

/-- The statement "Fix wrong variance" on a `float`: the square root when
`variance >= 0` holds, and `1` otherwise, that is for a negative value and
for a NaN. -/
def normVarianceF32 (sq : ℚ → ℚ) (variance : CFloat) : CFloat :=
  if CFloat.ge variance (CFloat.finite 0) = true then CFloat.sqrt sq variance
  else CFloat.finite 1

/-- The `float` variable `variance` of the window at `(x, y)` before the
statement "Fix wrong variance": `mean` is the `float` quotient of the region
sum and the area, both converted to `float`; the squared sum is taken in
`double` and converted to `float`; the quotient, the square of the mean and
their difference are each rounded to `float`. -/
def rawVarianceF32 (image : Image) (cascade : CvHaarClassifierCascade) (current_scale : CFloat)
    (x y : Int) : CFloat :=
  let equ_rect_x := equRectXF32 current_scale
  let equ_rect_y := equ_rect_x
  let equ_rect_width := equRectSizeF32 cascade.orig_window_width current_scale
  let equ_rect_height := equRectSizeF32 cascade.orig_window_height current_scale
  let scaled_window_area := scaledWindowAreaF32 cascade current_scale
  let mean : CFloat := CFloat.div f32
    (f32 (mats image.integral_image (image.width + 1) (x + equ_rect_x).toNat
      (y + equ_rect_y).toNat equ_rect_width equ_rect_height : ℚ))
    (f32 (scaled_window_area : ℚ))
  let variance : CFloat := CFloat.cast f32 (matsF64 image.square_integral_image
    (image.width + 1) (x + equ_rect_x).toNat (y + equ_rect_y).toNat equ_rect_width
    equ_rect_height)
  CFloat.sub f32 (CFloat.div f32 variance (f32 (scaled_window_area : ℚ)))
    (CFloat.mul f32 mean mean)

/-- The `float` variable `variance` that the stages of the window at `(x, y)`
use. -/
def windowVarianceF32 (sq : ℚ → ℚ) (image : Image) (cascade : CvHaarClassifierCascade)
    (current_scale : CFloat) (x y : Int) : CFloat :=
  normVarianceF32 sq (rawVarianceF32 image cascade current_scale x y)

/-- An entry of the array `final_rect` of `detectObjects`, with its `float`
weight. -/
structure FinalRect where
  x : Int
  y : Int
  width : Int
  height : Int
  weight : CFloat
  deriving DecidableEq

/-- The block that fills `final_rect[i]` in `detectObjects`, for a `float`
scale: each field of the feature rectangle is converted to `float`,
multiplied by the scale, rounded and converted to `cl_uint`; the weight is
the `float` quotient of the feature weight and the window area. -/
def finalRectF32 (rect : CvHaarRect) (current_scale : CFloat) (scaled_window_area : Nat) :
    FinalRect :=
  { x := (roundU32 (CFloat.mul f32 (f32 (rect.r.x : ℚ)) current_scale) : Int),
    y := (roundU32 (CFloat.mul f32 (f32 (rect.r.y : ℚ)) current_scale) : Int),
    width := (roundU32 (CFloat.mul f32 (f32 (rect.r.width : ℚ)) current_scale) : Int),
    height := (roundU32 (CFloat.mul f32 (f32 (rect.r.height : ℚ)) current_scale) : Int),
    weight := CFloat.div f32 (CFloat.finite rect.weight) (f32 (scaled_window_area : ℚ)) }

/-- The region sum `mats(integral_image, width + 1, x + r.x, y + r.y, r.width,
r.height)` of an entry of `final_rect` for the window at `(x, y)`. -/
def regionSumF32 (image : Image) (x y : Int) (r : FinalRect) : Nat :=
  mats image.integral_image (image.width + 1) (x + r.x).toNat (y + r.y).toNat
    r.width.toNat r.height.toNat

/-- The term `weight * width * height` that is added to `sum_rect_area`: two
`float` products. -/
def weightedAreaF32 (r : FinalRect) : CFloat :=
  CFloat.mul f32 (CFloat.mul f32 r.weight (f32 (r.width : ℚ))) (f32 (r.height : ℚ))

/-- The `float` variable `sum_rect_area` of `detectObjects` before the weight
of the first rectangle is derived from it. -/
def sumRectAreaF32 (feature : CvHaarFeature) (current_scale : CFloat)
    (scaled_window_area : Nat) : CFloat :=
  let final_rect1 := finalRectF32 feature.rect1 current_scale scaled_window_area
  let sum_rect_area : CFloat := CFloat.add f32 (CFloat.finite 0) (weightedAreaF32 final_rect1)
  if feature.rect2.weight ≠ 0 then
    let final_rect2 := finalRectF32 feature.rect2 current_scale scaled_window_area
    CFloat.add f32 sum_rect_area (weightedAreaF32 final_rect2)
  else sum_rect_area

/-- The `float` variable `rect_sum` of `detectObjects` for one classifier's
feature at the window `(x, y)`: the weight of the first rectangle is
`-sum_rect_area / first_rect_area`, each region sum is converted to `float`,
and every product and sum is rounded to `float`. -/
def rectSumF32 (image : Image) (current_scale : CFloat) (scaled_window_area : Nat) (x y : Int)
    (feature : CvHaarFeature) : CFloat :=
  let final_rect0 := finalRectF32 feature.rect0 current_scale scaled_window_area
  let first_rect_area : CFloat := f32 ((final_rect0.width * final_rect0.height : Int) : ℚ)
  let final_rect1 := finalRectF32 feature.rect1 current_scale scaled_window_area
  let sum_rect_area := sumRectAreaF32 feature current_scale scaled_window_area
  let weight0 : CFloat := CFloat.div f32 sum_rect_area.neg first_rect_area
  CFloat.add f32 (CFloat.finite 0)
    (CFloat.add f32
      (CFloat.mul f32 (f32 (regionSumF32 image x y final_rect0 : ℚ)) weight0)
      (CFloat.mul f32 (f32 (regionSumF32 image x y final_rect1 : ℚ)) final_rect1.weight))

/-- The value `classifier.alpha[rect_sum >= norm_threshold]` that a
classifier adds to the stage sum, with
`norm_threshold = *classifier.threshold * variance` rounded to `float`. -/
def selectedAlphaF32 (image : Image) (current_scale : CFloat) (scaled_window_area : Nat)
    (variance : CFloat) (x y : Int) (classifier : CvHaarClassifier) : ℚ :=
  classifier.alpha
    (CFloat.ge (rectSumF32 image current_scale scaled_window_area x y classifier.haar_feature)
      (CFloat.mul f32 (CFloat.finite classifier.threshold) variance))

/-- The `float` variable `stage_sum` of `detectObjects` after the classifiers
of one stage: each classifier adds its selected alpha, and each sum is
rounded to `float`. -/
def stageSumF32 (image : Image) (current_scale : CFloat) (scaled_window_area : Nat)
    (variance : CFloat) (x y : Int) (stage : CvHaarStageClassifier) : CFloat :=
  stage.classifier.foldl (fun stage_sum classifier =>
    CFloat.add f32 stage_sum (CFloat.finite
      (selectedAlphaF32 image current_scale scaled_window_area variance x y classifier)))
    (CFloat.finite 0)

/-- The loop over the stages of one window in `detectObjects`, from stage
`stage_index` on, with `float` stage sums: a stage rejects when
`stage_sum < stage.threshold` holds. -/
def runStagesF32 (stageSum : CvHaarStageClassifier → CFloat) :
    Nat → List CvHaarStageClassifier → Int
  | _, [] => 100
  | stage_index, stage :: rest =>
    if CFloat.lt (stageSum stage) (CFloat.finite stage.threshold) = true then
      exitStageOf stage_index
    else runStagesF32 stageSum (stage_index + 1) rest

/-- The variable `exit_stage` of `detectObjects` for the window at `(x, y)`,
in single precision. -/
def windowExitF32 (sq : ℚ → ℚ) (image : Image) (cascade : CvHaarClassifierCascade)
    (current_scale : CFloat) (x y : Int) : Int :=
  runStagesF32 (stageSumF32 image current_scale (scaledWindowAreaF32 cascade current_scale)
    (windowVarianceF32 sq image cascade current_scale x y) x y) 0 cascade.stage_classifier

/-- The `21 x 21` image whose pixels are all `255`: the sum table holds
`255 * r * c` and the table of squared sums `65025 * r * c` at row `r`,
column `c` (stride `22`). -/
def brightImage : Image :=
  { width := 21, height := 21,
    integral_image := fun i => 255 * ((i / 22) * (i % 22)),
    square_integral_image := fun i => ((65025 * ((i / 22) * (i % 22)) : Nat) : ℚ) }

/-- A cascade with canonical window `19 x 19` and no stage: its equalized
rectangle at scale `1` is `17 x 17`. -/
def wideWindowCascade : CvHaarClassifierCascade :=
  { orig_window_width := 19, orig_window_height := 19, stage_classifier := [] }

/-- A feature with two active rectangles, the pixel `(0,0)` of weight `1` and
the pixel `(1,0)` of weight `-1`. -/
def unitPairFeature : CvHaarFeature :=
  { rect0 := { r := { x := 0, y := 0, width := 1, height := 1 }, weight := 1 },
    rect1 := { r := { x := 1, y := 0, width := 1, height := 1 }, weight := -1 },
    rect2 := { r := { x := 0, y := 0, width := 0, height := 0 }, weight := 0 } }

/-- The one classifier of `zeroAreaCascade`: threshold `0`, alphas `0` and
`1`. -/
def unitPairClassifier : CvHaarClassifier :=
  { haar_feature := unitPairFeature, threshold := 0, alpha0 := 0, alpha1 := 1 }

/-- A cascade with canonical window `2 x 2`, whose equalized rectangle is
empty and whose `scaled_window_area` is `0`, and one stage of threshold `1/2`
with the classifier `unitPairClassifier`. -/
def zeroAreaCascade : CvHaarClassifierCascade :=
  { orig_window_width := 2, orig_window_height := 2,
    stage_classifier := [{ classifier := [unitPairClassifier], threshold := 1 / 2 }] }

/-! ## `detectObjectsOptimized` with the bound of the array `opt_rectangles` -/

theorem toU32_natCast_emod (n : Nat) : toU32 (((n : Nat) : Int)) = n % 2 ^ 32 := by
  unfold toU32
  omega

theorem toU32_congr {a b : Int} (h : a % 2 ^ 32 = b % 2 ^ 32) : toU32 a = toU32 b := by
  unfold toU32
  rw [h]

/-- The table entry at row `r`, column `c` of an in-range position. -/
theorem integralTable_at (W H : Nat) (pixel : Nat → Nat → Nat) (r c : Nat)
    (hr : r ≤ H) (hc : c ≤ W) :
    mate (integralTable W H pixel) (W + 1) c r =
      (∑ i in Finset.range r, ∑ j in Finset.range c, pixel i j) % 2 ^ 32 := by
  have hidx : matp 0 (W + 1) c r = (W + 1) * r + c := by simp [matp]
  have hdiv : ((W + 1) * r + c) / (W + 1) = r := by
    rw [Nat.mul_add_div (Nat.succ_pos W), Nat.div_eq_of_lt (by omega)]
    simp
  have hmod : ((W + 1) * r + c) % (W + 1) = c := by
    rw [Nat.mul_add_mod]
    exact Nat.mod_eq_of_lt (by omega)
  have hlt : (W + 1) * r + c < (H + 1) * (W + 1) := by
    have : (W + 1) * r ≤ (W + 1) * H := Nat.mul_le_mul_left _ hr
    nlinarith
  simp only [mate, hidx, integralTable, if_pos hlt, hdiv, hmod]

theorem blockSum_split (pixel : Nat → Nat → Nat) (x y w h : Nat) :
    (∑ i in Finset.range (y + h), ∑ j in Finset.range (x + w), pixel i j)
      + (∑ i in Finset.range y, ∑ j in Finset.range x, pixel i j)
    = rectPixelSum pixel x y w h
      + (∑ i in Finset.range y, ∑ j in Finset.range (x + w), pixel i j)
      + (∑ i in Finset.range (y + h), ∑ j in Finset.range x, pixel i j) := by
  unfold rectPixelSum
  have hcol : ∀ i, (∑ j in Finset.range (x + w), pixel i j)
      = (∑ j in Finset.range x, pixel i j) + ∑ j in Finset.Ico x (x + w), pixel i j := by
    intro i
    rw [Finset.range_eq_Ico, Finset.sum_Ico_consecutive _ (Nat.zero_le x) (Nat.le_add_right x w)]
  have hrow : ∀ f : Nat → Nat, (∑ i in Finset.range (y + h), f i)
      = (∑ i in Finset.range y, f i) + ∑ i in Finset.Ico y (y + h), f i := by
    intro f
    rw [Finset.range_eq_Ico, Finset.sum_Ico_consecutive _ (Nat.zero_le y) (Nat.le_add_right y h)]
  simp only [hcol, Finset.sum_add_distrib, hrow]
  ring

theorem mats_integralTable (W H : Nat) (pixel : Nat → Nat → Nat) (x y w h : Nat)
    (hx : x + w ≤ W) (hy : y + h ≤ H) :
    mats (integralTable W H pixel) (W + 1) x y w h = rectPixelSum pixel x y w h % 2 ^ 32 := by
  unfold mats
  rw [integralTable_at W H pixel y x (by omega) (by omega),
    integralTable_at W H pixel y (x + w) (by omega) hx,
    integralTable_at W H pixel (y + h) x hy (by omega),
    integralTable_at W H pixel (y + h) (x + w) hy hx]
  rw [← toU32_natCast_emod (rectPixelSum pixel x y w h)]
  apply toU32_congr
  have hs := blockSum_split pixel x y w h
  have hs2 : ((rectPixelSum pixel x y w h : Nat) : Int) =
      ((∑ i in Finset.range y, ∑ j in Finset.range x, pixel i j : Nat) : Int)
      - ((∑ i in Finset.range y, ∑ j in Finset.range (x + w), pixel i j : Nat) : Int)
      - ((∑ i in Finset.range (y + h), ∑ j in Finset.range x, pixel i j : Nat) : Int)
      + ((∑ i in Finset.range (y + h), ∑ j in Finset.range (x + w), pixel i j : Nat) : Int) := by
    have := congrArg (fun n : Nat => (n : Int)) hs
    simp only [Nat.cast_add] at this
    linarith
  rw [hs2]
  push_cast
  omega

/-! ## Lemmas: the loop over the stages -/

theorem exitStageOf_eq (i : Nat) (h : i ≤ 2 ^ 31) : exitStageOf i = -(i : Int) := by
  unfold exitStageOf toI32 toU32
  omega

theorem runStages_all_pass (stageSum : CvHaarStageClassifier → ℚ)
    (stages : List CvHaarStageClassifier) (i : Nat)
    (h : ∀ s ∈ stages, ¬ stageSum s < s.threshold) : runStages stageSum i stages = 100 := by
  induction stages generalizing i with
  | nil => rfl
  | cons st rest ih =>
    rw [runStages, if_neg (h st (List.mem_cons_self _ _))]
    exact ih (i + 1) fun s hs => h s (List.mem_cons_of_mem _ hs)

theorem runStages_first_reject (stageSum : CvHaarStageClassifier → ℚ)
    (pre : List CvHaarStageClassifier) (st : CvHaarStageClassifier)
    (post : List CvHaarStageClassifier) (i : Nat)
    (hpre : ∀ s ∈ pre, ¬ stageSum s < s.threshold) (hst : stageSum st < st.threshold) :
    runStages stageSum i (pre ++ st :: post) = exitStageOf (i + pre.length) := by
  induction pre generalizing i with
  | nil => simp [runStages, hst]
  | cons p rest ih =>
    rw [List.cons_append, runStages, if_neg (hpre p (List.mem_cons_self _ _)),
      ih (i + 1) fun s hs => hpre s (List.mem_cons_of_mem _ hs)]
    congr 1
    simp only [List.length_cons]
    omega

/-- A list of stages either passes as a whole or splits at its first
rejecting stage. -/
theorem stages_split (stageSum : CvHaarStageClassifier → ℚ)
    (stages : List CvHaarStageClassifier) :
    (∀ s ∈ stages, ¬ stageSum s < s.threshold) ∨
    ∃ pre st post, stages = pre ++ st :: post ∧ (∀ s ∈ pre, ¬ stageSum s < s.threshold) ∧
      stageSum st < st.threshold := by
  induction stages with
  | nil => left; simp
  | cons a rest ih =>
    by_cases ha : stageSum a < a.threshold
    · right
      exact ⟨[], a, rest, rfl, by simp, ha⟩
    · rcases ih with h | ⟨pre, st, post, rfl, hpre, hst⟩
      · left
        intro s hs
        rcases List.mem_cons.mp hs with rfl | hs
        · exact ha
        · exact h s hs
      · right
        refine ⟨a :: pre, st, post, rfl, ?_, hst⟩
        intro s hs
        rcases List.mem_cons.mp hs with rfl | hs
        · exact ha
        · exact hpre s hs

theorem runStages_pos_iff (stageSum : CvHaarStageClassifier → ℚ)
    (stages : List CvHaarStageClassifier) (hlen : stages.length < 2 ^ 31) :
    0 < runStages stageSum 0 stages ↔ ∀ s ∈ stages, ¬ stageSum s < s.threshold := by
  constructor
  · intro hpos
    rcases stages_split stageSum stages with h | ⟨pre, st, post, rfl, hpre, hst⟩
    · exact h
    · rw [runStages_first_reject stageSum pre st post 0 hpre hst, exitStageOf_eq] at hpos
      · omega
      · simp only [List.length_append, List.length_cons] at hlen
        omega
  · intro h
    rw [runStages_all_pass stageSum stages 0 h]
    norm_num

theorem runStages_eq_zero_iff (stageSum : CvHaarStageClassifier → ℚ)
    (stages : List CvHaarStageClassifier) (hlen : stages.length < 2 ^ 31) :
    runStages stageSum 0 stages = 0 ↔
      ∃ st rest, stages = st :: rest ∧ stageSum st < st.threshold := by
  constructor
  · intro h0
    rcases stages_split stageSum stages with h | ⟨pre, st, post, rfl, hpre, hst⟩
    · rw [runStages_all_pass stageSum stages 0 h] at h0
      norm_num at h0
    · rw [runStages_first_reject stageSum pre st post 0 hpre hst, exitStageOf_eq] at h0
      · cases pre with
        | nil => exact ⟨st, post, rfl, hst⟩
        | cons p q =>
          simp only [List.length_cons] at h0
          omega
      · simp only [List.length_append, List.length_cons] at hlen
        omega
  · rintro ⟨st, rest, rfl, hst⟩
    simp [runStages, hst, exitStageOf, toI32, toU32]

/-! ## Lemmas: the loop over the windows -/

theorem visitedFrom_shift (rej : Nat → Bool) (a c : Nat) (hc : visitedFrom rej a c = true)
    (d : Nat) : visitedFrom rej a (d + c) = visitedFrom rej (a + c) d := by
  induction d with
  | zero => simpa [visitedFrom] using hc
  | succ d ih =>
    have h1 : d + 1 + c = (d + c) + 1 := by omega
    rw [h1, visitedFrom, visitedFrom, ih]
    have h2 : a + (d + c) = a + c + d := by omega
    rw [h2]

/-- The loop over one row records exactly the visited windows that no stage
rejects. -/
theorem scanRow_eq_filter (windowExit : Int → Int → Int) (xstep ystep : ℚ) (end_x : Int)
    (sw sh : Nat) (y_index : Nat) (fuel x_index : Nat) (hfuel : end_x.toNat ≤ x_index + fuel) :
    scanRow windowExit xstep ystep end_x sw sh y_index fuel x_index =
      ((List.range' x_index (end_x.toNat - x_index)).filter fun k =>
        visitedFrom (fun j => decide (windowExit (cround ((j : ℚ) * xstep))
            (cround ((y_index : ℚ) * ystep)) = 0)) x_index (k - x_index) &&
          decide (0 < windowExit (cround ((k : ℚ) * xstep))
            (cround ((y_index : ℚ) * ystep)))).map fun (k : Nat) =>
        matchRect (cround ((k : ℚ) * xstep)) (cround ((y_index : ℚ) * ystep)) sw sh := by
  induction fuel generalizing x_index with
  | zero =>
    have h0 : end_x.toNat - x_index = 0 := by omega
    simp [scanRow, h0]
  | succ fuel ih =>
    rw [scanRow]
    by_cases hlt : (x_index : Int) < end_x
    · rw [if_pos hlt]
      obtain ⟨n, hn⟩ : ∃ n, end_x.toNat - x_index = n + 1 := ⟨end_x.toNat - x_index - 1, by omega⟩
      rw [hn, List.range'_succ, List.filter_cons]
      simp only [Nat.sub_self, visitedFrom, Bool.true_and]
      by_cases h0 : windowExit (cround ((x_index : ℚ) * xstep))
          (cround ((y_index : ℚ) * ystep)) = 0
      · have hnpos : ¬ (0 < windowExit (cround ((x_index : ℚ) * xstep))
            (cround ((y_index : ℚ) * ystep))) := by omega
        have hngt : ¬ (windowExit (cround ((x_index : ℚ) * xstep))
            (cround ((y_index : ℚ) * ystep)) > 0) := by omega
        simp only [if_pos h0, hnpos, hngt, decide_False, if_false, Bool.false_eq_true]
        rw [ih (x_index + 1 + 1) (by omega)]
        cases n with
        | zero =>
          have : end_x.toNat - (x_index + 1 + 1) = 0 := by omega
          simp [this]
        | succ m =>
          have : end_x.toNat - (x_index + 1 + 1) = m := by omega
          rw [this, List.range'_succ, List.filter_cons]
          have hv1 : visitedFrom (fun j => decide (windowExit (cround ((j : ℚ) * xstep))
              (cround ((y_index : ℚ) * ystep)) = 0)) x_index (x_index + 1 - x_index) = false := by
            have : x_index + 1 - x_index = 0 + 1 := by omega
            rw [this, visitedFrom, visitedFrom]
            simp [h0]
          rw [hv1]
          simp only [Bool.false_and, if_false, Bool.false_eq_true]
          congr 1
          apply List.filter_congr
          intro k hk
          have hk2 : x_index + 1 + 1 ≤ k := (List.mem_range'_1.mp hk).1
          have hv2 : visitedFrom (fun j => decide (windowExit (cround ((j : ℚ) * xstep))
              (cround ((y_index : ℚ) * ystep)) = 0)) x_index 2 = true := by
            have e2 : (2 : Nat) = 0 + 1 + 1 := rfl
            rw [e2, visitedFrom, visitedFrom, visitedFrom]
            simp [h0]
          have := visitedFrom_shift (fun j => decide (windowExit (cround ((j : ℚ) * xstep))
              (cround ((y_index : ℚ) * ystep)) = 0)) x_index 2 hv2 (k - (x_index + 1 + 1))
          have e1 : k - (x_index + 1 + 1) + 2 = k - x_index := by omega
          rw [e1] at this
          rw [this]
      · simp only [if_neg h0]
        rw [ih (x_index + 1) (by omega)]
        have hn1 : end_x.toNat - (x_index + 1) = n := by omega
        rw [hn1]
        have hrest : (List.range' (x_index + 1) n).filter (fun k =>
            visitedFrom (fun j => decide (windowExit (cround ((j : ℚ) * xstep))
              (cround ((y_index : ℚ) * ystep)) = 0)) (x_index + 1) (k - (x_index + 1)) &&
            decide (0 < windowExit (cround ((k : ℚ) * xstep))
              (cround ((y_index : ℚ) * ystep)))) =
            (List.range' (x_index + 1) n).filter (fun k =>
            visitedFrom (fun j => decide (windowExit (cround ((j : ℚ) * xstep))
              (cround ((y_index : ℚ) * ystep)) = 0)) x_index (k - x_index) &&
            decide (0 < windowExit (cround ((k : ℚ) * xstep))
              (cround ((y_index : ℚ) * ystep)))) := by
          apply List.filter_congr
          intro k hk
          have hk2 : x_index + 1 ≤ k := (List.mem_range'_1.mp hk).1
          have hv1 : visitedFrom (fun j => decide (windowExit (cround ((j : ℚ) * xstep))
              (cround ((y_index : ℚ) * ystep)) = 0)) x_index 1 = true := by
            have e1 : (1 : Nat) = 0 + 1 := rfl
            rw [e1, visitedFrom, visitedFrom]
            simp [h0]
          have := visitedFrom_shift (fun j => decide (windowExit (cround ((j : ℚ) * xstep))
              (cround ((y_index : ℚ) * ystep)) = 0)) x_index 1 hv1 (k - (x_index + 1))
          have e1 : k - (x_index + 1) + 1 = k - x_index := by omega
          rw [e1] at this
          rw [this]
        rw [hrest]
        by_cases hpos : 0 < windowExit (cround ((x_index : ℚ) * xstep))
            (cround ((y_index : ℚ) * ystep))
        · have hgt : windowExit (cround ((x_index : ℚ) * xstep))
            (cround ((y_index : ℚ) * ystep)) > 0 := hpos
          simp only [if_pos hgt, hpos, decide_True, if_true, List.map_cons]
        · have hgt : ¬ windowExit (cround ((x_index : ℚ) * xstep))
            (cround ((y_index : ℚ) * ystep)) > 0 := hpos
          simp only [if_neg hgt, hpos, decide_False, if_false, Bool.false_eq_true]
    · rw [if_neg hlt]
      have h0 : end_x.toNat - x_index = 0 := by omega
      simp [h0]

theorem scanWindows_eq (windowExit : Int → Int → Int) (ystep : ℚ) (end_x end_y : Int)
    (sw sh : Nat) :
    scanWindows windowExit ystep end_x end_y sw sh =
      (List.range end_y.toNat).flatMap fun y_index =>
        ((List.range end_x.toNat).filter fun k =>
          visited (fun j => decide (windowExit (cround ((j : ℚ) * ystep))
              (cround ((y_index : ℚ) * ystep)) = 0)) k &&
            decide (0 < windowExit (cround ((k : ℚ) * ystep))
              (cround ((y_index : ℚ) * ystep)))).map fun (k : Nat) =>
          matchRect (cround ((k : ℚ) * ystep)) (cround ((y_index : ℚ) * ystep)) sw sh := by
  unfold scanWindows
  congr 1
  funext y_index
  rw [scanRow_eq_filter windowExit ystep ystep end_x sw sh y_index end_x.toNat 0 (by omega)]
  simp only [Nat.sub_zero, List.range_eq_range', visited]

theorem scaleAt_succ (k : Nat) : scaleAt k * scale_factor = scaleAt (k + 1) := by
  unfold scaleAt
  rw [pow_succ]

theorem scannedScales_zero (action : Nat → ScaleAction) (k : Nat) :
    scannedScales action k 0 = [] := by
  simp [scannedScales]

theorem scannedScales_skip (action : Nat → ScaleAction) (k n : Nat)
    (h : action k = ScaleAction.skip) :
    scannedScales action k (n + 1) = scannedScales action (k + 1) n := by
  unfold scannedScales
  rw [List.range'_succ, List.takeWhile_cons]
  simp [h]

theorem scannedScales_stop (action : Nat → ScaleAction) (k n : Nat)
    (h : action k = ScaleAction.stop) : scannedScales action k (n + 1) = [] := by
  unfold scannedScales
  rw [List.range'_succ, List.takeWhile_cons]
  simp [h]

theorem scannedScales_scan (action : Nat → ScaleAction) (k n : Nat)
    (h : action k = ScaleAction.scan) :
    scannedScales action k (n + 1) = k :: scannedScales action (k + 1) n := by
  unfold scannedScales
  rw [List.range'_succ, List.takeWhile_cons]
  simp [h]

/-- Every scanned scale has the action `scan` and an index in range. -/
theorem mem_scannedScales (action : Nat → ScaleAction) (start count k : Nat)
    (h : k ∈ scannedScales action start count) :
    start ≤ k ∧ k < start + count ∧ action k = ScaleAction.scan := by
  unfold scannedScales at h
  rcases List.mem_filter.mp h with ⟨h1, h2⟩
  have h3 := List.mem_range'_1.mp ((List.takeWhile_sublist _).subset h1)
  exact ⟨h3.1, h3.2, of_decide_eq_true h2⟩

/-- The loop over the scales of `detectObjects` appends the windows of the
scanned scales, scale by scale. -/
theorem scanScales_eq (sq : ℚ → ℚ) (image : Image) (cascade : CvHaarClassifierCascade)
    (min_window_width min_window_height max_window_width max_window_height : Nat)
    (n k : Nat) :
    scanScales sq image cascade min_window_width min_window_height max_window_width
        max_window_height n (scaleAt k) =
      (scannedScales (scaleActionAt image cascade min_window_width min_window_height
          max_window_width max_window_height) k n).flatMap fun j =>
        scanScale image cascade (scaleAt j) (windowExit sq image cascade (scaleAt j)) := by
  induction n generalizing k with
  | zero => simp [scanScales, scannedScales_zero]
  | succ n ih =>
    rw [scanScales]
    cases hact : scaleAction image cascade min_window_width min_window_height max_window_width
        max_window_height (scaleAt k) with
    | skip =>
      rw [scannedScales_skip _ k n hact]
      simp only []
      rw [scaleAt_succ, ih]
    | stop =>
      rw [scannedScales_stop _ k n hact]
      simp
    | scan =>
      rw [scannedScales_scan _ k n hact]
      simp only []
      rw [scaleAt_succ, ih, List.flatMap_cons]

theorem windowExit_pos_iff (sq : ℚ → ℚ) (image : Image) (cascade : CvHaarClassifierCascade)
    (hcount : cascade.count < 2 ^ 31) (k x_index y_index : Nat) :
    decide (0 < windowExit sq image cascade (scaleAt k) (gridCoord (scaleAt k) x_index)
        (gridCoord (scaleAt k) y_index)) = windowPasses sq image cascade k x_index y_index := by
  unfold windowExit windowPasses gridStageSum
  rw [Bool.eq_iff_iff, decide_eq_true_iff, runStages_pos_iff _ _ hcount, List.all_eq_true]
  simp

theorem windowExit_zero_iff (sq : ℚ → ℚ) (image : Image) (cascade : CvHaarClassifierCascade)
    (hcount : cascade.count < 2 ^ 31) (k x_index y_index : Nat) :
    decide (windowExit sq image cascade (scaleAt k) (gridCoord (scaleAt k) x_index)
        (gridCoord (scaleAt k) y_index) = 0)
      = rejectedByFirstStage sq image cascade k x_index y_index := by
  unfold windowExit rejectedByFirstStage gridStageSum
  rw [Bool.eq_iff_iff, decide_eq_true_iff, runStages_eq_zero_iff _ _ hcount]
  cases cascade.stage_classifier with
  | nil => simp
  | cons st rest => simp

/-- The window loop of one scale of `detectObjects` records exactly the
visited windows that pass every stage. -/
theorem scanScale_eq_survivors (sq : ℚ → ℚ) (image : Image)
    (cascade : CvHaarClassifierCascade) (hcount : cascade.count < 2 ^ 31) (k : Nat) :
    scanScale image cascade (scaleAt k) (windowExit sq image cascade (scaleAt k)) =
      (List.range (gridEndY image cascade k).toNat).flatMap fun y_index =>
        ((List.range (gridEndX image cascade k).toNat).filter fun x_index =>
          rowVisited sq image cascade k y_index x_index &&
            windowPasses sq image cascade k x_index y_index).map fun x_index =>
          gridRect cascade k x_index y_index := by
  unfold scanScale
  rw [scanWindows_eq]
  have hz := windowExit_zero_iff sq image cascade hcount k
  have hp := windowExit_pos_iff sq image cascade hcount k
  unfold gridCoord at hz hp
  simp only [gridEndX, gridEndY, gridRect, gridCoord, rowVisited, hz, hp]


/-! ## Lemmas: rounding and the window grid -/

theorem cround_nonneg (q : ℚ) (hq : 0 ≤ q) : 0 ≤ cround q := by
  unfold cround
  rw [if_pos hq]
  exact Int.floor_nonneg.mpr (by linarith)

theorem cround_le (q : ℚ) (hq : 0 ≤ q) : ((cround q : Int) : ℚ) ≤ q + 1 / 2 := by
  unfold cround
  rw [if_pos hq]
  exact Int.floor_le _

theorem clrint_le (q : ℚ) : ((clrint q : Int) : ℚ) ≤ q + 1 / 2 := by
  unfold clrint
  have hfl : ((⌊q⌋ : Int) : ℚ) ≤ q := Int.floor_le q
  split_ifs with h1 h2 h3
  · linarith
  · push_cast
    linarith
  · linarith
  · push_cast
    linarith

theorem toU32_le (z : Int) (hz : 0 ≤ z) : ((toU32 z : Nat) : Int) ≤ z := by
  unfold toU32
  omega

/-- A grid coordinate lies inside the image together with its window. -/
theorem gridCoord_bound (size sw : Nat) (hsw : sw ≤ size) (step : ℚ) (hstep : 2 ≤ step)
    (k : Nat) (hk : k < (gridEnd size sw step).toNat) :
    0 ≤ cround ((k : ℚ) * step) ∧ cround ((k : ℚ) * step) + (sw : Int) ≤ (size : Int) := by
  have hkq : (0 : ℚ) ≤ (k : ℚ) * step := by positivity
  refine ⟨cround_nonneg _ hkq, ?_⟩
  have hD : ((toU32 ((size : Int) - (sw : Int)) : Nat) : Int) ≤ (size : Int) - (sw : Int) :=
    toU32_le _ (by omega)
  have hDq : ((toU32 ((size : Int) - (sw : Int)) : Nat) : ℚ) ≤ (size : ℚ) - (sw : ℚ) := by
    have := (Int.cast_le (R := ℚ)).mpr hD
    push_cast at this
    exact this
  have hend : (((gridEnd size sw step : Int)) : ℚ)
      ≤ (toU32 ((size : Int) - (sw : Int)) : ℚ) / step + 1 / 2 := clrint_le _
  have hk1 : ((k : Int)) + 1 ≤ gridEnd size sw step := by omega
  have hk2 : ((k : ℚ)) + 1 ≤ ((gridEnd size sw step : Int) : ℚ) := by
    have := (Int.cast_le (R := ℚ)).mpr hk1
    push_cast at this
    exact this
  have hpos : (0 : ℚ) < step := by linarith
  have hdiv : (toU32 ((size : Int) - (sw : Int)) : ℚ) / step * step
      = (toU32 ((size : Int) - (sw : Int)) : ℚ) := div_mul_cancel₀ _ (ne_of_gt hpos)
  have hmul : ((k : ℚ) + 1) * step
      ≤ ((toU32 ((size : Int) - (sw : Int)) : ℚ) / step + 1 / 2) * step :=
    mul_le_mul_of_nonneg_right (le_trans hk2 hend) (le_of_lt hpos)
  have hks : (k : ℚ) * step ≤ (size : ℚ) - (sw : ℚ) - 1 := by
    have e : ((toU32 ((size : Int) - (sw : Int)) : ℚ) / step + 1 / 2) * step
        = (toU32 ((size : Int) - (sw : Int)) : ℚ) + step / 2 := by
      rw [add_mul, hdiv]
      ring
    rw [e] at hmul
    linarith
  have hc := cround_le _ hkq
  have hfin : ((cround ((k : ℚ) * step) + (sw : Int) : Int) : ℚ) ≤ ((size : Int) : ℚ) := by
    push_cast
    linarith
  exact (Int.cast_le (R := ℚ)).mp hfin

theorem ystepOf_ge (current_scale : ℚ) : 2 ≤ ystepOf current_scale := by
  unfold ystepOf
  exact le_max_left _ _

/-- What the action `scan` says about the scaled window. -/
theorem scaleAction_scan (image : Image) (cascade : CvHaarClassifierCascade)
    (min_window_width min_window_height max_window_width max_window_height : Nat)
    (current_scale : ℚ)
    (h : scaleAction image cascade min_window_width min_window_height max_window_width
      max_window_height current_scale = ScaleAction.scan) :
    min_window_width ≤ scaledWindow cascade.orig_window_width current_scale ∧
    min_window_height ≤ scaledWindow cascade.orig_window_height current_scale ∧
    (max_window_width ≠ 0 →
      scaledWindow cascade.orig_window_width current_scale ≤ max_window_width) ∧
    (max_window_height ≠ 0 →
      scaledWindow cascade.orig_window_height current_scale ≤ max_window_height) ∧
    scaledWindow cascade.orig_window_width current_scale ≤ image.width ∧
    scaledWindow cascade.orig_window_height current_scale ≤ image.height := by
  unfold scaleAction at h
  simp only [] at h
  split_ifs at h with h1 h2 h3 h4
  push_neg at h1 h2 h3 h4
  refine ⟨h1.1, h1.2, fun hne => ?_, fun hne => ?_, h4.1, h4.2⟩
  · exact h2 hne
  · exact h3 hne

/-! ## Lemmas: empty input of the clusterer, rows without rejection -/

theorem partitionData_nil (fuel : Nat) (eps : ℚ) : partitionData fuel [] eps = some ([], 0) := by
  simp [partitionData]

theorem filterResult_nil (fuel : Nat) (group_threshold : Int) (eps : ℚ) :
    filterResult fuel [] group_threshold eps = some [] := by
  simp [filterResult, partitionData_nil]

theorem visitedFrom_of_no_reject (rej : Nat → Bool) (h : ∀ j, rej j = false) (a d : Nat) :
    visitedFrom rej a d = true := by
  induction d with
  | zero => rfl
  | succ d ih => simp [visitedFrom, h]

theorem scannedScales_eq_nil (action : Nat → ScaleAction) (start count : Nat)
    (h : ∀ k, start ≤ k → k < start + count → action k ≠ ScaleAction.scan) :
    scannedScales action start count = [] := by
  unfold scannedScales
  rw [List.filter_eq_nil_iff]
  intro k hk
  have h3 := List.mem_range'_1.mp ((List.takeWhile_sublist _).subset hk)
  simpa using h k h3.1 h3.2

theorem scaleAt_zero : scaleAt 0 = 1 := by
  simp [scaleAt]

/-- The raw candidate list of `detectObjects` is the list of the visited
windows that pass every stage. -/
theorem rawMatches_survivors (sq : ℚ → ℚ) (fuel : Nat) (image : Image)
    (cascade : CvHaarClassifierCascade)
    (min_window_width min_window_height max_window_width max_window_height n : Nat)
    (hcount : cascade.count < 2 ^ 31) (hn : scaleCount fuel image cascade = some n) :
    rawMatches sq fuel image cascade min_window_width min_window_height max_window_width
        max_window_height =
      some (survivors sq image cascade min_window_width min_window_height max_window_width
        max_window_height n) := by
  unfold rawMatches survivors
  rw [hn, Option.map_some', ← scaleAt_zero, scanScales_eq]
  congr 1
  apply List.flatMap_congr
  intro k _
  exact scanScale_eq_survivors sq image cascade hcount k


/-! ## Lemmas: the parent forest of `partitionData` -/

theorem findRoot_succ (parent : Nat → Int) (fuel k r : Nat)
    (h : findRoot parent fuel k = some r) : findRoot parent (fuel + 1) k = some r := by
  induction fuel generalizing k with
  | zero => simp [findRoot] at h
  | succ n ih =>
    rw [findRoot] at h ⊢
    by_cases hp : parent k ≥ 0
    · rw [if_pos hp] at h ⊢
      exact ih _ h
    · rw [if_neg hp] at h ⊢
      exact h

theorem findRoot_mono (parent : Nat → Int) (fuel fuel2 k r : Nat) (hle : fuel ≤ fuel2)
    (h : findRoot parent fuel k = some r) : findRoot parent fuel2 k = some r := by
  induction hle with
  | refl => exact h
  | step _ ih => exact findRoot_succ _ _ _ _ ih

theorem findRoot_isRoot (parent : Nat → Int) (fuel k r : Nat)
    (h : findRoot parent fuel k = some r) : parent r < 0 := by
  induction fuel generalizing k with
  | zero => simp [findRoot] at h
  | succ n ih =>
    rw [findRoot] at h
    by_cases hp : parent k ≥ 0
    · rw [if_pos hp] at h
      exact ih _ h
    · rw [if_neg hp] at h
      cases h
      omega

theorem RootOf.unique {parent : Nat → Int} {k r r2 : Nat} (h1 : RootOf parent k r)
    (h2 : RootOf parent k r2) : r = r2 := by
  obtain ⟨f1, h1⟩ := h1
  obtain ⟨f2, h2⟩ := h2
  have a := findRoot_mono parent f1 (max f1 f2) k r (le_max_left _ _) h1
  have b := findRoot_mono parent f2 (max f1 f2) k r2 (le_max_right _ _) h2
  rw [a] at b
  exact Option.some.inj b

theorem RootOf.isRoot {parent : Nat → Int} {k r : Nat} (h : RootOf parent k r) :
    parent r < 0 := by
  obtain ⟨f, h⟩ := h
  exact findRoot_isRoot parent f k r h

theorem RootOf.of_root {parent : Nat → Int} {k : Nat} (h : parent k < 0) : RootOf parent k k :=
  ⟨1, by simp [findRoot, not_le.mpr h]⟩

theorem RootOf.step {parent : Nat → Int} {k r : Nat} (hp : 0 ≤ parent k)
    (h : RootOf parent (parent k).toNat r) : RootOf parent k r := by
  obtain ⟨f, h⟩ := h
  exact ⟨f + 1, by rw [findRoot, if_pos hp]; exact h⟩

theorem RootOf.of_step {parent : Nat → Int} {k r : Nat} (hp : 0 ≤ parent k)
    (h : RootOf parent k r) : RootOf parent (parent k).toNat r := by
  obtain ⟨f, h⟩ := h
  cases f with
  | zero => simp [findRoot] at h
  | succ n =>
    rw [findRoot, if_pos hp] at h
    exact ⟨n, h⟩

theorem RootOf.eq_of_root {parent : Nat → Int} {k r : Nat} (hk : parent k < 0)
    (h : RootOf parent k r) : r = k :=
  RootOf.unique h (RootOf.of_root hk)

/-- In a forest the loop `findRoot` ends from every node, within `B + 1`
iterations. -/
theorem Forest.findRoot_some {N B : Nat} {nodes : Nodes} (hf : Forest N B nodes) (k : Nat)
    (fuel : Nat) (hfuel : (B : Int) - nodes.rank k < (fuel : Int)) :
    ∃ r, findRoot nodes.parent fuel k = some r := by
  induction fuel generalizing k with
  | zero =>
    have := hf.rank_le k
    omega
  | succ n ih =>
    rw [findRoot]
    by_cases hp : nodes.parent k ≥ 0
    · rw [if_pos hp]
      apply ih
      have := hf.rank_lt k hp
      push_cast at hfuel
      omega
    · rw [if_neg hp]
      exact ⟨k, rfl⟩

theorem Forest.findRoot_total {N B : Nat} {nodes : Nodes} (hf : Forest N B nodes) (k : Nat)
    (fuel : Nat) (hfuel : B + 1 ≤ fuel) : ∃ r, findRoot nodes.parent fuel k = some r := by
  apply hf.findRoot_some
  have := hf.rank_nonneg k
  omega

theorem Forest.rootOf_total {N B : Nat} {nodes : Nodes} (hf : Forest N B nodes) (k : Nat) :
    ∃ r, RootOf nodes.parent k r := by
  obtain ⟨r, hr⟩ := hf.findRoot_total k (B + 1) (le_refl _)
  exact ⟨r, B + 1, hr⟩

theorem Forest.findRoot_of_rootOf {N B : Nat} {nodes : Nodes} (hf : Forest N B nodes)
    {k r : Nat} (h : RootOf nodes.parent k r) (fuel : Nat) (hfuel : B + 1 ≤ fuel) :
    findRoot nodes.parent fuel k = some r := by
  obtain ⟨r2, hr2⟩ := hf.findRoot_total k fuel hfuel
  rw [hr2, RootOf.unique h ⟨fuel, hr2⟩]

theorem Forest.mono {N B B2 : Nat} {nodes : Nodes} (hf : Forest N B nodes) (h : B ≤ B2) :
    Forest N B2 nodes :=
  { parent_lt := hf.parent_lt, parent_neg := hf.parent_neg, child_lt := hf.child_lt,
    rank_lt := hf.rank_lt, rank_nonneg := hf.rank_nonneg,
    rank_le := fun k => le_trans (hf.rank_le k) (by exact_mod_cast h) }

/-- The rank does not decrease from a node to its root, and grows strictly
from a node that is not a root. -/
theorem Forest.rank_le_root {N B : Nat} {nodes : Nodes} (hf : Forest N B nodes) (fuel : Nat)
    (k r : Nat) (h : findRoot nodes.parent fuel k = some r) :
    nodes.rank k ≤ nodes.rank r ∧ (0 ≤ nodes.parent k → nodes.rank k < nodes.rank r) := by
  induction fuel generalizing k with
  | zero => simp [findRoot] at h
  | succ n ih =>
    rw [findRoot] at h
    by_cases hp : nodes.parent k ≥ 0
    · rw [if_pos hp] at h
      have := (ih _ h).1
      have := hf.rank_lt k hp
      exact ⟨by omega, fun _ => by omega⟩
    · rw [if_neg hp] at h
      cases h
      exact ⟨le_refl _, fun hc => absurd hc hp⟩

theorem Forest.root_lt {N B : Nat} {nodes : Nodes} (hf : Forest N B nodes) (fuel : Nat)
    (k r : Nat) (hk : k < N) (h : findRoot nodes.parent fuel k = some r) : r < N := by
  induction fuel generalizing k with
  | zero => simp [findRoot] at h
  | succ n ih =>
    rw [findRoot] at h
    by_cases hp : nodes.parent k ≥ 0
    · rw [if_pos hp] at h
      exact ih _ (hf.parent_lt k hp) h
    · rw [if_neg hp] at h
      cases h
      exact hk

theorem SameClass.refl_of_forest {N B : Nat} {nodes : Nodes} (hf : Forest N B nodes) (a : Nat) :
    SameClass nodes.parent a a := by
  obtain ⟨r, hr⟩ := hf.rootOf_total a
  exact ⟨r, hr, hr⟩

theorem SameClass.symm {parent : Nat → Int} {a b : Nat} (h : SameClass parent a b) :
    SameClass parent b a := by
  obtain ⟨r, h1, h2⟩ := h
  exact ⟨r, h2, h1⟩

theorem SameClass.trans {parent : Nat → Int} {a b c : Nat} (h1 : SameClass parent a b)
    (h2 : SameClass parent b c) : SameClass parent a c := by
  obtain ⟨r, ha, hb⟩ := h1
  obtain ⟨r2, hb2, hc⟩ := h2
  have := RootOf.unique hb hb2
  subst this
  exact ⟨r, ha, hc⟩

/-! ### Linking two roots -/

theorem findRoot_link (parent : Nat → Int) (r1 r2 : Nat) (h1 : parent r1 < 0)
    (h2 : parent r2 < 0) (hne : r1 ≠ r2) (fuel k r : Nat)
    (h : findRoot parent fuel k = some r) :
    findRoot (Function.update parent r1 (r2 : Int)) (fuel + 1) k
      = some (if r = r1 then r2 else r) := by
  have hr2 : Function.update parent r1 (r2 : Int) r2 = parent r2 :=
    Function.update_noteq (Ne.symm hne) _ _
  induction fuel generalizing k with
  | zero => simp [findRoot] at h
  | succ n ih =>
    rw [findRoot] at h
    by_cases hp : parent k ≥ 0
    · rw [if_pos hp] at h
      have hk : k ≠ r1 := by
        intro e
        subst e
        omega
      rw [findRoot, Function.update_noteq hk, if_pos hp]
      exact ih _ h
    · rw [if_neg hp] at h
      have hkr : k = r := Option.some.inj h
      subst hkr
      by_cases hk : k = r1
      · subst hk
        rw [findRoot]
        simp only [Function.update_same, if_true]
        rw [if_pos (by omega : ((r2 : Nat) : Int) ≥ 0), Int.toNat_ofNat]
        cases n with
        | zero => rw [findRoot, hr2, if_neg (by omega)]
        | succ m => rw [findRoot, hr2, if_neg (by omega)]
      · rw [findRoot, Function.update_noteq hk, if_neg hp, if_neg hk]

theorem RootOf.of_link {parent : Nat → Int} {r1 r2 : Nat} (h1 : parent r1 < 0)
    (h2 : parent r2 < 0) (hne : r1 ≠ r2) {k r : Nat} (h : RootOf parent k r) :
    RootOf (Function.update parent r1 (r2 : Int)) k (if r = r1 then r2 else r) := by
  obtain ⟨f, h⟩ := h
  exact ⟨f + 1, findRoot_link parent r1 r2 h1 h2 hne f k r h⟩

/-- Linking the root `r1` below the root `r2`, with the rank of `r2` set to
a value `v` above the rank of `r1`, keeps the forest. -/
theorem Forest.link {N B : Nat} {nodes : Nodes} (hf : Forest N B nodes) {r1 r2 : Nat}
    (h1 : nodes.parent r1 < 0) (h2 : nodes.parent r2 < 0) (hne : r1 ≠ r2) (hr1 : r1 < N)
    (hr2 : r2 < N) (v : Int) (hv1 : nodes.rank r1 < v) (hv2 : nodes.rank r2 ≤ v)
    (hv3 : v ≤ nodes.rank r2 + 1) :
    Forest N (B + 1)
      { parent := Function.update nodes.parent r1 (r2 : Int),
        rank := Function.update nodes.rank r2 v } := by
  refine ⟨?_, ?_, ?_, ?_, ?_, ?_⟩
  · intro k hk
    simp only at hk ⊢
    by_cases e : k = r1
    · subst e
      simp only [Function.update_same, Int.toNat_ofNat]
      exact hr2
    · rw [Function.update_noteq e] at hk ⊢
      exact hf.parent_lt k hk
  · intro k hk
    simp only at hk ⊢
    by_cases e : k = r1
    · subst e
      simp only [Function.update_same] at hk
      omega
    · rw [Function.update_noteq e] at hk ⊢
      exact hf.parent_neg k hk
  · intro k hk
    simp only at hk
    by_cases e : k = r1
    · subst e
      exact hr1
    · rw [Function.update_noteq e] at hk
      exact hf.child_lt k hk
  · intro k hk
    simp only at hk ⊢
    by_cases e : k = r1
    · subst e
      rw [Function.update_same, Int.toNat_ofNat, Function.update_same,
        Function.update_noteq hne]
      exact hv1
    · rw [Function.update_noteq e] at hk ⊢
      have hk2 : k ≠ r2 := by
        intro e2
        subst e2
        omega
      rw [Function.update_noteq hk2]
      have hlt := hf.rank_lt k hk
      by_cases e3 : (nodes.parent k).toNat = r2
      · rw [e3, Function.update_same]
        rw [e3] at hlt
        omega
      · rw [Function.update_noteq e3]
        exact hlt
  · intro k
    simp only
    by_cases e : k = r2
    · subst e
      rw [Function.update_same]
      have := hf.rank_nonneg k
      omega
    · rw [Function.update_noteq e]
      exact hf.rank_nonneg k
  · intro k
    simp only
    by_cases e : k = r2
    · subst e
      rw [Function.update_same]
      have := hf.rank_le k
      push_cast
      omega
    · rw [Function.update_noteq e]
      have := hf.rank_le k
      push_cast
      omega

/-! ### Compressing a path -/

theorem RootOf.of_compress {parent : Nat → Int} {k r : Nat} (hk : 0 ≤ parent k)
    (hkr : RootOf parent k r) {m r2 : Nat} (h : RootOf parent m r2) :
    RootOf (Function.update parent k (r : Int)) m r2 := by
  have hroot := hkr.isRoot
  have hne : r ≠ k := by
    intro e
    subst e
    omega
  have hkr2 : RootOf (Function.update parent k (r : Int)) k r := by
    refine ⟨2, ?_⟩
    rw [findRoot]
    simp only [Function.update_same]
    rw [if_pos (by omega : ((r : Nat) : Int) ≥ 0), Int.toNat_ofNat, findRoot,
      Function.update_noteq hne, if_neg (by omega)]
  obtain ⟨f, h⟩ := h
  induction f generalizing m with
  | zero => simp [findRoot] at h
  | succ n ih =>
    by_cases e : m = k
    · subst e
      have := RootOf.unique hkr ⟨n + 1, h⟩
      subst this
      exact hkr2
    · rw [findRoot] at h
      by_cases hp : parent m ≥ 0
      · rw [if_pos hp] at h
        have := ih h
        apply RootOf.step
        · rw [Function.update_noteq e]
          exact hp
        · rw [Function.update_noteq e]
          exact this
      · rw [if_neg hp] at h
        cases h
        apply RootOf.of_root
        rw [Function.update_noteq e]
        omega

/-- Setting the parent of a node that is not a root to its root keeps the
forest. -/
theorem Forest.compress {N B : Nat} {parent : Nat → Int} {rank : Nat → Int}
    (hf : Forest N B { parent := parent, rank := rank }) {k r : Nat} (hk : 0 ≤ parent k)
    (hkr : RootOf parent k r) :
    Forest N B { parent := Function.update parent k (r : Int), rank := rank } := by
  obtain ⟨f, hfr⟩ := hkr
  have hkN : k < N := hf.child_lt k hk
  have hrN : r < N := hf.root_lt f k r hkN hfr
  have hrank := (hf.rank_le_root f k r hfr).2 hk
  refine ⟨?_, ?_, ?_, ?_, hf.rank_nonneg, hf.rank_le⟩
  · intro m hm
    simp only at hm ⊢
    by_cases e : m = k
    · subst e
      simp only [Function.update_same, Int.toNat_ofNat]
      exact hrN
    · rw [Function.update_noteq e] at hm ⊢
      exact hf.parent_lt m hm
  · intro m hm
    simp only at hm ⊢
    by_cases e : m = k
    · subst e
      simp only [Function.update_same] at hm
      omega
    · rw [Function.update_noteq e] at hm ⊢
      exact hf.parent_neg m hm
  · intro m hm
    simp only at hm
    by_cases e : m = k
    · subst e
      exact hkN
    · rw [Function.update_noteq e] at hm
      exact hf.child_lt m hm
  · intro m hm
    simp only at hm ⊢
    by_cases e : m = k
    · subst e
      simp only [Function.update_same, Int.toNat_ofNat]
      exact hrank
    · rw [Function.update_noteq e] at hm ⊢
      exact hf.rank_lt m hm

/-- Two forests in which every node keeps its root have the same roots. -/
theorem rootOf_iff_of_imp {N B N2 B2 : Nat} {nodes nodes2 : Nodes} (hf : Forest N B nodes)
    (_hf2 : Forest N2 B2 nodes2)
    (himp : ∀ m r, RootOf nodes.parent m r → RootOf nodes2.parent m r) (m r : Nat) :
    RootOf nodes2.parent m r ↔ RootOf nodes.parent m r := by
  constructor
  · intro h
    obtain ⟨r0, hr0⟩ := hf.rootOf_total m
    have := RootOf.unique h (himp m r0 hr0)
    subst this
    exact hr0
  · exact himp m r

/-- The loop `compressPath` ends, keeps the forest and keeps every root. -/
theorem compressPath_spec {N B : Nat} (root : Nat) (rank : Nat → Int) (fuel : Nat)
    (parent : Nat → Int) (k : Nat) (hf : Forest N B { parent := parent, rank := rank })
    (hk : RootOf parent k root) (hfuel : (B : Int) - rank k < (fuel : Int)) :
    ∃ parent2, compressPath root fuel parent k = some parent2 ∧
      Forest N B { parent := parent2, rank := rank } ∧
      ∀ m r, RootOf parent2 m r ↔ RootOf parent m r := by
  induction fuel generalizing parent k with
  | zero =>
    have := hf.rank_le k
    simp only at this
    omega
  | succ n ih =>
    rw [compressPath]
    by_cases hp : parent k ≥ 0
    · rw [if_pos hp]
      have hf1 := hf.compress hp hk
      have himp : ∀ m r, RootOf parent m r →
          RootOf (Function.update parent k (root : Int)) m r :=
        fun m r h => RootOf.of_compress hp hk h
      have hiff := rootOf_iff_of_imp hf hf1 himp
      have hnext : RootOf (Function.update parent k (root : Int)) (parent k).toNat root :=
        himp _ _ (RootOf.of_step hp hk)
      have hlt := hf.rank_lt k hp
      simp only at hlt
      obtain ⟨parent2, h1, h2, h3⟩ := ih (Function.update parent k (root : Int))
        (parent k).toNat hf1 hnext (by push_cast at hfuel; omega)
      exact ⟨parent2, h1, h2, fun m r => (h3 m r).trans (hiff m r)⟩
    · rw [if_neg hp]
      exact ⟨parent, rfl, hf, fun m r => Iff.rfl⟩

/-! ### One merge -/

/-- Linking the root of `x` below the root of `y` and compressing the paths
of two of these nodes: the loops end, the forest is kept, `x` and `y` share
the root of `y`, and the classes are the old ones with those of `x` and `y`
joined. -/
theorem union_spec {N B : Nat} {nodes : Nodes} (hf : Forest N B nodes) (fuel : Nat)
    (hfuel : B + 2 ≤ fuel) {x y r1 r2 : Nat} (hx : RootOf nodes.parent x r1)
    (hy : RootOf nodes.parent y r2) (hne : r1 ≠ r2) (hxN : x < N) (hyN : y < N) (v : Int)
    (hv1 : nodes.rank r1 < v) (hv2 : nodes.rank r2 ≤ v) (hv3 : v ≤ nodes.rank r2 + 1)
    (c1 c2 : Nat) (hc1 : c1 = x ∨ c1 = y) (hc2 : c2 = x ∨ c2 = y) :
    ∃ p2 p3, compressPath r2 fuel (Function.update nodes.parent r1 (r2 : Int)) c1 = some p2 ∧
      compressPath r2 fuel p2 c2 = some p3 ∧
      Forest N (B + 1) { parent := p3, rank := Function.update nodes.rank r2 v } ∧
      RootOf p3 x r2 ∧ RootOf p3 y r2 ∧
      (∀ a b, SameClass nodes.parent a b → SameClass p3 a b) ∧
      (∀ a b, SameClass p3 a b → SameClass nodes.parent a b ∨
        (SameClass nodes.parent a x ∧ SameClass nodes.parent b y) ∨
        (SameClass nodes.parent a y ∧ SameClass nodes.parent b x)) := by
  have h1 := hx.isRoot
  have h2 := hy.isRoot
  obtain ⟨fx, hfx⟩ := hx
  obtain ⟨fy, hfy⟩ := hy
  have hr1 : r1 < N := hf.root_lt fx x r1 hxN hfx
  have hr2 : r2 < N := hf.root_lt fy y r2 hyN hfy
  have hx : RootOf nodes.parent x r1 := ⟨fx, hfx⟩
  have hy : RootOf nodes.parent y r2 := ⟨fy, hfy⟩
  have hf1 := hf.link h1 h2 hne hr1 hr2 v hv1 hv2 hv3
  have hlink : ∀ m r, RootOf nodes.parent m r →
      RootOf (Function.update nodes.parent r1 (r2 : Int)) m (if r = r1 then r2 else r) :=
    fun m r h => RootOf.of_link h1 h2 hne h
  have hx1 : RootOf (Function.update nodes.parent r1 (r2 : Int)) x r2 := by
    have := hlink x r1 hx
    rwa [if_pos rfl] at this
  have hy1 : RootOf (Function.update nodes.parent r1 (r2 : Int)) y r2 := by
    have := hlink y r2 hy
    rwa [if_neg (Ne.symm hne)] at this
  have hc1r : RootOf (Function.update nodes.parent r1 (r2 : Int)) c1 r2 := by
    rcases hc1 with e | e <;> rw [e] <;> assumption
  have hrk : ∀ k, 0 ≤ Function.update nodes.rank r2 v k := hf1.rank_nonneg
  obtain ⟨p2, hp2, hf2, iff2⟩ := compressPath_spec r2 (Function.update nodes.rank r2 v) fuel
    (Function.update nodes.parent r1 (r2 : Int)) c1 hf1 hc1r (by
      have := hrk c1
      push_cast
      omega)
  have hc2r : RootOf p2 c2 r2 := by
    rw [iff2]
    rcases hc2 with e | e <;> rw [e] <;> assumption
  obtain ⟨p3, hp3, hf3, iff3⟩ := compressPath_spec r2 (Function.update nodes.rank r2 v) fuel
    p2 c2 hf2 hc2r (by
      have := hrk c2
      push_cast
      omega)
  have hiff : ∀ m r, RootOf p3 m r ↔ RootOf (Function.update nodes.parent r1 (r2 : Int)) m r :=
    fun m r => (iff3 m r).trans (iff2 m r)
  refine ⟨p2, p3, hp2, hp3, hf3, (hiff _ _).mpr hx1, (hiff _ _).mpr hy1, ?_, ?_⟩
  · rintro a b ⟨r, ha, hb⟩
    exact ⟨_, (hiff _ _).mpr (hlink a r ha), (hiff _ _).mpr (hlink b r hb)⟩
  · rintro a b ⟨r, ha, hb⟩
    obtain ⟨ra, hra⟩ := hf.rootOf_total a
    obtain ⟨rb, hrb⟩ := hf.rootOf_total b
    have ea := RootOf.unique ((hiff _ _).mp ha) (hlink a ra hra)
    have eb := RootOf.unique ((hiff _ _).mp hb) (hlink b rb hrb)
    by_cases e : ra = rb
    · subst e
      exact Or.inl ⟨ra, hra, hrb⟩
    · right
      by_cases e1 : ra = r1
      · have e2 : rb = r2 := by
          rw [if_pos e1] at ea
          by_cases e3 : rb = r1
          · exact absurd (e1.trans e3.symm) e
          · rw [if_neg e3] at eb
            rw [← eb, ea]
        subst e1
        subst e2
        exact Or.inl ⟨⟨ra, hra, hx⟩, ⟨rb, hrb, hy⟩⟩
      · rw [if_neg e1] at ea
        have e3 : rb = r1 := by
          by_contra e3
          rw [if_neg e3] at eb
          exact e (by rw [← ea, eb])
        rw [if_pos e3] at eb
        have e4 : ra = r2 := by rw [← ea, eb]
        subst e3
        subst e4
        exact Or.inr ⟨⟨ra, hra, hy⟩, ⟨rb, hrb, hx⟩⟩

/-- One iteration of the loop over `j` ends, keeps the forest (the rank bound
grows by one at most) and the variable `root`, keeps every class together,
and joins the classes of `i` and `j` exactly when the two rectangles are
similar. -/
theorem mergeStep_spec {N B : Nat} (fuel : Nat) (data : List CLWeightedRect) (eps : ℚ)
    (i j : Nat) (st : Nodes × Nat) (hf : Forest N B st.1)
    (hroot : RootOf st.1.parent i st.2) (hi : i < N) (hj : j < N) (hfuel : B + 2 ≤ fuel) :
    ∃ st2, mergeStep fuel data eps i st j = some st2 ∧ Forest N (B + 1) st2.1 ∧
      RootOf st2.1.parent i st2.2 ∧
      (∀ a b, SameClass st.1.parent a b → SameClass st2.1.parent a b) ∧
      (∀ a b, SameClass st2.1.parent a b → SameClass st.1.parent a b ∨
        ((i ≠ j ∧ areRectSimilar (data.getD i zeroRect) (data.getD j zeroRect) eps = true) ∧
          ((SameClass st.1.parent a i ∧ SameClass st.1.parent b j) ∨
            (SameClass st.1.parent a j ∧ SameClass st.1.parent b i)))) ∧
      ((i ≠ j ∧ areRectSimilar (data.getD i zeroRect) (data.getD j zeroRect) eps = true) →
        SameClass st2.1.parent i j) := by
  obtain ⟨nodes, root⟩ := st
  simp only at hf hroot ⊢
  unfold mergeStep
  by_cases hskip : i = j ∨
      areRectSimilar (data.getD i zeroRect) (data.getD j zeroRect) eps = false
  · rw [if_pos hskip]
    refine ⟨(nodes, root), rfl, hf.mono (Nat.le_succ B), hroot, fun a b h => h,
      fun a b h => Or.inl h, ?_⟩
    rintro ⟨hne, hsim⟩
    rcases hskip with e | e
    · exact absurd e hne
    · rw [hsim] at e
      cases e
  · rw [if_neg hskip]
    have hcond : i ≠ j ∧
        areRectSimilar (data.getD i zeroRect) (data.getD j zeroRect) eps = true := by
      push_neg at hskip
      refine ⟨hskip.1, ?_⟩
      cases h : areRectSimilar (data.getD i zeroRect) (data.getD j zeroRect) eps
      · exact absurd h hskip.2
      · rfl
    obtain ⟨root2, hroot2⟩ := hf.findRoot_total j fuel (by omega)
    have hj2 : RootOf nodes.parent j root2 := ⟨fuel, hroot2⟩
    simp only [hroot2, Option.some_bind]
    by_cases heq : root2 = root
    · rw [if_neg (not_not.mpr heq)]
      subst heq
      exact ⟨(nodes, root2), rfl, hf.mono (Nat.le_succ B), hroot, fun a b h => h,
        fun a b h => Or.inl h, fun _ => ⟨root2, hroot, hj2⟩⟩
    · rw [if_pos heq]
      by_cases hrank : nodes.rank root > nodes.rank root2
      · simp only [if_pos hrank]
        obtain ⟨p2, p3, hp2, hp3, hf3, hx3, hy3, hmono, hsound⟩ :=
          union_spec hf fuel hfuel hj2 hroot heq hj hi (nodes.rank root) hrank (le_refl _)
            (by omega) j i (Or.inl rfl) (Or.inr rfl)
        rw [Function.update_eq_self] at hf3
        simp only [hp2, hp3, Option.some_bind]
        refine ⟨_, rfl, hf3, hy3, hmono, ?_, fun _ => ⟨root, hy3, hx3⟩⟩
        intro a b h
        rcases hsound a b h with h1 | h1 | h1
        · exact Or.inl h1
        · exact Or.inr ⟨hcond, Or.inr h1⟩
        · exact Or.inr ⟨hcond, Or.inl h1⟩
      · simp only [if_neg hrank]
        obtain ⟨p2, p3, hp2, hp3, hf3, hx3, hy3, hmono, hsound⟩ :=
          union_spec hf fuel hfuel hroot hj2 (Ne.symm heq) hi hj
            (nodes.rank root2 + (if nodes.rank root = nodes.rank root2 then 1 else 0))
            (by split_ifs <;> omega) (by split_ifs <;> omega) (by split_ifs <;> omega)
            j i (Or.inr rfl) (Or.inl rfl)
        simp only [hp2, hp3, Option.some_bind]
        refine ⟨_, rfl, hf3, hx3, hmono, ?_, fun _ => ⟨root2, hx3, hy3⟩⟩
        intro a b h
        rcases hsound a b h with h1 | h1 | h1
        · exact Or.inl h1
        · exact Or.inr ⟨hcond, Or.inl h1⟩
        · exact Or.inr ⟨hcond, Or.inr h1⟩

/-! ### The loops of the merge pass -/

/-- A loop over `0 .. N-1` whose body always ends and carries an invariant
ends with the invariant. -/
theorem foldlM_range_inv {σ : Type} (f : σ → Nat → Option σ) (Inv : Nat → σ → Prop) (N : Nat)
    (s : σ) (h0 : Inv 0 s)
    (hstep : ∀ m s, m < N → Inv m s → ∃ s2, f s m = some s2 ∧ Inv (m + 1) s2) :
    ∃ s2, (List.range N).foldlM f s = some s2 ∧ Inv N s2 := by
  induction N with
  | zero => exact ⟨s, rfl, h0⟩
  | succ n ih =>
    obtain ⟨s1, h1, hinv⟩ := ih fun m s hm => hstep m s (Nat.lt_succ_of_lt hm)
    obtain ⟨s2, h2, hinv2⟩ := hstep n s1 (Nat.lt_succ_self n) hinv
    refine ⟨s2, ?_, hinv2⟩
    rw [List.range_succ, List.foldlM_append, h1]
    simp [h2]

theorem similarAt_eqvGen_of_sameClass {data : List CLWeightedRect} {eps : ℚ}
    {p p2 : Nat → Int} {i j : Nat} (hi : i < data.length) (hj : j < data.length)
    (hsound : ∀ a b, SameClass p a b → Relation.EqvGen (similarAt data eps) a b)
    (hstep : ∀ a b, SameClass p2 a b → SameClass p a b ∨
      ((i ≠ j ∧ areRectSimilar (data.getD i zeroRect) (data.getD j zeroRect) eps = true) ∧
        ((SameClass p a i ∧ SameClass p b j) ∨ (SameClass p a j ∧ SameClass p b i))))
    (a b : Nat) (h : SameClass p2 a b) : Relation.EqvGen (similarAt data eps) a b := by
  rcases hstep a b h with h1 | ⟨⟨hne, hsim⟩, h1 | h1⟩
  · exact hsound a b h1
  · have hij : Relation.EqvGen (similarAt data eps) i j := Relation.EqvGen.rel _ _ ⟨hi, hj, hne, hsim⟩
    exact Relation.EqvGen.trans _ _ _ (hsound _ _ h1.1)
      (Relation.EqvGen.trans _ _ _ hij (Relation.EqvGen.symm _ _ (hsound _ _ h1.2)))
  · have hij : Relation.EqvGen (similarAt data eps) i j := Relation.EqvGen.rel _ _ ⟨hi, hj, hne, hsim⟩
    exact Relation.EqvGen.trans _ _ _ (hsound _ _ h1.1)
      (Relation.EqvGen.trans _ _ _ (Relation.EqvGen.symm _ _ hij) (Relation.EqvGen.symm _ _ (hsound _ _ h1.2)))

/-- The loop over `j` for one `i` ends; it keeps the forest, keeps every
class together, joins only similar rectangles, and joins `i` with every `j`
similar to it. -/
theorem mergeRow_spec {B : Nat} (fuel : Nat) (data : List CLWeightedRect) (eps : ℚ) (i : Nat)
    (nodes : Nodes) (hf : Forest data.length B nodes) (hi : i < data.length)
    (hfuel : B + data.length + 1 ≤ fuel)
    (hsound : ∀ a b, SameClass nodes.parent a b → Relation.EqvGen (similarAt data eps) a b) :
    ∃ nodes2, mergeRow fuel data eps nodes i = some nodes2 ∧
      Forest data.length (B + data.length) nodes2 ∧
      (∀ a b, SameClass nodes.parent a b → SameClass nodes2.parent a b) ∧
      (∀ a b, SameClass nodes2.parent a b → Relation.EqvGen (similarAt data eps) a b) ∧
      (∀ j, similarAt data eps i j → SameClass nodes2.parent i j) := by
  unfold mergeRow
  obtain ⟨root, hroot⟩ := hf.findRoot_total i fuel (by omega)
  rw [hroot, Option.some_bind]
  obtain ⟨st2, hfold, hf2, _, hmono, hsnd, hest⟩ := foldlM_range_inv
    (mergeStep fuel data eps i)
    (fun m st => Forest data.length (B + m) st.1 ∧ RootOf st.1.parent i st.2 ∧
      (∀ a b, SameClass nodes.parent a b → SameClass st.1.parent a b) ∧
      (∀ a b, SameClass st.1.parent a b → Relation.EqvGen (similarAt data eps) a b) ∧
      (∀ j, j < m → similarAt data eps i j → SameClass st.1.parent i j))
    data.length (nodes, root)
    ⟨hf, ⟨fuel, hroot⟩, fun a b h => h, hsound, fun j hj => absurd hj (Nat.not_lt_zero j)⟩
    (by
      rintro m st hm ⟨hfm, hrm, hmonom, hsoundm, hestm⟩
      obtain ⟨st2, h1, h2, h3, h4, h5, h6⟩ :=
        mergeStep_spec fuel data eps i m st hfm hrm hi hm (by omega)
      refine ⟨st2, h1, h2, h3, fun a b h => h4 a b (hmonom a b h),
        similarAt_eqvGen_of_sameClass hi hm hsoundm h5, ?_⟩
      intro j hj hsim
      rcases Nat.lt_succ_iff_lt_or_eq.mp hj with hlt | heq
      · exact h4 _ _ (hestm j hlt hsim)
      · subst heq
        exact h6 ⟨hsim.2.2.1, hsim.2.2.2⟩)
  rw [hfold]
  exact ⟨st2.1, rfl, hf2, hmono, hsnd, fun j hsim => hest j hsim.2.1 hsim⟩

theorem forest_init (N : Nat) : Forest N 0 { parent := fun _ => -1, rank := fun _ => 0 } := by
  refine ⟨?_, ?_, ?_, ?_, ?_, ?_⟩ <;> intro k <;> simp

/-- The merge pass ends for every fuel above `N * N`; after it the array is
a forest and two nodes have the same root exactly when a chain of similar
pairs connects them. -/
theorem mergePass_spec (fuel : Nat) (data : List CLWeightedRect) (eps : ℚ)
    (hfuel : data.length * data.length + 1 ≤ fuel) :
    ∃ nodes, (List.range data.length).foldlM (mergeRow fuel data eps)
        { parent := fun _ => -1, rank := fun _ => 0 } = some nodes ∧
      Forest data.length (data.length * data.length) nodes ∧
      ∀ a b, SameClass nodes.parent a b ↔ Relation.EqvGen (similarAt data eps) a b := by
  obtain ⟨nodes, hfold, hf, hsound, hest⟩ := foldlM_range_inv (mergeRow fuel data eps)
    (fun m nodes => Forest data.length (m * data.length) nodes ∧
      (∀ a b, SameClass nodes.parent a b → Relation.EqvGen (similarAt data eps) a b) ∧
      (∀ i, i < m → ∀ j, similarAt data eps i j → SameClass nodes.parent i j))
    data.length { parent := fun _ => -1, rank := fun _ => 0 }
    ⟨by simpa using forest_init data.length,
      by
        rintro a b ⟨r, ha, hb⟩
        have hneg : ∀ k : Nat, (fun _ : Nat => (-1 : Int)) k < 0 := fun _ => by norm_num
        have e1 : r = a := RootOf.eq_of_root (hneg a) ha
        have e2 : r = b := RootOf.eq_of_root (hneg b) hb
        rw [← e1, ← e2]
        exact Relation.EqvGen.refl _,
      fun i hi => absurd hi (Nat.not_lt_zero i)⟩
    (by
      rintro m nodes hm ⟨hfm, hsoundm, hestm⟩
      have hfuel2 : m * data.length + data.length + 1 ≤ fuel := by
        have : (m + 1) * data.length ≤ data.length * data.length :=
          Nat.mul_le_mul_right _ hm
        rw [Nat.succ_mul] at this
        omega
      obtain ⟨nodes2, h1, h2, h3, h4, h5⟩ :=
        mergeRow_spec fuel data eps m nodes hfm hm hfuel2 hsoundm
      refine ⟨nodes2, h1, by rw [Nat.succ_mul]; exact h2, h4, ?_⟩
      intro i hi j hsim
      rcases Nat.lt_succ_iff_lt_or_eq.mp hi with hlt | heq
      · exact h3 _ _ (hestm i hlt j hsim)
      · subst heq
        exact h5 j hsim)
  refine ⟨nodes, hfold, hf, fun a b => ⟨hsound a b, ?_⟩⟩
  intro h
  induction h with
  | rel x y hxy => exact hest x hxy.1 y hxy
  | refl x => exact SameClass.refl_of_forest hf x
  | symm x y _ ih => exact ih.symm
  | trans x y z _ _ ih1 ih2 => exact ih1.trans ih2

/-! ### The final pass -/

/-- One iteration of the final pass ends and extends what the pass has
established by one node. -/
theorem labelStep_spec {N B : Nat} (fuel : Nat) (parent : Nat → Int) (rank0 : Nat → Int)
    (hf : Forest N B { parent := parent, rank := rank0 }) (hfuel : B + 1 ≤ fuel) (m : Nat)
    (st : LabelState) (hinv : LabelInv parent m st) :
    ∃ st2, labelStep fuel parent st m = some st2 ∧ LabelInv parent (m + 1) st2 := by
  unfold labelStep
  obtain ⟨root, hroot⟩ := hf.findRoot_total m fuel hfuel
  have hrootOf : RootOf parent m root := ⟨fuel, hroot⟩
  simp only at hroot
  rw [hroot, Option.some_bind]
  have hlen := hinv.length_eq
  have hn0 := hinv.nclasses_nonneg
  have hnle := hinv.nclasses_le
  by_cases hr : st.rank root ≥ 0
  · rw [if_pos hr]
    refine ⟨_, rfl, ?_, ?_, ?_, ?_, ?_, ?_, ?_⟩
    · simp [hlen]
    · simp only
      omega
    · simp only
      push_cast
      omega
    · intro k hk
      simp only at hk ⊢
      by_cases e : k = root
      · subst e
        rw [Function.update_same]
        omega
      · rw [Function.update_noteq e] at hk ⊢
        have := hinv.rank_ge k hk
        omega
    · intro k k2 hk hkk
      simp only at hk hkk
      by_cases e : k = root
      · subst e
        rw [Function.update_same] at hkk
        by_cases e2 : k2 = k
        · exact e2.symm
        · rw [Function.update_noteq e2] at hkk
          have := hinv.rank_ge k2 (by omega)
          omega
      · rw [Function.update_noteq e] at hk hkk
        by_cases e2 : k2 = root
        · subst e2
          rw [Function.update_same] at hkk
          have := hinv.rank_ge k hk
          omega
        · rw [Function.update_noteq e2] at hkk
          exact hinv.rank_inj k k2 hk hkk
    · intro i hi
      simp only
      rcases Nat.lt_succ_iff_lt_or_eq.mp hi with hlt | heq
      · obtain ⟨r, h1, h2, h3⟩ := hinv.label_eq i hlt
        have e : r ≠ root := by
          intro e
          subst e
          omega
        refine ⟨r, h1, ?_, ?_⟩
        · rw [Function.update_noteq e]
          exact h2
        · rw [Function.update_noteq e, List.getD_append _ _ _ _ (by omega)]
          exact h3
      · subst heq
        refine ⟨root, hrootOf, ?_, ?_⟩
        · rw [Function.update_same]
          omega
        · rw [Function.update_same, List.getD_append_right _ _ _ _ (by omega), hlen]
          simp
    · intro c hc0 hc
      simp only at hc ⊢
      by_cases e : c < st.nclasses
      · obtain ⟨i, hi, hli⟩ := hinv.label_used c hc0 e
        exact ⟨i, Nat.lt_succ_of_lt hi, by
          rw [List.getD_append _ _ _ _ (by omega)]
          exact hli⟩
      · refine ⟨m, Nat.lt_succ_self m, ?_⟩
        rw [List.getD_append_right _ _ _ _ (by omega), hlen]
        simp
        omega
  · rw [if_neg hr]
    refine ⟨_, rfl, ?_, hn0, ?_, hinv.rank_ge, hinv.rank_inj, ?_, ?_⟩
    · simp [hlen]
    · push_cast
      omega
    · intro i hi
      simp only
      rcases Nat.lt_succ_iff_lt_or_eq.mp hi with hlt | heq
      · obtain ⟨r, h1, h2, h3⟩ := hinv.label_eq i hlt
        refine ⟨r, h1, h2, ?_⟩
        rw [List.getD_append _ _ _ _ (by omega)]
        exact h3
      · subst heq
        refine ⟨root, hrootOf, by omega, ?_⟩
        rw [List.getD_append_right _ _ _ _ (by omega), hlen]
        simp
    · intro c hc0 hc
      obtain ⟨i, hi, hli⟩ := hinv.label_used c hc0 hc
      exact ⟨i, Nat.lt_succ_of_lt hi, by
        simp only
        rw [List.getD_append _ _ _ _ (by omega)]
        exact hli⟩

/-- The function `partitionData` returns for every fuel above `N * N`: one
label per rectangle, every label a class id below `nclasses`, every class id
used, and two rectangles with the same label exactly when a chain of similar
pairs connects them. -/
theorem partitionData_spec (fuel : Nat) (data : List CLWeightedRect) (eps : ℚ)
    (hfuel : data.length * data.length + 1 ≤ fuel) :
    ∃ labels nclasses, partitionData fuel data eps = some (labels, nclasses) ∧
      labels.length = data.length ∧ 0 ≤ nclasses ∧ nclasses ≤ (data.length : Int) ∧
      (∀ i, i < data.length → 0 ≤ labels.getD i 0 ∧ labels.getD i 0 < nclasses) ∧
      (∀ c : Int, 0 ≤ c → c < nclasses → ∃ i, i < data.length ∧ labels.getD i 0 = c) ∧
      (∀ a b, a < data.length → b < data.length →
        (labels.getD a 0 = labels.getD b 0 ↔ Relation.EqvGen (similarAt data eps) a b)) := by
  obtain ⟨nodes, hmerge, hf, hclass⟩ := mergePass_spec fuel data eps hfuel
  obtain ⟨st, hfold, hinv⟩ := foldlM_range_inv (labelStep fuel nodes.parent)
    (fun m st => LabelInv nodes.parent m st) data.length
    { rank := nodes.rank, nclasses := 0, labels := [] }
    ⟨rfl, le_refl _, by simp, fun k hk => absurd (hf.rank_nonneg k) (not_le.mpr hk),
      fun k _ hk => absurd (hf.rank_nonneg k) (not_le.mpr hk),
      fun i hi => absurd hi (Nat.not_lt_zero i),
      fun c hc0 hc => absurd hc (not_lt.mpr hc0)⟩
    (fun m st _ hinv => labelStep_spec fuel nodes.parent nodes.rank hf hfuel m st hinv)
  refine ⟨st.labels, st.nclasses, ?_, hinv.length_eq, hinv.nclasses_nonneg, hinv.nclasses_le,
    ?_, hinv.label_used, ?_⟩
  · unfold partitionData
    simp only [hmerge, Option.some_bind, hfold, Option.map_some']
  · intro i hi
    obtain ⟨r, _, h2, h3⟩ := hinv.label_eq i hi
    have := hinv.rank_ge r h2
    omega
  · intro a b ha hb
    obtain ⟨ra, ha1, ha2, ha3⟩ := hinv.label_eq a ha
    obtain ⟨rb, hb1, hb2, hb3⟩ := hinv.label_eq b hb
    rw [← hclass, ha3, hb3]
    constructor
    · intro h
      have e : ra = rb := hinv.rank_inj ra rb ha2 (by omega)
      subst e
      exact ⟨ra, ha1, hb1⟩
    · rintro ⟨r, h1, h2⟩
      have e1 := RootOf.unique ha1 h1
      have e2 := RootOf.unique hb1 h2
      rw [e1, e2]

/-! ### Rearranging the input -/

theorem permuteData_length (data : List CLWeightedRect) (σ : Equiv.Perm (Fin data.length)) :
    (permuteData data σ).length = data.length := by
  simp [permuteData]

theorem permuteData_getD (data : List CLWeightedRect) (σ : Equiv.Perm (Fin data.length))
    (i : Fin data.length) :
    (permuteData data σ).getD i zeroRect = data.getD (σ i) zeroRect := by
  have h1 : (i : Nat) < (permuteData data σ).length := by
    rw [permuteData_length]
    exact i.2
  rw [List.getD_eq_getElem _ _ h1, List.getD_eq_getElem _ _ (σ i).2]
  simp [permuteData]

theorem similarAt_permuteData (data : List CLWeightedRect) (eps : ℚ)
    (σ : Equiv.Perm (Fin data.length)) (i j : Fin data.length) :
    similarAt (permuteData data σ) eps i j ↔ similarAt data eps (σ i) (σ j) := by
  unfold similarAt
  rw [permuteData_length, permuteData_getD, permuteData_getD]
  have hne : ((i : Nat) ≠ j) ↔ (((σ i : Fin data.length) : Nat) ≠ (σ j : Fin data.length)) := by
    rw [Ne, Ne, ← Fin.ext_iff, ← Fin.ext_iff, σ.injective.eq_iff]
  constructor
  · rintro ⟨_, _, h3, h4⟩
    exact ⟨(σ i).2, (σ j).2, hne.mp h3, h4⟩
  · rintro ⟨_, _, h3, h4⟩
    exact ⟨i.2, j.2, hne.mpr h3, h4⟩

/-- A chain of similar pairs in the rearranged list is a chain of similar
pairs in the list. -/
theorem eqvGen_permuteData (data : List CLWeightedRect) (eps : ℚ)
    (σ : Equiv.Perm (Fin data.length)) (i j : Fin data.length) :
    Relation.EqvGen (similarAt (permuteData data σ) eps) i j ↔
      Relation.EqvGen (similarAt data eps) (σ i) (σ j) := by
  have key : ∀ (d : List CLWeightedRect) (τ : Equiv.Perm (Fin d.length)) (a b : Nat),
      Relation.EqvGen (similarAt (permuteData d τ) eps) a b →
      ∀ (ha : a < d.length) (hb : b < d.length),
        Relation.EqvGen (similarAt d eps) (τ ⟨a, ha⟩) (τ ⟨b, hb⟩) := by
    intro d τ a b h
    induction h with
    | rel x y hxy =>
      intro ha hb
      exact Relation.EqvGen.rel _ _ ((similarAt_permuteData d eps τ ⟨x, ha⟩ ⟨y, hb⟩).mp hxy)
    | refl x =>
      intro ha hb
      exact Relation.EqvGen.refl _
    | symm x y _ ih =>
      intro ha hb
      exact Relation.EqvGen.symm _ _ (ih hb ha)
    | trans x y z hxy _ ih1 ih2 =>
      intro ha hc
      by_cases hy : y < d.length
      · exact Relation.EqvGen.trans _ _ _ (ih1 ha hy) (ih2 hy hc)
      · -- a node outside the list is alone in its class
        have hiso : ∀ u v, Relation.EqvGen (similarAt (permuteData d τ) eps) u v →
            (u < d.length ↔ v < d.length) := by
          intro u v huv
          induction huv with
          | rel p q hpq =>
            have h1 := hpq.1
            have h2 := hpq.2.1
            rw [permuteData_length] at h1 h2
            exact ⟨fun _ => h2, fun _ => h1⟩
          | refl p => exact Iff.rfl
          | symm p q _ ih => exact ih.symm
          | trans p q r _ _ ih1 ih2 => exact ih1.trans ih2
        exact absurd ((hiso x y hxy).mp ha) hy
  constructor
  · intro h
    exact key data σ i j h i.2 j.2
  · intro h
    -- the list is the rearranged list rearranged back
    have hback : ∀ a b : Nat, Relation.EqvGen (similarAt data eps) a b →
        ∀ (ha : a < data.length) (hb : b < data.length),
          Relation.EqvGen (similarAt (permuteData data σ) eps)
            (σ.symm ⟨a, ha⟩) (σ.symm ⟨b, hb⟩) := by
      intro a b hab
      induction hab with
      | rel x y hxy =>
        intro ha hb
        apply Relation.EqvGen.rel
        rw [similarAt_permuteData]
        simpa using hxy
      | refl x =>
        intro ha hb
        exact Relation.EqvGen.refl _
      | symm x y _ ih =>
        intro ha hb
        exact Relation.EqvGen.symm _ _ (ih hb ha)
      | trans x y z hxy _ ih1 ih2 =>
        intro ha hc
        by_cases hy : y < data.length
        · exact Relation.EqvGen.trans _ _ _ (ih1 ha hy) (ih2 hy hc)
        · have hiso : ∀ u v, Relation.EqvGen (similarAt data eps) u v →
              (u < data.length ↔ v < data.length) := by
            intro u v huv
            induction huv with
            | rel p q hpq => exact ⟨fun _ => hpq.2.1, fun _ => hpq.1⟩
            | refl p => exact Iff.rfl
            | symm p q _ ih => exact ih.symm
            | trans p q r _ _ ih1 ih2 => exact ih1.trans ih2
          exact absurd ((hiso x y hxy).mp ha) hy
    have := hback _ _ h (σ i).2 (σ j).2
    simpa using this

/-- Two labellings of the same indices with the same classes use the same
number of labels. -/
theorem card_image_eq_of_same_classes {n : Nat} (f g : Fin n → Int)
    (h : ∀ i j, f i = f j ↔ g i = g j) :
    (Finset.univ.image f).card = (Finset.univ.image g).card := by
  have one : ∀ (f g : Fin n → Int), (∀ i j, f i = f j ↔ g i = g j) →
      (Finset.univ.image f).card ≤ (Finset.univ.image g).card := by
    intro f g h
    classical
    apply Finset.card_le_card_of_injOn
      (fun c => if hc : ∃ i, f i = c then g (Classical.choose hc) else 0)
    · intro c hc
      obtain ⟨i, _, hi⟩ := Finset.mem_image.mp hc
      have hex : ∃ i, f i = c := ⟨i, hi⟩
      simp only [dif_pos hex]
      exact Finset.mem_image_of_mem _ (Finset.mem_univ _)
    · intro c1 hc1 c2 hc2 heq
      obtain ⟨i1, _, hi1⟩ := Finset.mem_image.mp hc1
      obtain ⟨i2, _, hi2⟩ := Finset.mem_image.mp hc2
      have hex1 : ∃ i, f i = c1 := ⟨i1, hi1⟩
      have hex2 : ∃ i, f i = c2 := ⟨i2, hi2⟩
      simp only [dif_pos hex1, dif_pos hex2] at heq
      have := (h _ _).mpr heq
      rw [Classical.choose_spec hex1, Classical.choose_spec hex2] at this
      exact this
  exact le_antisymm (one f g h) (one g f fun i j => (h i j).symm)

/-- The number of classes is the number of distinct labels. -/
theorem nclasses_eq_card {n : Nat} (f : Fin n → Int) (nclasses : Int) (h0 : 0 ≤ nclasses)
    (hrange : ∀ i, 0 ≤ f i ∧ f i < nclasses)
    (hused : ∀ c : Int, 0 ≤ c → c < nclasses → ∃ i, f i = c) :
    nclasses = ((Finset.univ.image f).card : Int) := by
  have himg : Finset.univ.image f = Finset.Ico 0 nclasses := by
    ext c
    simp only [Finset.mem_image, Finset.mem_univ, true_and, Finset.mem_Ico]
    constructor
    · rintro ⟨i, rfl⟩
      exact hrange i
    · rintro ⟨h1, h2⟩
      exact hused c h1 h2
  rw [himg, Int.card_Ico]
  simp
  omega


/-! ## Lemmas: the similarity test -/

theorem toI32_of_range (z : Int) (h1 : -2 ^ 31 ≤ z) (h2 : z < 2 ^ 31) : toI32 z = z := by
  unfold toI32
  omega

/-! ## Lemmas: the classes of `filterResult` -/

/-- Every rectangle that `filterResult` returns is the representative of a
class whose member counter is above the threshold. -/
theorem mem_filterResult (fuel : Nat) (data : List CLWeightedRect) (group_threshold : Int)
    (eps : ℚ) (labels : List Int) (nclasses : Int)
    (hpart : partitionData fuel data eps = some (labels, nclasses)) :
    ∃ out, filterResult fuel data group_threshold eps = some out ∧
      out.length ≤ nclasses.toNat ∧
      ∀ r ∈ out, ∃ i, i < nclasses.toNat ∧
        group_threshold < (classSums labels data).rweights i ∧
        r = averageRect (classSums labels data) i := by
  unfold filterResult classSums
  rw [hpart, Option.map_some']
  refine ⟨_, rfl, ?_, ?_⟩
  · refine le_trans (List.length_filterMap_le _ _) ?_
    simp
  · intro r hr
    simp only [List.mem_filterMap, List.mem_range] at hr
    obtain ⟨i, hi, hri⟩ := hr
    refine ⟨i, hi, ?_⟩
    split_ifs at hri with h1 h2
    refine ⟨not_le.mp h1, ?_⟩
    exact (Option.some.inj hri).symm

/-- One turn of the scale-counting loop at the scale `1.1 ^ k`. -/
theorem scaleCountLoop_succ (image : Image) (cascade : CvHaarClassifierCascade) (f k c : Nat) :
    scaleCountLoop image cascade (f + 1) (scaleAt k) c =
      if scaleFits image cascade k then scaleCountLoop image cascade f (scaleAt (k + 1)) (c + 1)
      else some c := by
  rw [← scaleAt_succ]
  rfl

/-- A count that the loop returns is the first scale, from `k` on, at which
the loop condition is false. -/
theorem scaleCountLoop_some (image : Image) (cascade : CvHaarClassifierCascade) (fuel : Nat) :
    ∀ k c n : Nat, scaleCountLoop image cascade fuel (scaleAt k) c = some n →
      c ≤ n ∧ (∀ j, j < n - c → scaleFits image cascade (k + j)) ∧
        ¬ scaleFits image cascade (k + (n - c)) := by
  induction fuel with
  | zero =>
    intro k c n h
    simp [scaleCountLoop] at h
  | succ f ih =>
    intro k c n h
    rw [scaleCountLoop_succ] at h
    by_cases h0 : scaleFits image cascade k
    · rw [if_pos h0] at h
      obtain ⟨h1, h2, h3⟩ := ih (k + 1) (c + 1) n h
      refine ⟨by omega, fun j hj => ?_, ?_⟩
      · cases j with
        | zero => exact h0
        | succ j =>
          have := h2 j (by omega)
          rwa [show k + 1 + j = k + (j + 1) by omega] at this
      · rwa [show k + 1 + (n - (c + 1)) = k + (n - c) by omega] at h3
    · rw [if_neg h0] at h
      have hcn : c = n := Option.some.inj h
      subst hcn
      refine ⟨le_refl _, fun j hj => by omega, ?_⟩
      rwa [Nat.sub_self, Nat.add_zero]

theorem scaleAt_pos (k : Nat) : 0 < scaleAt k := by
  unfold scaleAt scale_factor
  positivity

theorem scaleAt_le_succ (k : Nat) : scaleAt k ≤ scaleAt (k + 1) := by
  rw [← scaleAt_succ]
  have := scaleAt_pos k
  unfold scale_factor
  linarith

/-- C `round` is monotone. -/
theorem cround_mono {p q : ℚ} (h : p ≤ q) : cround p ≤ cround q := by
  unfold cround
  split_ifs with hp hq hq
  · exact Int.floor_le_floor (by linarith)
  · linarith
  · have h1 : 0 ≤ ⌊-p + 1 / 2⌋ := Int.floor_nonneg.mpr (by linarith)
    have h2 : 0 ≤ ⌊q + 1 / 2⌋ := Int.floor_nonneg.mpr (by linarith)
    omega
  · have : ⌊-q + 1 / 2⌋ ≤ ⌊-p + 1 / 2⌋ := Int.floor_le_floor (by linarith)
    omega

/-! ## Lemmas: the classes as connected components -/

theorem abs_toI32_neg (z : Int) : |toI32 (-z)| = |toI32 z| := by
  have h : toI32 (-z) = -toI32 z ∨ (toI32 (-z) = -2 ^ 31 ∧ toI32 z = -2 ^ 31) := by
    unfold toI32
    omega
  rcases h with h | ⟨h1, h2⟩
  · rw [h, abs_neg]
  · rw [h1, h2]

/-- The similarity test does not depend on the order of its two rectangles. -/
theorem areRectSimilar_comm (r1 r2 : CLWeightedRect) (eps : ℚ) :
    areRectSimilar r1 r2 eps = areRectSimilar r2 r1 eps := by
  unfold areRectSimilar
  have e1 : r2.x - r1.x = -(r1.x - r2.x) := by ring
  have e2 : r2.y - r1.y = -(r1.y - r2.y) := by ring
  have e3 : r2.x + r2.width - r1.x - r1.width = -(r1.x + r1.width - r2.x - r2.width) := by ring
  have e4 : r2.y + r2.height - r1.y - r1.height
      = -(r1.y + r1.height - r2.y - r2.height) := by ring
  rw [e1, e2, e3, e4, abs_toI32_neg, abs_toI32_neg, abs_toI32_neg, abs_toI32_neg,
    min_comm r2.width, min_comm r2.height]

theorem similarAt_symm {data : List CLWeightedRect} {eps : ℚ} {i j : Nat}
    (h : similarAt data eps i j) : similarAt data eps j i :=
  ⟨h.2.1, h.1, Ne.symm h.2.2.1, by rw [areRectSimilar_comm]; exact h.2.2.2⟩

/-- Two indices are linked by similar pairs, in any direction, exactly when a
chain of similar pairs leads from the first to the second. -/
theorem eqvGen_similarAt_iff_chain (data : List CLWeightedRect) (eps : ℚ) (i j : Nat) :
    Relation.EqvGen (similarAt data eps) i j ↔
      ∃ chain : List Nat, List.Chain (similarAt data eps) i chain ∧
        (i :: chain).getLast (List.cons_ne_nil i chain) = j := by
  constructor
  · intro h
    apply List.exists_chain_of_relationReflTransGen
    induction h with
    | rel x y hxy => exact Relation.ReflTransGen.single hxy
    | refl x => exact Relation.ReflTransGen.refl
    | symm x y _ ih =>
      exact Relation.ReflTransGen.symmetric (fun a b hab => similarAt_symm hab) ih
    | trans x y z _ _ ih1 ih2 => exact ih1.trans ih2
  · rintro ⟨chain, hchain, hlast⟩
    have h := List.relationReflTransGen_of_exists_chain chain hchain hlast
    clear hlast hchain
    induction h with
    | refl => exact Relation.EqvGen.refl _
    | tail _ hbc ih => exact Relation.EqvGen.trans _ _ _ ih (Relation.EqvGen.rel _ _ hbc)

/-! ## Lemmas: the states of the merge pass -/

/-- After the rows `0 .. m-1` of the merge pass, for `m ≤ N`, the array is a
forest with ranks of at most `m * N`, and nodes with the same root are linked
by similar pairs. -/
theorem mergePass_prefix_spec (fuel : Nat) (data : List CLWeightedRect) (eps : ℚ)
    (hfuel : data.length * data.length + 1 ≤ fuel) (m : Nat) (hm : m ≤ data.length) :
    ∃ nodes, (List.range m).foldlM (mergeRow fuel data eps)
        { parent := fun _ => -1, rank := fun _ => 0 } = some nodes ∧
      Forest data.length (m * data.length) nodes ∧
      ∀ a b, SameClass nodes.parent a b → Relation.EqvGen (similarAt data eps) a b := by
  apply foldlM_range_inv (mergeRow fuel data eps)
    (fun m nodes => Forest data.length (m * data.length) nodes ∧
      (∀ a b, SameClass nodes.parent a b → Relation.EqvGen (similarAt data eps) a b))
    m { parent := fun _ => -1, rank := fun _ => 0 }
  · refine ⟨by simpa using forest_init data.length, ?_⟩
    rintro a b ⟨r, ha, hb⟩
    have hneg : ∀ k : Nat, (fun _ : Nat => (-1 : Int)) k < 0 := fun _ => by norm_num
    have e1 : r = a := RootOf.eq_of_root (hneg a) ha
    have e2 : r = b := RootOf.eq_of_root (hneg b) hb
    rw [← e1, ← e2]
    exact Relation.EqvGen.refl _
  · rintro k nodes hk ⟨hfk, hsoundk⟩
    have hkN : k < data.length := lt_of_lt_of_le hk hm
    have hfuel2 : k * data.length + data.length + 1 ≤ fuel := by
      have : (k + 1) * data.length ≤ data.length * data.length :=
        Nat.mul_le_mul_right _ hkN
      rw [Nat.succ_mul] at this
      omega
    obtain ⟨nodes2, h1, h2, _, h4, _⟩ :=
      mergeRow_spec fuel data eps k nodes hfk hkN hfuel2 hsoundk
    exact ⟨nodes2, h1, by rw [Nat.succ_mul]; exact h2, h4⟩

/-- After the iterations `0 .. j-1` of the loop over `j` in row `i`, for
`j ≤ N`, the array is a forest with ranks of at most `B + j`. -/
theorem mergeRow_prefix_spec {B : Nat} (fuel : Nat) (data : List CLWeightedRect) (eps : ℚ)
    (i : Nat) (nodes : Nodes) (root : Nat) (hf : Forest data.length B nodes)
    (hroot : findRoot nodes.parent fuel i = some root) (hi : i < data.length)
    (hfuel : B + data.length + 1 ≤ fuel) (j : Nat) (hj : j ≤ data.length) :
    ∃ st, (List.range j).foldlM (mergeStep fuel data eps i) (nodes, root) = some st ∧
      Forest data.length (B + j) st.1 := by
  obtain ⟨st, h1, h2, _⟩ := foldlM_range_inv (mergeStep fuel data eps i)
    (fun m st => Forest data.length (B + m) st.1 ∧ RootOf st.1.parent i st.2)
    j (nodes, root) ⟨hf, ⟨fuel, hroot⟩⟩
    (by
      rintro m st hm ⟨hfm, hrm⟩
      obtain ⟨st2, h1, h2, h3, _⟩ :=
        mergeStep_spec fuel data eps i m st hfm hrm hi (lt_of_lt_of_le hm hj) (by omega)
      exact ⟨st2, h1, h2, h3⟩)
  exact ⟨st, h1, h2⟩

/-- What a forest says in the words of the parent array: an entry is `-1` or
an index below `N`, and the loop `findRoot` ends from every node, at a node
without parent and with a rank that is not negative. -/
theorem Forest.parent_links {N B : Nat} {nodes : Nodes} (hf : Forest N B nodes) (fuel : Nat)
    (hfuel : B + 1 ≤ fuel) :
    (∀ k, nodes.parent k = -1 ∨ (0 ≤ nodes.parent k ∧ nodes.parent k < (N : Int))) ∧
    ∀ k, ∃ r, findRoot nodes.parent fuel k = some r ∧ nodes.parent r = -1 ∧
      0 ≤ nodes.rank r := by
  constructor
  · intro k
    by_cases h : 0 ≤ nodes.parent k
    · right
      have := hf.parent_lt k h
      exact ⟨h, by omega⟩
    · left
      exact hf.parent_neg k (not_le.mp h)
  · intro k
    obtain ⟨r, hr⟩ := hf.findRoot_total k fuel hfuel
    have hneg := findRoot_isRoot nodes.parent fuel k r hr
    exact ⟨r, hr, hf.parent_neg r hneg, hf.rank_nonneg r⟩

/-! ## Lemmas: the order of the class ids -/

/-- One iteration of the final pass appends one label, which is at most the
number of class ids handed out before it. -/
theorem labelStep_labels (fuel : Nat) (parent : Nat → Int) (m : Nat) (st st2 : LabelState)
    (hinv : LabelInv parent m st) (h : labelStep fuel parent st m = some st2) :
    ∃ l, st2.labels = st.labels ++ [l] ∧ l ≤ st.nclasses := by
  unfold labelStep at h
  cases hroot : findRoot parent fuel m with
  | none => simp [hroot] at h
  | some root =>
    rw [hroot, Option.some_bind] at h
    by_cases hr : st.rank root ≥ 0
    · rw [if_pos hr] at h
      have e := Option.some.inj h
      subst e
      exact ⟨_, rfl, by omega⟩
    · rw [if_neg hr] at h
      have e := Option.some.inj h
      subst e
      have := hinv.rank_ge root (not_le.mp hr)
      exact ⟨_, rfl, by omega⟩

/-- The labels that `partitionData` returns hand out the class ids in the
order of first appearance: every id below the label of rectangle `i` is the
label of a rectangle before `i`. -/
theorem partitionData_order (fuel : Nat) (data : List CLWeightedRect) (eps : ℚ)
    (hfuel : data.length * data.length + 1 ≤ fuel) :
    ∃ labels nclasses, partitionData fuel data eps = some (labels, nclasses) ∧
      ∀ i, i < data.length → ∀ c : Int, 0 ≤ c → c < labels.getD i 0 →
        ∃ j, j < i ∧ labels.getD j 0 = c := by
  obtain ⟨nodes, hmerge, hf, -⟩ := mergePass_spec fuel data eps hfuel
  obtain ⟨st, hfold, -, hord⟩ := foldlM_range_inv (labelStep fuel nodes.parent)
    (fun m st => LabelInv nodes.parent m st ∧
      ∀ i, i < m → ∀ c : Int, 0 ≤ c → c < st.labels.getD i 0 →
        ∃ j, j < i ∧ st.labels.getD j 0 = c) data.length
    { rank := nodes.rank, nclasses := 0, labels := [] }
    ⟨⟨rfl, le_refl _, by simp, fun k hk => absurd (hf.rank_nonneg k) (not_le.mpr hk),
      fun k _ hk => absurd (hf.rank_nonneg k) (not_le.mpr hk),
      fun i hi => absurd hi (Nat.not_lt_zero i),
      fun c hc0 hc => absurd hc (not_lt.mpr hc0)⟩,
      fun i hi => absurd hi (Nat.not_lt_zero i)⟩
    (by
      rintro m st _ ⟨hinv, hord⟩
      obtain ⟨st2, h1, h2⟩ := labelStep_spec fuel nodes.parent nodes.rank hf hfuel m st hinv
      obtain ⟨l, hl, hle⟩ := labelStep_labels fuel nodes.parent m st st2 hinv h1
      refine ⟨st2, h1, h2, ?_⟩
      have hlen := hinv.length_eq
      have hold : ∀ j, j < m → st2.labels.getD j 0 = st.labels.getD j 0 := by
        intro j hj
        rw [hl, List.getD_append _ _ _ _ (by omega)]
      have hnew : st2.labels.getD m 0 = l := by
        rw [hl, List.getD_append_right _ _ _ _ (by omega), hlen, Nat.sub_self]
        rfl
      intro i hi c hc0 hc
      rcases Nat.lt_succ_iff_lt_or_eq.mp hi with hlt | heq
      · rw [hold i hlt] at hc
        obtain ⟨j, hj, hjc⟩ := hord i hlt c hc0 hc
        exact ⟨j, hj, by rw [hold j (by omega)]; exact hjc⟩
      · subst heq
        rw [hnew] at hc
        obtain ⟨j, hj, hjc⟩ := hinv.label_used c hc0 (by omega)
        exact ⟨j, hj, by rw [hold j hj]; exact hjc⟩)
  refine ⟨st.labels, st.nclasses, ?_, hord⟩
  unfold partitionData
  simp only [hmerge, Option.some_bind, hfold, Option.map_some']

/-! ## Lemmas: the recorded rectangles have weight zero -/

theorem scanRow_weight (windowExit : Int → Int → Int) (xstep ystep : ℚ) (end_x : Int)
    (sw sh : Nat) (y_index : Nat) (fuel x_index : Nat) :
    ∀ r ∈ scanRow windowExit xstep ystep end_x sw sh y_index fuel x_index, r.weight = 0 := by
  induction fuel generalizing x_index with
  | zero =>
    intro r hr
    simp [scanRow] at hr
  | succ fuel ih =>
    intro r hr
    unfold scanRow at hr
    by_cases h1 : (x_index : Int) < end_x
    · rw [if_pos h1] at hr
      simp only [] at hr
      by_cases h2 : windowExit (cround ((x_index : ℚ) * xstep))
          (cround ((y_index : ℚ) * ystep)) > 0
      · rw [if_pos h2] at hr
        rcases List.mem_cons.mp hr with h | h
        · rw [h]
          rfl
        · exact ih _ r h
      · rw [if_neg h2] at hr
        exact ih _ r hr
    · rw [if_neg h1] at hr
      exact absurd hr (List.not_mem_nil r)

theorem scanScale_weight (image : Image) (cascade : CvHaarClassifierCascade)
    (current_scale : ℚ) (windowExit : Int → Int → Int) :
    ∀ r ∈ scanScale image cascade current_scale windowExit, r.weight = 0 := by
  intro r hr
  unfold scanScale scanWindows at hr
  simp only [] at hr
  obtain ⟨y_index, -, hy⟩ := List.mem_flatMap.mp hr
  exact scanRow_weight _ _ _ _ _ _ _ _ _ r hy

theorem scanScales_weight (sq : ℚ → ℚ) (image : Image) (cascade : CvHaarClassifierCascade)
    (min_window_width min_window_height max_window_width max_window_height : Nat) (n : Nat) :
    ∀ (current_scale : ℚ),
      ∀ r ∈ scanScales sq image cascade min_window_width min_window_height max_window_width
        max_window_height n current_scale, r.weight = 0 := by
  induction n with
  | zero =>
    intro s r hr
    simp [scanScales] at hr
  | succ n ih =>
    intro s r hr
    rw [scanScales] at hr
    cases hact : scaleAction image cascade min_window_width min_window_height max_window_width
        max_window_height s with
    | skip =>
      rw [hact] at hr
      exact ih _ r hr
    | stop =>
      rw [hact] at hr
      exact absurd hr (List.not_mem_nil r)
    | scan =>
      rw [hact] at hr
      rcases List.mem_append.mp hr with h | h
      · exact scanScale_weight _ _ _ _ r h
      · exact ih _ r h

theorem scanScalesOptimized_weight (sq : ℚ → ℚ) (image : Image)
    (cascade : CvHaarClassifierCascade)
    (min_window_width min_window_height max_window_width max_window_height : Nat) (n : Nat) :
    ∀ (current_scale : ℚ) (opt_rectangles : Nat → OptimizedRect),
      ∀ r ∈ scanScalesOptimized sq image cascade min_window_width min_window_height
        max_window_width max_window_height n current_scale opt_rectangles, r.weight = 0 := by
  induction n with
  | zero =>
    intro s arr r hr
    simp [scanScalesOptimized] at hr
  | succ n ih =>
    intro s arr r hr
    rw [scanScalesOptimized] at hr
    cases hact : scaleAction image cascade min_window_width min_window_height max_window_width
        max_window_height s with
    | skip =>
      rw [hact] at hr
      exact ih _ _ r hr
    | stop =>
      rw [hact] at hr
      exact absurd hr (List.not_mem_nil r)
    | scan =>
      rw [hact] at hr
      rcases List.mem_append.mp hr with h | h
      · exact scanScale_weight _ _ _ _ r h
      · exact ih _ _ r h

/-! ## Lemmas: the equalized rectangle lies in the window -/

/-- The precomputation of a feature whose first two rectangles are active,
started at the index `idx`: it fills the entries `idx` and `idx + 1`, and
`idx + 2` when the third rectangle is active, leaves the entries below `idx`
as they are, and moves the index past the entries it filled. -/
theorem precomputeFeature_spec (image : Image) (s : ℚ) (area : Nat)
    (arr : Nat → OptimizedRect) (idx : Nat) (classifier : CvHaarClassifier)
    (h0 : classifier.haar_feature.rect0.weight ≠ 0)
    (h1 : classifier.haar_feature.rect1.weight ≠ 0) :
    (precomputeFeature image s area (arr, idx) classifier).1 idx
      = { optRect image s area classifier.haar_feature.rect0 with
          weight := -sumRectAreaOptimized classifier.haar_feature s area
            / (firstRectAreaOptimized classifier.haar_feature s : ℚ) } ∧
    (precomputeFeature image s area (arr, idx) classifier).1 (idx + 1)
      = optRect image s area classifier.haar_feature.rect1 ∧
    (classifier.haar_feature.rect2.weight ≠ 0 →
      (precomputeFeature image s area (arr, idx) classifier).1 (idx + 1 + 1)
        = optRect image s area classifier.haar_feature.rect2) ∧
    (precomputeFeature image s area (arr, idx) classifier).2
      = (if classifier.haar_feature.rect2.weight ≠ 0 then idx + 1 + 1 + 1 else idx + 1 + 1) ∧
    ∀ j, j < idx → (precomputeFeature image s area (arr, idx) classifier).1 j = arr j := by
  have n01 : idx ≠ idx + 1 := by omega
  have n02 : idx ≠ idx + 1 + 1 := by omega
  have n12 : idx + 1 ≠ idx + 1 + 1 := by omega
  by_cases h2 : classifier.haar_feature.rect2.weight ≠ 0
  · simp only [precomputeFeature, List.foldl, precomputeRect, CvHaarFeature.rect, h0, h1, h2,
      ne_eq, not_false_eq_true, if_true, gt_iff_lt, Nat.lt_irrefl, if_false, Nat.zero_lt_one,
      Nat.zero_lt_succ, Function.update_same, Function.update_idem]
    refine ⟨?_, ?_, fun _ => ?_, trivial, fun j hj => ?_⟩
    · simp [Function.update_noteq n01, Function.update_noteq n02, optRect, scaledCoord,
        sumRectAreaOptimized, firstRectAreaOptimized, h2]
    · simp [Function.update_noteq n01.symm, Function.update_noteq n12, optRect, scaledCoord]
    · simp [Function.update_noteq n02.symm, optRect, scaledCoord]
    · have a0 : j ≠ idx := by omega
      have a1 : j ≠ idx + 1 := by omega
      have a2 : j ≠ idx + 1 + 1 := by omega
      simp [Function.update_noteq a0, Function.update_noteq a1, Function.update_noteq a2]
  · have h2' : classifier.haar_feature.rect2.weight = 0 := not_not.mp h2
    simp only [precomputeFeature, List.foldl, precomputeRect, CvHaarFeature.rect, h0, h1, h2',
      ne_eq, not_false_eq_true, not_true_eq_false, if_true, gt_iff_lt, Nat.lt_irrefl, if_false,
      Nat.zero_lt_one, Nat.zero_lt_succ, Function.update_same, Function.update_idem]
    refine ⟨?_, ?_, fun h => h.elim, trivial, fun j hj => ?_⟩
    · simp [Function.update_noteq n01, Function.update_noteq n02, optRect, scaledCoord,
        sumRectAreaOptimized, firstRectAreaOptimized, h2']
    · simp [Function.update_noteq n01.symm, Function.update_noteq n12, optRect, scaledCoord]
    · have a0 : j ≠ idx := by omega
      have a1 : j ≠ idx + 1 := by omega
      have a2 : j ≠ idx + 1 + 1 := by omega
      simp [Function.update_noteq a0, Function.update_noteq a1, Function.update_noteq a2]

/-! ## Lemmas: the terms of the optimized feature response -/

/-- The four pointers of a precomputed rectangle, shifted by the offset of
the window at `(X, Y)`, read the corners of the rectangle at
`(X + rx, Y + ry)`. -/
theorem matsp_shift (mem : Nat → Nat) (stride X Y rx ry rw rh : Nat) :
    matsp mem (matp 0 stride rx ry + mato stride X Y)
        (matp 0 stride (rx + rw) ry + mato stride X Y)
        (matp 0 stride rx (ry + rh) + mato stride X Y)
        (matp 0 stride (rx + rw) (ry + rh) + mato stride X Y)
      = mats mem stride (X + rx) (Y + ry) rw rh := by
  unfold matsp mats mate matp mato
  have e1 : 0 + stride * ry + rx + (stride * Y + X) = 0 + stride * (Y + ry) + (X + rx) := by
    ring
  have e2 : 0 + stride * ry + (rx + rw) + (stride * Y + X)
      = 0 + stride * (Y + ry) + (X + rx + rw) := by ring
  have e3 : 0 + stride * (ry + rh) + rx + (stride * Y + X)
      = 0 + stride * (Y + ry + rh) + (X + rx) := by ring
  have e4 : 0 + stride * (ry + rh) + (rx + rw) + (stride * Y + X)
      = 0 + stride * (Y + ry + rh) + (X + rx + rw) := by ring
  rw [e1, e2, e3, e4]

/-- A term of the optimized response for a precomputed rectangle with the
weight `w`: the region sum of the scaled rectangle at the window, times
`w`. -/
theorem optTerm_optRect (image : Image) (s : ℚ) (area : Nat) (rect : CvHaarRect) (w : ℚ)
    (X Y : Nat) :
    optTerm image { optRect image s area rect with weight := w } (mato (image.width + 1) X Y)
      = (mats image.integral_image (image.width + 1) (X + scaledCoord rect.r.x s)
          (Y + scaledCoord rect.r.y s) (scaledCoord rect.r.width s)
          (scaledCoord rect.r.height s) : ℚ) * w := by
  unfold optTerm optRect
  simp only []
  rw [matsp_shift]

/-- The optimized response of a feature whose first two rectangles are
active, read from the entries that its precomputation filled. -/
theorem rectSumOptimized_precomputed (image : Image) (s : ℚ) (area : Nat)
    (arr : Nat → OptimizedRect) (idx : Nat) (feature : CvHaarFeature) (X Y : Nat)
    (e0 : arr idx = { optRect image s area feature.rect0 with
      weight := -sumRectAreaOptimized feature s area / (firstRectAreaOptimized feature s : ℚ) })
    (e1 : arr (idx + 1) = optRect image s area feature.rect1)
    (e2 : feature.rect2.weight ≠ 0 → arr (idx + 1 + 1) = optRect image s area feature.rect2) :
    rectSumOptimized image arr (mato (image.width + 1) X Y) idx feature
      = (mats image.integral_image (image.width + 1) (X + scaledCoord feature.rect0.r.x s)
            (Y + scaledCoord feature.rect0.r.y s) (scaledCoord feature.rect0.r.width s)
            (scaledCoord feature.rect0.r.height s) : ℚ)
          * (-sumRectAreaOptimized feature s area / (firstRectAreaOptimized feature s : ℚ))
        + (mats image.integral_image (image.width + 1) (X + scaledCoord feature.rect1.r.x s)
            (Y + scaledCoord feature.rect1.r.y s) (scaledCoord feature.rect1.r.width s)
            (scaledCoord feature.rect1.r.height s) : ℚ)
          * (feature.rect1.weight / (area : ℚ))
        + (if feature.rect2.weight ≠ 0 then
            (mats image.integral_image (image.width + 1) (X + scaledCoord feature.rect2.r.x s)
              (Y + scaledCoord feature.rect2.r.y s) (scaledCoord feature.rect2.r.width s)
              (scaledCoord feature.rect2.r.height s) : ℚ)
            * (feature.rect2.weight / (area : ℚ))
          else 0) := by
  have t1 := optTerm_optRect image s area feature.rect1 (feature.rect1.weight / (area : ℚ)) X Y
  have t2 := optTerm_optRect image s area feature.rect2 (feature.rect2.weight / (area : ℚ)) X Y
  have hsame : ∀ rect : CvHaarRect,
      { optRect image s area rect with weight := rect.weight / (area : ℚ) }
        = optRect image s area rect := fun _ => rfl
  rw [hsame] at t1 t2
  unfold rectSumOptimized
  simp only []
  rw [e0, e1, optTerm_optRect, t1]
  by_cases h2 : feature.rect2.weight ≠ 0
  · rw [if_pos h2, if_pos h2, e2 h2, t2]
  · rw [if_neg h2, if_neg h2, add_zero]

/-! ## Lemmas: region sums of a constant image -/

theorem rectPixelSum_const (c x y w h : Nat) :
    rectPixelSum (fun _ _ => c) x y w h = c * (w * h) := by
  unfold rectPixelSum
  simp only [Finset.sum_const, Nat.card_Ico, smul_eq_mul, Nat.add_sub_cancel_left]
  ring

/-- A region sum of the sum table of a constant image, for a rectangle that
lies in the image and whose sum fits 32 bits. -/
theorem mats_const (W H c x y w h : Nat) (hx : x + w ≤ W) (hy : y + h ≤ H)
    (hfit : c * (w * h) < 2 ^ 32) :
    mats (integralTable W H (fun _ _ => c)) (W + 1) x y w h = c * (w * h) := by
  rw [mats_integralTable W H _ x y w h hx hy, rectPixelSum_const, Nat.mod_eq_of_lt hfit]

/-! ## Lemmas: the two variants on a feature with two rectangles -/

theorem bitLength_spec (fuel : Nat) : ∀ n, n ≤ fuel → 0 < n →
    0 < bitLength fuel n ∧ 2 ^ (bitLength fuel n - 1) ≤ n ∧ n < 2 ^ bitLength fuel n := by
  induction fuel with
  | zero =>
    intro n h1 h2
    omega
  | succ fuel ih =>
    intro n h1 h2
    rw [bitLength, if_neg (by omega)]
    by_cases h : n / 2 = 0
    · have hn : n = 1 := by omega
      subst hn
      have : bitLength fuel 0 = 0 := by
        cases fuel with
        | zero => rfl
        | succ f => simp [bitLength]
      simp [this]
    · obtain ⟨b0, b1, b2⟩ := ih (n / 2) (by omega) (Nat.pos_of_ne_zero h)
      refine ⟨by omega, ?_, ?_⟩
      · have e : bitLength fuel (n / 2) + 1 - 1 = (bitLength fuel (n / 2) - 1) + 1 := by omega
        rw [e, pow_succ]
        omega
      · rw [pow_succ]
        omega

theorem bitLength_self (n : Nat) (hn : 0 < n) :
    0 < bitLength n n ∧ 2 ^ (bitLength n n - 1) ≤ n ∧ n < 2 ^ bitLength n n :=
  bitLength_spec n n le_rfl hn

/-- The exponent of a non-zero rational brackets its magnitude. -/
theorem ilog2_spec (q : ℚ) (hq : q ≠ 0) :
    (2 : ℚ) ^ ilog2 q ≤ |q| ∧ |q| < (2 : ℚ) ^ (ilog2 q + 1) := by
  have hnum : 0 < q.num.natAbs := Int.natAbs_pos.mpr (Rat.num_ne_zero.mpr hq)
  have hden : 0 < q.den := q.den_pos
  obtain ⟨a0, a1, a2⟩ := bitLength_self _ hnum
  obtain ⟨b0, b1, b2⟩ := bitLength_self _ hden
  have habs : |q| = (q.num.natAbs : ℚ) / (q.den : ℚ) := by
    conv_lhs => rw [← Rat.num_div_den q]
    rw [abs_div, Nat.abs_cast, Nat.cast_natAbs, Int.cast_abs]
  set a := bitLength q.num.natAbs q.num.natAbs with ha
  set b := bitLength q.den q.den with hb
  have hdq : (0 : ℚ) < (q.den : ℚ) := by exact_mod_cast hden
  have a1q : (2 : ℚ) ^ (a - 1) ≤ (q.num.natAbs : ℚ) := by exact_mod_cast a1
  have a2q : (q.num.natAbs : ℚ) < (2 : ℚ) ^ a := by exact_mod_cast a2
  have b1q : (2 : ℚ) ^ (b - 1) ≤ (q.den : ℚ) := by exact_mod_cast b1
  have b2q : (q.den : ℚ) < (2 : ℚ) ^ b := by exact_mod_cast b2
  have two : (2 : ℚ) ≠ 0 := by norm_num
  have ea : (2 : ℚ) ^ a = 2 * (2 : ℚ) ^ (a - 1) := by
    rw [← pow_succ']
    congr 1
    omega
  have eb : (2 : ℚ) ^ b = 2 * (2 : ℚ) ^ (b - 1) := by
    rw [← pow_succ']
    congr 1
    omega
  have hpa : (0 : ℚ) < (2 : ℚ) ^ (a - 1) := by positivity
  have hpb : (0 : ℚ) < (2 : ℚ) ^ (b - 1) := by positivity
  have e0 : (2 : ℚ) ^ ((a : Int) - (b : Int)) = (2 : ℚ) ^ a / (2 : ℚ) ^ b := by
    rw [zpow_sub₀ two, zpow_natCast, zpow_natCast]
  have e1 : (2 : ℚ) ^ ((a : Int) - (b : Int) + 1) = (2 : ℚ) ^ a / (2 : ℚ) ^ b * 2 := by
    rw [zpow_add₀ two, e0, zpow_one]
  have em : (2 : ℚ) ^ ((a : Int) - (b : Int) - 1) = (2 : ℚ) ^ a / (2 : ℚ) ^ b / 2 := by
    rw [zpow_sub₀ two, e0, zpow_one]
  unfold ilog2
  simp only [← ha, ← hb]
  split_ifs with h
  · refine ⟨h, ?_⟩
    rw [habs, e1, div_lt_iff₀ hdq, ea, eb]
    have : 2 * (2 : ℚ) ^ (a - 1) / (2 * (2 : ℚ) ^ (b - 1)) * 2 * (q.den : ℚ) =
        2 * (2 : ℚ) ^ (a - 1) * ((q.den : ℚ) / (2 : ℚ) ^ (b - 1)) := by
      field_simp
      ring
    rw [this]
    have h1 : 1 ≤ (q.den : ℚ) / (2 : ℚ) ^ (b - 1) := by
      rw [le_div_iff₀ hpb]
      linarith
    nlinarith
  · rw [not_le] at h
    refine ⟨?_, ?_⟩
    · rw [habs, em, le_div_iff₀ hdq, ea]
      have : 2 * (2 : ℚ) ^ (a - 1) / (2 : ℚ) ^ b / 2 * (q.den : ℚ) =
          (2 : ℚ) ^ (a - 1) * ((q.den : ℚ) / (2 : ℚ) ^ b) := by
        field_simp
        ring
      rw [this]
      have h1 : (q.den : ℚ) / (2 : ℚ) ^ b ≤ 1 := by
        rw [div_le_iff₀ (by positivity)]
        linarith
      nlinarith
    · have : (a : Int) - (b : Int) - 1 + 1 = (a : Int) - (b : Int) := by ring
      rw [this]
      exact h

theorem clrint_ge (q : ℚ) : q - 1 / 2 ≤ ((clrint q : Int) : ℚ) := by
  unfold clrint
  have hfl : q < ((⌊q⌋ : Int) : ℚ) + 1 := Int.lt_floor_add_one q
  split_ifs with h1 h2 h3
  · linarith
  · push_cast
    linarith
  · linarith
  · push_cast
    linarith

theorem clrint_intCast (z : Int) : clrint (z : ℚ) = z := by
  unfold clrint
  simp

/-- Rounding changes a value by at most half a unit in the last place. -/
theorem roundTo_bounds (prec : Nat) (emin : Int) (q : ℚ) (hq : q ≠ 0) :
    q - (2 : ℚ) ^ (max (ilog2 q) emin - (prec : Int)) ≤ roundTo prec emin q ∧
      roundTo prec emin q ≤ q + (2 : ℚ) ^ (max (ilog2 q) emin - (prec : Int)) := by
  have two : (2 : ℚ) ≠ 0 := by norm_num
  unfold roundTo
  rw [if_neg hq]
  simp only []
  set e := max (ilog2 q) emin with he
  have hu : (0 : ℚ) < (2 : ℚ) ^ (e - ((prec : Int) - 1)) := by positivity
  have e2 : (2 : ℚ) ^ (e - (prec : Int)) = (2 : ℚ) ^ (e - ((prec : Int) - 1)) / 2 := by
    have : e - (prec : Int) = e - ((prec : Int) - 1) - 1 := by ring
    rw [this, zpow_sub₀ two, zpow_one]
  have h1 := clrint_ge (q / (2 : ℚ) ^ (e - ((prec : Int) - 1)))
  have h2 := clrint_le (q / (2 : ℚ) ^ (e - ((prec : Int) - 1)))
  have hq2 : q / (2 : ℚ) ^ (e - ((prec : Int) - 1)) * (2 : ℚ) ^ (e - ((prec : Int) - 1)) = q := by
    field_simp
  rw [e2]
  constructor
  · nlinarith
  · nlinarith

/-- Rounding a value of normal magnitude loses at most the fraction
`2 ^ (-prec)` of it. -/
theorem roundTo_ge (prec : Nat) (emin : Int) (q : ℚ) (hq : (2 : ℚ) ^ emin ≤ q) :
    q * (1 - (2 : ℚ) ^ (-(prec : Int))) ≤ roundTo prec emin q := by
  have two : (2 : ℚ) ≠ 0 := by norm_num
  have hpos : (0 : ℚ) < q := lt_of_lt_of_le (by positivity) hq
  obtain ⟨s1, s2⟩ := ilog2_spec q hpos.ne'
  rw [abs_of_pos hpos] at s1 s2
  have hle : emin ≤ ilog2 q := by
    have : (2 : ℚ) ^ emin < (2 : ℚ) ^ (ilog2 q + 1) := lt_of_le_of_lt hq s2
    have := (zpow_lt_zpow_iff_right₀ (by norm_num : (1 : ℚ) < 2)).mp this
    omega
  have hb := (roundTo_bounds prec emin q hpos.ne').1
  rw [max_eq_left hle] at hb
  have e : (2 : ℚ) ^ (ilog2 q - (prec : Int)) = (2 : ℚ) ^ ilog2 q * (2 : ℚ) ^ (-(prec : Int)) := by
    rw [sub_eq_add_neg, zpow_add₀ two]
  rw [e] at hb
  have hp : (0 : ℚ) < (2 : ℚ) ^ (-(prec : Int)) := by positivity
  nlinarith

/-! ## Lemmas: the scale-counting loop in single precision -/

theorem scaleFactorF32_eq : scaleFactorF32 = CFloat.finite (9227469 / 8388608) := by
  decide!

/-- A finite result of rounding to `float` is positive when the value is of
normal magnitude, and below `2 ^ 128`. -/
theorem f32_of_normal (q : ℚ) (hq : (2 : ℚ) ^ (-126 : Int) ≤ q) :
    f32 q = CFloat.posInf ∨
      ∃ r, f32 q = CFloat.finite r ∧ q * (1 - (2 : ℚ) ^ (-(24 : Int))) ≤ r ∧
        r < (2 : ℚ) ^ (128 : Int) := by
  have hge := roundTo_ge 24 (-126) q hq
  have hpos : (0 : ℚ) < q := lt_of_lt_of_le (by positivity) hq
  have hr : (0 : ℚ) < roundTo 24 (-126) q := by
    refine lt_of_lt_of_le ?_ hge
    have : (0 : ℚ) < 1 - (2 : ℚ) ^ (-(24 : Int)) := by norm_num
    positivity
  unfold f32 fpRound
  simp only []
  by_cases h1 : (2 : ℚ) ^ ((127 : Int) + 1) ≤ roundTo 24 (-126) q
  · left
    rw [if_pos h1]
  · right
    rw [if_neg h1]
    have h2 : ¬ roundTo 24 (-126) q ≤ -(2 : ℚ) ^ ((127 : Int) + 1) := by
      have : (0 : ℚ) < (2 : ℚ) ^ ((127 : Int) + 1) := by positivity
      intro h
      linarith
    rw [if_neg h2]
    refine ⟨_, rfl, ?_, ?_⟩
    · exact_mod_cast hge
    · rw [not_le] at h1
      exact h1

/-- The single-precision scale grows by the factor `1.09` at least with each
step, until it is infinite. -/
theorem scaleAtF32_growth (k : Nat) :
    scaleAtF32 k = CFloat.posInf ∨
      ∃ q, scaleAtF32 k = CFloat.finite q ∧ (109 / 100 : ℚ) ^ k ≤ q ∧
        q < (2 : ℚ) ^ (128 : Int) := by
  induction k with
  | zero =>
    right
    exact ⟨1, rfl, by norm_num, by norm_num⟩
  | succ k ih =>
    rw [scaleAtF32, scaleFactorF32_eq]
    rcases ih with h | ⟨q, h, h1, h2⟩
    · left
      rw [h]
      decide!
    · rw [h]
      have hq1 : (1 : ℚ) ≤ q := le_trans (one_le_pow₀ (by norm_num)) h1
      have hn : (2 : ℚ) ^ (-126 : Int) ≤ q * (9227469 / 8388608) := by
        have : (2 : ℚ) ^ (-126 : Int) ≤ 1 := by
          apply zpow_le_one_of_nonpos₀ (by norm_num) (by norm_num)
        nlinarith
      rcases f32_of_normal _ hn with h3 | ⟨r, h3, h4, h5⟩
      · left
        exact h3
      · right
        refine ⟨r, h3, ?_, h5⟩
        rw [pow_succ]
        have e : (1 : ℚ) - (2 : ℚ) ^ (-(24 : Int)) = 16777215 / 16777216 := by norm_num
        rw [e] at h4
        nlinarith

theorem scaleAtF32_overflow : scaleAtF32 1152 = CFloat.posInf := by
  rcases scaleAtF32_growth 1152 with h | ⟨q, _, h1, h2⟩
  · exact h
  · exfalso
    have h9 : (2 : ℚ) ≤ (109 / 100 : ℚ) ^ 9 := by norm_num
    have h3 : (2 : ℚ) ^ 128 ≤ ((109 / 100 : ℚ) ^ 9) ^ 128 :=
      pow_le_pow_left₀ (by norm_num) h9 128
    rw [← pow_mul] at h3
    have h4 : (2 : ℚ) ^ (128 : Int) = (2 : ℚ) ^ 128 := by norm_cast
    rw [h4] at h2
    have : (9 * 128 : Nat) = 1152 := by norm_num
    rw [this] at h3
    linarith

theorem CFloat.lt_nan_left (b : CFloat) : CFloat.lt CFloat.nan b = false := by
  cases b <;> rfl

theorem CFloat.lt_posInf_left (b : CFloat) : CFloat.lt CFloat.posInf b = false := by
  cases b <;> rfl

/-- The product of an infinite scale with a window size converted to `float`
is not below any value. -/
theorem mul_posInf_f32_not_lt (w : Nat) (b : CFloat) :
    CFloat.lt (CFloat.mul f32 CFloat.posInf (f32 (w : ℚ))) b = false := by
  have hw : (0 : ℚ) ≤ (w : ℚ) := Nat.cast_nonneg w
  have hcases : CFloat.mul f32 CFloat.posInf (f32 (w : ℚ)) = CFloat.posInf ∨
      CFloat.mul f32 CFloat.posInf (f32 (w : ℚ)) = CFloat.nan := by
    by_cases h0 : (w : ℚ) = 0
    · right
      rw [h0]
      decide!
    · have hpos : (0 : ℚ) < (w : ℚ) := lt_of_le_of_ne hw (Ne.symm h0)
      have h1 : (1 : ℚ) ≤ (w : ℚ) := by
        have : 0 < w := by exact_mod_cast hpos
        exact_mod_cast this
      have hn : (2 : ℚ) ^ (-126 : Int) ≤ (w : ℚ) :=
        le_trans (zpow_le_one_of_nonpos₀ (by norm_num) (by norm_num)) h1
      rcases f32_of_normal _ hn with h3 | ⟨r, h3, h4, _⟩
      · left
        rw [h3]
        rfl
      · left
        rw [h3]
        have hr : (0 : ℚ) < r := by
          have e : (1 : ℚ) - (2 : ℚ) ^ (-(24 : Int)) = 16777215 / 16777216 := by norm_num
          rw [e] at h4
          nlinarith
        simp [CFloat.mul, CFloat.infOfSign, hr.ne', hr]
  rcases hcases with h | h
  · rw [h, CFloat.lt_posInf_left]
  · rw [h, CFloat.lt_nan_left]

theorem scaleFitsF32_posInf (image : Image) (cascade : CvHaarClassifierCascade) :
    scaleFitsF32 image cascade CFloat.posInf = false := by
  unfold scaleFitsF32
  rw [mul_posInf_f32_not_lt]
  rfl

theorem scaleCountLoopF32_of_least (image : Image) (cascade : CvHaarClassifierCascade) (n : Nat)
    (hfits : ∀ k, k < n → scaleFitsF32 image cascade (scaleAtF32 k) = true)
    (hn : scaleFitsF32 image cascade (scaleAtF32 n) = false) :
    ∀ d j, j + d = n → ∀ fuel, d < fuel →
      scaleCountLoopF32 image cascade fuel (scaleAtF32 j) j = some n := by
  intro d
  induction d with
  | zero =>
    intro j hj fuel hfuel
    obtain ⟨f, rfl⟩ : ∃ f, fuel = f + 1 := ⟨fuel - 1, by omega⟩
    have : j = n := by omega
    subst this
    rw [scaleCountLoopF32, hn]
    simp
  | succ d ih =>
    intro j hj fuel hfuel
    obtain ⟨f, rfl⟩ : ∃ f, fuel = f + 1 := ⟨fuel - 1, by omega⟩
    rw [scaleCountLoopF32, hfits j (by omega), if_pos rfl]
    exact ih (j + 1) (by omega) f (by omega)

/-! ## Lemmas: the similarity test in single precision -/

/-- An integer below `2 ^ 24` in magnitude is a `float`. -/
theorem f32_int_exact (z : Int) (hz : |z| < 2 ^ 24) : f32 (z : ℚ) = CFloat.finite (z : ℚ) := by
  have two : (2 : ℚ) ≠ 0 := by norm_num
  by_cases h0 : z = 0
  · subst h0
    decide!
  · have hq : (z : ℚ) ≠ 0 := by exact_mod_cast h0
    obtain ⟨s1, s2⟩ := ilog2_spec (z : ℚ) hq
    have habs1 : (1 : ℚ) ≤ |(z : ℚ)| := by
      have : 1 ≤ |z| := Int.one_le_abs h0
      exact_mod_cast this
    have habs2 : |(z : ℚ)| < (2 : ℚ) ^ (24 : Int) := by
      have : ((|z| : Int) : ℚ) < ((2 ^ 24 : Int) : ℚ) := Int.cast_lt.mpr hz
      rw [Int.cast_abs] at this
      norm_num at this ⊢
      exact this
    have he0 : 0 ≤ ilog2 (z : ℚ) := by
      have : (2 : ℚ) ^ (0 : Int) < (2 : ℚ) ^ (ilog2 (z : ℚ) + 1) := by
        rw [zpow_zero]
        exact lt_of_le_of_lt habs1 s2
      have := (zpow_lt_zpow_iff_right₀ (by norm_num : (1 : ℚ) < 2)).mp this
      omega
    have he1 : ilog2 (z : ℚ) ≤ 23 := by
      have : (2 : ℚ) ^ ilog2 (z : ℚ) < (2 : ℚ) ^ (24 : Int) := lt_of_le_of_lt s1 habs2
      have := (zpow_lt_zpow_iff_right₀ (by norm_num : (1 : ℚ) < 2)).mp this
      omega
    obtain ⟨m, hm⟩ : ∃ m : Nat, (m : Int) = 23 - ilog2 (z : ℚ) :=
      ⟨(23 - ilog2 (z : ℚ)).toNat, by omega⟩
    have hr : roundTo 24 (-126) (z : ℚ) = (z : ℚ) := by
      unfold roundTo
      rw [if_neg hq]
      simp only []
      rw [max_eq_left (by omega)]
      have hexp : ilog2 (z : ℚ) - (((24 : Nat) : Int) - 1) = -(m : Int) := by
        rw [hm]
        norm_num
      rw [hexp, zpow_neg, zpow_natCast]
      have hdiv : (z : ℚ) / ((2 : ℚ) ^ m)⁻¹ = ((z * 2 ^ m : Int) : ℚ) := by
        rw [div_inv_eq_mul]
        push_cast
        ring
      rw [hdiv, clrint_intCast]
      push_cast
      field_simp
    unfold f32 fpRound
    simp only []
    rw [hr]
    have hlt : |(z : ℚ)| < (2 : ℚ) ^ ((127 : Int) + 1) := by
      refine lt_trans habs2 ?_
      norm_num
    rw [abs_lt] at hlt
    rw [if_neg (by linarith [hlt.2]), if_neg (by linarith [hlt.1])]

/-- For rectangles in the exact range, the single-precision similarity test
compares the exact edge differences with the single-precision `delta`. -/
theorem areRectSimilarF32_eq_edgesCloseF32 (r1 r2 : CLWeightedRect) (eps : CFloat)
    (h1 : ExactRect r1) (h2 : ExactRect r2) :
    areRectSimilarF32 r1 r2 eps = edgesCloseF32 r1 r2 eps := by
  obtain ⟨⟨a1, a2⟩, ⟨a3, a4⟩, ⟨a5, a6⟩, ⟨a7, a8⟩⟩ := h1
  obtain ⟨⟨b1, b2⟩, ⟨b3, b4⟩, ⟨b5, b6⟩, ⟨b7, b8⟩⟩ := h2
  have hmw1 : -2 ^ 22 ≤ min r1.width r2.width := le_min a5 b5
  have hmw2 : min r1.width r2.width < 2 ^ 22 := lt_of_le_of_lt (min_le_left _ _) a6
  have hmh1 : -2 ^ 22 ≤ min r1.height r2.height := le_min a7 b7
  have hmh2 : min r1.height r2.height < 2 ^ 22 := lt_of_le_of_lt (min_le_left _ _) a8
  have conv : ∀ z : Int, -2 ^ 24 < z → z < 2 ^ 24 →
      f32 ((|toI32 z| : Int) : ℚ) = CFloat.finite |(z : ℚ)| := by
    intro z hz1 hz2
    rw [toI32_of_range z (by omega) (by omega), f32_int_exact _ (by rw [abs_abs, abs_lt]; omega),
      Int.cast_abs]
  unfold areRectSimilarF32 edgesCloseF32 similarityDeltaF32
  simp only []
  rw [toI32_of_range (min r1.width r2.width + min r1.height r2.height) (by omega) (by omega),
    conv (r1.x - r2.x) (by omega) (by omega), conv (r1.y - r2.y) (by omega) (by omega),
    conv (r1.x + r1.width - r2.x - r2.width) (by omega) (by omega),
    conv (r1.y + r1.height - r2.y - r2.height) (by omega) (by omega)]
  push_cast
  have e1 : (r1.x : ℚ) + (r1.width : ℚ) - (r2.x : ℚ) - (r2.width : ℚ)
      = (r1.x : ℚ) + (r1.width : ℚ) - ((r2.x : ℚ) + (r2.width : ℚ)) := by ring
  have e2 : (r1.y : ℚ) + (r1.height : ℚ) - (r2.y : ℚ) - (r2.height : ℚ)
      = (r1.y : ℚ) + (r1.height : ℚ) - ((r2.y : ℚ) + (r2.height : ℚ)) := by ring
  rw [e1, e2]

theorem CFloat.le_finite_iff (a : ℚ) (d : CFloat) :
    CFloat.le (CFloat.finite a) d = true ↔
      d = CFloat.posInf ∨ ∃ q, d = CFloat.finite q ∧ a ≤ q := by
  cases d <;> simp [CFloat.le]

theorem CFloat.lt_finite_iff (d : CFloat) (a : ℚ) :
    CFloat.lt d (CFloat.finite a) = true ↔
      d = CFloat.negInf ∨ ∃ q, d = CFloat.finite q ∧ q < a := by
  cases d <;> simp [CFloat.lt]

/-- Two rectangles whose left and right edges are within `delta` have their
centers within `delta` in x. -/
theorem centerOffsetX_le_of_edgesCloseF32 (r1 r2 : CLWeightedRect) (eps : CFloat)
    (h : edgesCloseF32 r1 r2 eps = true) :
    CFloat.lt (similarityDeltaF32 r1 r2 eps) (CFloat.finite (centerOffsetX r1 r2)) = false := by
  unfold edgesCloseF32 at h
  simp only [Bool.and_eq_true] at h
  obtain ⟨⟨⟨hx, _⟩, hr⟩, _⟩ := h
  rw [CFloat.le_finite_iff] at hx hr
  rw [Bool.eq_false_iff]
  intro hlt
  rw [CFloat.lt_finite_iff] at hlt
  rcases hx with hx | ⟨q, hq, hx⟩
  · rw [hx] at hlt
    simp at hlt
  · rcases hr with hr | ⟨q2, hq2, hr⟩
    · rw [hr] at hq
      simp at hq
    · rw [hq] at hlt hq2
      cases hq2
      rcases hlt with hlt | ⟨q3, hq3, hlt⟩
      · cases hlt
      cases hq3
      unfold centerOffsetX at hlt
      rw [abs_le] at hx hr
      rw [lt_abs] at hlt
      rcases hlt with hlt | hlt <;> linarith [hx.1, hx.2, hr.1, hr.2]

/-- Two rectangles whose top and bottom edges are within `delta` have their
centers within `delta` in y. -/
theorem centerOffsetY_le_of_edgesCloseF32 (r1 r2 : CLWeightedRect) (eps : CFloat)
    (h : edgesCloseF32 r1 r2 eps = true) :
    CFloat.lt (similarityDeltaF32 r1 r2 eps) (CFloat.finite (centerOffsetY r1 r2)) = false := by
  unfold edgesCloseF32 at h
  simp only [Bool.and_eq_true] at h
  obtain ⟨⟨⟨_, hx⟩, _⟩, hr⟩ := h
  rw [CFloat.le_finite_iff] at hx hr
  rw [Bool.eq_false_iff]
  intro hlt
  rw [CFloat.lt_finite_iff] at hlt
  rcases hx with hx | ⟨q, hq, hx⟩
  · rw [hx] at hlt
    simp at hlt
  · rcases hr with hr | ⟨q2, hq2, hr⟩
    · rw [hr] at hq
      simp at hq
    · rw [hq] at hlt hq2
      cases hq2
      rcases hlt with hlt | ⟨q3, hq3, hlt⟩
      · cases hlt
      cases hq3
      unfold centerOffsetY at hlt
      rw [abs_le] at hx hr
      rw [lt_abs] at hlt
      rcases hlt with hlt | hlt <;> linarith [hx.1, hx.2, hr.1, hr.2]

/-- Two rectangles that are not similar in single precision, in either
order, get the labels `0` and `1`. -/
theorem partitionDataF32_pair_of_not_similar (fuel : Nat) (r1 r2 : CLWeightedRect)
    (eps : CFloat) (h12 : areRectSimilarF32 r1 r2 eps = false)
    (h21 : areRectSimilarF32 r2 r1 eps = false) :
    partitionDataF32 (fuel + 1) [r1, r2] eps = some ([0, 1], 2) := by
  have hr : List.range 2 = [0, 1] := rfl
  have hroot : ∀ k : Nat, findRoot (fun _ => (-1 : Int)) (fuel + 1) k = some k := by
    intro k
    simp [findRoot]
  have hrow0 : mergeRowF32 (fuel + 1) [r1, r2] eps
      { parent := fun _ => -1, rank := fun _ => 0 } 0
      = some { parent := fun _ => -1, rank := fun _ => 0 } := by
    simp [mergeRowF32, hroot, hr, mergeStepF32, h12]
  have hrow1 : mergeRowF32 (fuel + 1) [r1, r2] eps
      { parent := fun _ => -1, rank := fun _ => 0 } 1
      = some { parent := fun _ => -1, rank := fun _ => 0 } := by
    simp [mergeRowF32, hroot, hr, mergeStepF32, h21]
  unfold partitionDataF32
  simp only [List.length_cons, List.length_nil, hr, List.foldlM_cons, List.foldlM_nil,
    hrow0, hrow1, Option.some_bind, Option.bind_eq_bind, labelStep, hroot, pure]
  simp

theorem similarityDeltaF32_comm (r1 r2 : CLWeightedRect) (eps : CFloat) :
    similarityDeltaF32 r2 r1 eps = similarityDeltaF32 r1 r2 eps := by
  unfold similarityDeltaF32
  rw [min_comm r2.width, min_comm r2.height]

theorem centerOffsetX_comm (r1 r2 : CLWeightedRect) :
    centerOffsetX r2 r1 = centerOffsetX r1 r2 := by
  unfold centerOffsetX
  rw [abs_sub_comm]

theorem centerOffsetY_comm (r1 r2 : CLWeightedRect) :
    centerOffsetY r2 r1 = centerOffsetY r1 r2 := by
  unfold centerOffsetY
  rw [abs_sub_comm]

/-- Rectangles in the exact range whose centers are further apart than the
single-precision `delta` are not similar in single precision. -/
theorem areRectSimilarF32_false_of_offset (r1 r2 : CLWeightedRect) (eps : CFloat)
    (h1 : ExactRect r1) (h2 : ExactRect r2)
    (hoff : CFloat.lt (similarityDeltaF32 r1 r2 eps) (CFloat.finite (centerOffsetX r1 r2)) = true ∨
      CFloat.lt (similarityDeltaF32 r1 r2 eps) (CFloat.finite (centerOffsetY r1 r2)) = true) :
    areRectSimilarF32 r1 r2 eps = false := by
  rw [areRectSimilarF32_eq_edgesCloseF32 r1 r2 eps h1 h2, Bool.eq_false_iff]
  intro h
  rcases hoff with hoff | hoff
  · rw [centerOffsetX_le_of_edgesCloseF32 r1 r2 eps h] at hoff
    cases hoff
  · rw [centerOffsetY_le_of_edgesCloseF32 r1 r2 eps h] at hoff
    cases hoff

/-! ## Lemmas: the window variance and the stages in single precision -/

/-- The comparison `v >= 0` fails exactly for a negative value and for a
NaN. -/
theorem CFloat.ge_zero_eq_false_iff (v : CFloat) :
    CFloat.ge v (CFloat.finite 0) = false ↔
      v = CFloat.nan ∨ v = CFloat.negInf ∨ ∃ q, v = CFloat.finite q ∧ q < 0 := by
  cases v <;> simp [CFloat.ge, CFloat.le]

/-- The comparison `a >= b` fails exactly when `a < b` holds or one of the
two is a NaN. -/
theorem CFloat.ge_eq_false_iff (a b : CFloat) :
    CFloat.ge a b = false ↔ CFloat.lt a b = true ∨ a = CFloat.nan ∨ b = CFloat.nan := by
  cases a <;> cases b <;> simp [CFloat.ge, CFloat.le, CFloat.lt]

theorem normVarianceF32_nonneg (sq : ℚ → ℚ) (hsq : ∀ u : ℚ, 0 ≤ u → 0 ≤ sq u) (v : CFloat) :
    normVarianceF32 sq v ≠ CFloat.nan ∧
      CFloat.ge (normVarianceF32 sq v) (CFloat.finite 0) = true := by
  unfold normVarianceF32
  cases v with
  | finite q =>
    by_cases h : 0 ≤ q
    · have hs := hsq q h
      simp [CFloat.ge, CFloat.le, CFloat.sqrt, h, hs]
    · simp [CFloat.ge, CFloat.le, h]
  | posInf => simp [CFloat.ge, CFloat.le, CFloat.sqrt]
  | negInf => simp [CFloat.ge, CFloat.le]
  | nan => simp [CFloat.ge, CFloat.le]

theorem normVarianceF32_congr (sq sq2 : ℚ → ℚ) (h : ∀ u : ℚ, 0 ≤ u → sq u = sq2 u)
    (v : CFloat) : normVarianceF32 sq v = normVarianceF32 sq2 v := by
  unfold normVarianceF32
  cases v with
  | finite q =>
    by_cases hq : 0 ≤ q
    · simp [CFloat.ge, CFloat.le, CFloat.sqrt, hq, h q hq]
    · simp [CFloat.ge, CFloat.le, hq]
  | posInf => simp [CFloat.ge, CFloat.le, CFloat.sqrt]
  | negInf => simp [CFloat.ge, CFloat.le]
  | nan => simp [CFloat.ge, CFloat.le]

theorem runStagesF32_all_pass (stageSum : CvHaarStageClassifier → CFloat)
    (stages : List CvHaarStageClassifier) (i : Nat)
    (h : ∀ s ∈ stages, CFloat.lt (stageSum s) (CFloat.finite s.threshold) = false) :
    runStagesF32 stageSum i stages = 100 := by
  induction stages generalizing i with
  | nil => rfl
  | cons st rest ih =>
    rw [runStagesF32, h st (List.mem_cons_self _ _), if_neg (by simp)]
    exact ih (i + 1) fun s hs => h s (List.mem_cons_of_mem _ hs)

theorem runStagesF32_first_reject (stageSum : CvHaarStageClassifier → CFloat)
    (pre : List CvHaarStageClassifier) (st : CvHaarStageClassifier)
    (post : List CvHaarStageClassifier) (i : Nat)
    (hpre : ∀ s ∈ pre, CFloat.lt (stageSum s) (CFloat.finite s.threshold) = false)
    (hst : CFloat.lt (stageSum st) (CFloat.finite st.threshold) = true) :
    runStagesF32 stageSum i (pre ++ st :: post) = exitStageOf (i + pre.length) := by
  induction pre generalizing i with
  | nil => simp [runStagesF32, hst]
  | cons p rest ih =>
    rw [List.cons_append, runStagesF32, hpre p (List.mem_cons_self _ _), if_neg (by simp),
      ih (i + 1) fun s hs => hpre s (List.mem_cons_of_mem _ hs)]
    congr 1
    simp only [List.length_cons]
    omega

/-- A list of stages either passes as a whole or splits at its first
rejecting stage, with `float` stage sums. -/
theorem stagesF32_split (stageSum : CvHaarStageClassifier → CFloat)
    (stages : List CvHaarStageClassifier) :
    (∀ s ∈ stages, CFloat.lt (stageSum s) (CFloat.finite s.threshold) = false) ∨
    ∃ pre st post, stages = pre ++ st :: post ∧
      (∀ s ∈ pre, CFloat.lt (stageSum s) (CFloat.finite s.threshold) = false) ∧
      CFloat.lt (stageSum st) (CFloat.finite st.threshold) = true := by
  induction stages with
  | nil => left; simp
  | cons a rest ih =>
    by_cases ha : CFloat.lt (stageSum a) (CFloat.finite a.threshold) = true
    · right
      exact ⟨[], a, rest, rfl, by simp, ha⟩
    · rw [Bool.not_eq_true] at ha
      rcases ih with h | ⟨pre, st, post, rfl, hpre, hst⟩
      · left
        intro s hs
        rcases List.mem_cons.mp hs with rfl | hs
        · exact ha
        · exact h s hs
      · right
        refine ⟨a :: pre, st, post, rfl, ?_, hst⟩
        intro s hs
        rcases List.mem_cons.mp hs with rfl | hs
        · exact ha
        · exact hpre s hs

theorem runStagesF32_pos_iff (stageSum : CvHaarStageClassifier → CFloat)
    (stages : List CvHaarStageClassifier) (hlen : stages.length < 2 ^ 31) :
    0 < runStagesF32 stageSum 0 stages ↔
      ∀ s ∈ stages, CFloat.lt (stageSum s) (CFloat.finite s.threshold) = false := by
  constructor
  · intro hpos
    rcases stagesF32_split stageSum stages with h | ⟨pre, st, post, rfl, hpre, hst⟩
    · exact h
    · rw [runStagesF32_first_reject stageSum pre st post 0 hpre hst, exitStageOf_eq] at hpos
      · omega
      · simp only [List.length_append, List.length_cons] at hlen
        omega
  · intro h
    rw [runStagesF32_all_pass stageSum stages 0 h]
    norm_num

/-- The `float` stage sum is the sum, accumulated in order and rounded to
`float` at each step, of the selected alphas. -/
theorem stageSumF32_eq_foldl (image : Image) (current_scale : CFloat) (scaled_window_area : Nat)
    (variance : CFloat) (x y : Int) (stage : CvHaarStageClassifier) :
    stageSumF32 image current_scale scaled_window_area variance x y stage =
      (stage.classifier.map fun c =>
        if CFloat.ge (rectSumF32 image current_scale scaled_window_area x y c.haar_feature)
            (CFloat.mul f32 (CFloat.finite c.threshold) variance) = true
        then CFloat.finite c.alpha1 else CFloat.finite c.alpha0).foldl
        (CFloat.add f32) (CFloat.finite 0) := by
  unfold stageSumF32
  rw [List.foldl_map]
  congr 1
  funext acc c
  unfold selectedAlphaF32 CvHaarClassifier.alpha
  split_ifs <;> rfl

/-! ## Lemmas: the precomputation within the bound of `opt_rectangles` -/

/-- C1 (the code departs from the claim): on the `21 x 21` all-ones image and
a cascade whose one feature has three active rectangles, `detectObjects`
returns no rectangle while `detectObjectsOptimized` returns `36`: the two
variants do not return the same list. -/
theorem detectObjects_differs_from_optimized :
    detectObjects fsqrt 5 onesImage threeRectCascade 0 0 0 0 0 = some [] ∧
    (detectObjectsOptimized fsqrt 5 zeroArena onesImage threeRectCascade 0 0 0 0 0).map
      List.length = some 36 := by
  decide!

/-- C3 (the code departs from the claim): for the window at `(0, 0)` of the
all-ones image at scale `1`, the feature with three active rectangles has the
response `-1/8` in `detectObjects`, while the weighted sum of its three
region sums is `0`, the value that `detectObjectsOptimized` computes: the
term of the third rectangle is missing from `rect_sum`. -/
theorem rectSum_omits_third_rect :
    threeRectFeature.rect2.weight ≠ 0 ∧
    rectSum onesImage 1 64 0 0 threeRectFeature = -1 / 8 ∧
    weightedRectSum onesImage 1 64 0 0 threeRectFeature = 0 ∧
    rectSumOptimized onesImage (precompute onesImage threeRectCascade 1 zeroArena) 0 0
      threeRectFeature = 0 := by
  decide!

/-- C2 (the claim as stated fails): on the step image one scale is
enumerated and scanned; the window at grid position `(1, 0)` of that scale
lies on its grid and passes every stage of the cascade, and it is not in the
raw candidate list: its left neighbour is rejected by the first stage, so the
scan steps over it. -/
theorem scan_skips_passing_window :
    scaleCount 5 stepImage pixelPairCascade = some 1 ∧
    scaleActionAt stepImage pixelPairCascade 0 0 0 0 0 = ScaleAction.scan ∧
    (1 : Int) < gridEndX stepImage pixelPairCascade 0 ∧
    (0 : Int) < gridEndY stepImage pixelPairCascade 0 ∧
    windowPasses fsqrt stepImage pixelPairCascade 0 1 0 = true ∧
    (rawMatches fsqrt 5 stepImage pixelPairCascade 0 0 0 0).map
      (fun raw => decide (gridRect pixelPairCascade 0 1 0 ∈ raw)) = some false := by
  decide!

/-- C2 (amended): the raw candidate list of `detectObjects` is exactly, and
in scan order, the list of the windows of the scanned scales that are visited
and pass every stage of the cascade, where grid position `x_index + 1` of a
row is visited unless `x_index` was visited and rejected by the first stage;
the returned count is the length of that list. -/
theorem rawMatches_eq_visited_survivors (sq : ℚ → ℚ) (fuel : Nat) (image : Image)
    (cascade : CvHaarClassifierCascade)
    (min_window_width min_window_height max_window_width max_window_height n : Nat)
    (hcount : cascade.count < 2 ^ 31) (hn : scaleCount fuel image cascade = some n) :
    rawMatches sq fuel image cascade min_window_width min_window_height max_window_width
        max_window_height =
      some (survivors sq image cascade min_window_width min_window_height max_window_width
        max_window_height n) ∧
    (rawMatches sq fuel image cascade min_window_width min_window_height max_window_width
        max_window_height).map List.length =
      some (survivors sq image cascade min_window_width min_window_height max_window_width
        max_window_height n).length := by
  have h := rawMatches_survivors sq fuel image cascade min_window_width min_window_height
    max_window_width max_window_height n hcount hn
  exact ⟨h, by rw [h]; rfl⟩

/-- C2 (amended), at the step image: the hypotheses hold there, and the list
of survivors has `24` entries. -/
theorem rawMatches_eq_visited_survivors_witness :
    pixelPairCascade.count < 2 ^ 31 ∧
    scaleCount 5 stepImage pixelPairCascade = some 1 ∧
    (rawMatches fsqrt 5 stepImage pixelPairCascade 0 0 0 0).map List.length =
      some (survivors fsqrt stepImage pixelPairCascade 0 0 0 0 1).length ∧
    (survivors fsqrt stepImage pixelPairCascade 0 0 0 0 1).length = 24 :=
  ⟨by decide!, by decide!,
    (rawMatches_eq_visited_survivors fsqrt 5 stepImage pixelPairCascade 0 0 0 0 1
      (by decide!) (by decide!)).2, by decide!⟩

/-- C4 (the claim as stated fails): for the cascade without stages and the
`21 x 21` all-ones image, `detectObjects` returns `36` rectangles. -/
theorem zero_stage_cascade_returns_windows :
    zeroStageCascade.count = 0 ∧
    (detectObjects fsqrt 5 onesImage zeroStageCascade 0 0 0 0 0).map List.length
      = some 36 := by
  decide!

/-- C4 (amended): for a cascade with zero stages no window is rejected: the
raw candidate list of `detectObjects` is the list of all the grid windows of
all the scanned scales, and it is the result when `min_neighbors` is `0`; so
the result is empty only when no window is scanned. -/
theorem zero_stage_cascade_records_all (sq : ℚ → ℚ) (fuel : Nat) (image : Image)
    (cascade : CvHaarClassifierCascade)
    (min_window_width min_window_height max_window_width max_window_height n : Nat)
    (hzero : cascade.stage_classifier = []) (hn : scaleCount fuel image cascade = some n) :
    rawMatches sq fuel image cascade min_window_width min_window_height max_window_width
        max_window_height =
      some (allWindows image cascade min_window_width min_window_height max_window_width
        max_window_height n) ∧
    detectObjects sq fuel image cascade min_window_width min_window_height max_window_width
        max_window_height 0 =
      some (allWindows image cascade min_window_width min_window_height max_window_width
        max_window_height n) := by
  have hcount : cascade.count < 2 ^ 31 := by
    simp [CvHaarClassifierCascade.count, hzero]
  have hraw : rawMatches sq fuel image cascade min_window_width min_window_height
      max_window_width max_window_height =
      some (allWindows image cascade min_window_width min_window_height max_window_width
        max_window_height n) := by
    rw [rawMatches_survivors sq fuel image cascade min_window_width min_window_height
      max_window_width max_window_height n hcount hn]
    unfold survivors allWindows
    congr 1
    apply List.flatMap_congr
    intro k _
    apply List.flatMap_congr
    intro y_index _
    congr 1
    rw [List.filter_eq_self]
    intro x_index _
    have hrej : ∀ j, rejectedByFirstStage sq image cascade k j y_index = false := by
      intro j
      simp [rejectedByFirstStage, hzero]
    simp [rowVisited, visited, visitedFrom_of_no_reject _ hrej, windowPasses, hzero]
  refine ⟨hraw, ?_⟩
  unfold detectObjects
  rw [hraw]
  simp

/-- C4 (amended), at the all-ones image: the hypotheses hold there and all
the `36` grid windows are returned. -/
theorem zero_stage_cascade_records_all_witness :
    zeroStageCascade.stage_classifier = [] ∧
    scaleCount 5 onesImage zeroStageCascade = some 1 ∧
    detectObjects fsqrt 5 onesImage zeroStageCascade 0 0 0 0 0 =
      some (allWindows onesImage zeroStageCascade 0 0 0 0 1) ∧
    (allWindows onesImage zeroStageCascade 0 0 0 0 1).length = 36 :=
  ⟨rfl, by decide!,
    (zero_stage_cascade_records_all fsqrt 5 onesImage zeroStageCascade 0 0 0 0 1 rfl
      (by decide!)).2, by decide!⟩

/-- C5: when no scale is valid `detectObjects` returns the empty list (count
`0`), for every cascade and every `min_neighbors`: first when the image is at
most the canonical window plus `10` in width or in height (no scale is
enumerated), second when the scale loop enumerates `n` scales and none of
them is scanned (each is excluded by the minimum or maximum window size, or
is bigger than the image). -/
theorem detectObjects_empty_without_valid_scale (sq : ℚ → ℚ) (fuel : Nat) (image : Image)
    (cascade : CvHaarClassifierCascade)
    (min_window_width min_window_height max_window_width max_window_height
      min_neighbors : Nat) :
    ((image.width ≤ cascade.orig_window_width + 10 ∨
        image.height ≤ cascade.orig_window_height + 10) →
      detectObjects sq (fuel + 1) image cascade min_window_width min_window_height
        max_window_width max_window_height min_neighbors = some []) ∧
    (∀ n : Nat, scaleCount fuel image cascade = some n →
      (∀ k : Nat, k < n → scaleActionAt image cascade min_window_width min_window_height
        max_window_width max_window_height k ≠ ScaleAction.scan) →
      detectObjects sq fuel image cascade min_window_width min_window_height
        max_window_width max_window_height min_neighbors = some []) := by
  have hgen : ∀ (f n : Nat), scaleCount f image cascade = some n →
      (∀ k : Nat, k < n → scaleActionAt image cascade min_window_width min_window_height
        max_window_width max_window_height k ≠ ScaleAction.scan) →
      detectObjects sq f image cascade min_window_width min_window_height
        max_window_width max_window_height min_neighbors = some [] := by
    intro f n hn hall
    have hraw : rawMatches sq f image cascade min_window_width min_window_height
        max_window_width max_window_height = some [] := by
      unfold rawMatches
      rw [hn, Option.map_some', ← scaleAt_zero, scanScales_eq,
        scannedScales_eq_nil _ 0 n (fun k _ hk => hall k (by omega))]
      rfl
    unfold detectObjects
    rw [hraw]
    by_cases hmn : min_neighbors ≠ 0
    · simp [hmn, filterResult_nil]
    · simp [hmn]
  refine ⟨fun hsmall => ?_, fun n hn hall => hgen fuel n hn hall⟩
  apply hgen (fuel + 1) 0
  · unfold scaleCount
    rw [scaleCountLoop]
    rw [if_neg]
    intro hboth
    rcases hsmall with hw | hh
    · have h1 := hboth.1
      rw [one_mul] at h1
      have h2 : ((image.width : Int) : ℚ) ≤ ((cascade.orig_window_width : Int) : ℚ) + 10 := by
        exact_mod_cast hw
      push_cast at h1 h2
      linarith
    · have h1 := hboth.2
      rw [one_mul] at h1
      have h2 : ((image.height : Int) : ℚ) ≤ ((cascade.orig_window_height : Int) : ℚ) + 10 := by
        exact_mod_cast hh
      push_cast at h1 h2
      linarith
  · intro k hk
    omega

/-- C5, at two inputs: the `15 x 15` image with the canonical window
`10 x 10`, and the `21 x 21` all-ones image with a minimum window width of
`100`, which excludes the one enumerated scale. -/
theorem detectObjects_empty_without_valid_scale_witness :
    detectObjects fsqrt 1 smallImage threeRectCascade 0 0 0 0 3 = some [] ∧
    detectObjects fsqrt 5 onesImage threeRectCascade 100 0 0 0 3 = some [] :=
  ⟨(detectObjects_empty_without_valid_scale fsqrt 0 smallImage threeRectCascade 0 0 0 0 3).1
      (Or.inl (by decide)),
    (detectObjects_empty_without_valid_scale fsqrt 5 onesImage threeRectCascade 100 0 0 0 3).2
      1 (by decide!) (by decide!)⟩

/-- C6: every rectangle `(x, y, w, h)` of the raw candidate list of
`detectObjects` has `0 <= x`, `0 <= y`, `x + w <= image width`,
`y + h <= image height`, `w >= min_window_width`, `h >= min_window_height`,
and `w <= max_window_width` (resp. `h <= max_window_height`) when that bound
is not zero. -/
theorem rawMatches_within_bounds (sq : ℚ → ℚ) (fuel : Nat) (image : Image)
    (cascade : CvHaarClassifierCascade)
    (min_window_width min_window_height max_window_width max_window_height : Nat)
    (raw : List CLWeightedRect) (r : CLWeightedRect)
    (hraw : rawMatches sq fuel image cascade min_window_width min_window_height
      max_window_width max_window_height = some raw) (hr : r ∈ raw) :
    0 ≤ r.x ∧ 0 ≤ r.y ∧ r.x + r.width ≤ (image.width : Int) ∧
    r.y + r.height ≤ (image.height : Int) ∧
    (min_window_width : Int) ≤ r.width ∧ (min_window_height : Int) ≤ r.height ∧
    (max_window_width ≠ 0 → r.width ≤ (max_window_width : Int)) ∧
    (max_window_height ≠ 0 → r.height ≤ (max_window_height : Int)) := by
  unfold rawMatches at hraw
  cases hsc : scaleCount fuel image cascade with
  | none => rw [hsc] at hraw; simp at hraw
  | some n =>
    rw [hsc, Option.map_some', ← scaleAt_zero, scanScales_eq] at hraw
    have hraw2 := Option.some.inj hraw
    rw [← hraw2] at hr
    rcases List.mem_flatMap.mp hr with ⟨k, hk, hrk⟩
    have hact := (mem_scannedScales _ 0 n k hk).2.2
    have hb := scaleAction_scan image cascade min_window_width min_window_height
      max_window_width max_window_height (scaleAt k) hact
    unfold scanScale at hrk
    rw [scanWindows_eq] at hrk
    rcases List.mem_flatMap.mp hrk with ⟨y_index, hy, hry⟩
    rcases List.mem_map.mp hry with ⟨x_index, hx, hrx⟩
    have hx2 := List.mem_range.mp (List.mem_filter.mp hx).1
    have hy2 := List.mem_range.mp hy
    have gx := gridCoord_bound image.width _ hb.2.2.2.2.1 (ystepOf (scaleAt k))
      (ystepOf_ge _) x_index hx2
    have gy := gridCoord_bound image.height _ hb.2.2.2.2.2 (ystepOf (scaleAt k))
      (ystepOf_ge _) y_index hy2
    rw [← hrx]
    simp only [matchRect]
    refine ⟨gx.1, gy.1, gx.2, gy.2, ?_, ?_, fun hne => ?_, fun hne => ?_⟩
    · exact_mod_cast hb.1
    · exact_mod_cast hb.2.1
    · exact_mod_cast hb.2.2.1 hne
    · exact_mod_cast hb.2.2.2.1 hne

/-- C6, at the step image with a minimum window of `8 x 8` and a maximum of
`12 x 12`: the rectangle at `(4, 0)` of size `10 x 10` is recorded, and it
lies in the `21 x 21` image and within the size bounds. -/
theorem rawMatches_within_bounds_witness :
    ({ x := 4, y := 0, width := 10, height := 10, weight := 0 } : CLWeightedRect) ∈
      (rawMatches fsqrt 5 stepImage pixelPairCascade 8 8 12 12).getD [] ∧
    ((0 : Int) ≤ 4 ∧ (0 : Int) ≤ 0 ∧ (4 : Int) + 10 ≤ ((21 : Nat) : Int) ∧
    (0 : Int) + 10 ≤ ((21 : Nat) : Int) ∧
    ((8 : Nat) : Int) ≤ 10 ∧ ((8 : Nat) : Int) ≤ 10 ∧
    ((12 : Nat) ≠ 0 → (10 : Int) ≤ ((12 : Nat) : Int)) ∧
    ((12 : Nat) ≠ 0 → (10 : Int) ≤ ((12 : Nat) : Int))) :=
  ⟨by decide!,
    rawMatches_within_bounds fsqrt 5 stepImage pixelPairCascade 8 8 12 12
      ((rawMatches fsqrt 5 stepImage pixelPairCascade 8 8 12 12).getD [])
      { x := 4, y := 0, width := 10, height := 10, weight := 0 } (by decide!) (by decide!)⟩

/-- C7 (the claim as stated fails): for the window at `(0, 0)` of the all-ones
image the code computes the variance `E[x^2] - E[x]^2` as exactly `0`, and the
variance value that the scanner uses for it is `0`, not `1`. -/
theorem windowVarianceF32_zero_not_one :
    rawVarianceF32 onesImage threeRectCascade (CFloat.finite 1) 0 0 = CFloat.finite 0 ∧
    windowVarianceF32 sqrtF32 onesImage threeRectCascade (CFloat.finite 1) 0 0 = CFloat.finite 0 ∧
    windowVarianceF32 sqrtF32 onesImage threeRectCascade (CFloat.finite 1) 0 0
      ≠ CFloat.finite 1 := by
  decide!

/-- C7 (amended): for every window whose variance `E[x^2] - E[x]^2`, as the
code computes it in single precision, is exactly zero, the variance value the
scanner uses to scale the classifier thresholds is the square root of zero,
that is `0`. -/
theorem windowVarianceF32_zero (sq : ℚ → ℚ) (image : Image) (cascade : CvHaarClassifierCascade)
    (current_scale : CFloat) (x y : Int) (hsq : sq 0 = 0)
    (hzero : rawVarianceF32 image cascade current_scale x y = CFloat.finite 0) :
    windowVarianceF32 sq image cascade current_scale x y = CFloat.finite 0 := by
  unfold windowVarianceF32 normVarianceF32
  rw [hzero]
  simp [CFloat.ge, CFloat.le, CFloat.sqrt, hsq]

/-- C7 (amended), at the window `(0, 0)` of the all-ones image, whose computed
variance is `0`.  The window `(0, 0)` of the image whose pixels are all `255`
is not an instance: its variance is `0` in exact arithmetic, the code
computes `-1/256` for its `17 x 17` equalized rectangle, and uses `1`. -/
theorem windowVarianceF32_zero_witness :
    sqrtF32 0 = 0 ∧
    rawVarianceF32 onesImage threeRectCascade (CFloat.finite 1) 0 0 = CFloat.finite 0 ∧
    windowVarianceF32 sqrtF32 onesImage threeRectCascade (CFloat.finite 1) 0 0 = CFloat.finite 0 ∧
    rawVariance brightImage wideWindowCascade 1 0 0 = 0 ∧
    rawVarianceF32 brightImage wideWindowCascade (CFloat.finite 1) 0 0
      = CFloat.finite (-1 / 256) ∧
    windowVarianceF32 sqrtF32 brightImage wideWindowCascade (CFloat.finite 1) 0 0
      = CFloat.finite 1 :=
  ⟨by decide!, by decide!,
    windowVarianceF32_zero sqrtF32 onesImage threeRectCascade (CFloat.finite 1) 0 0
      (by decide!) (by decide!),
    by decide!, by decide!, by decide!⟩

/-- C8 (the claim as stated fails): for a canonical window `2 x 2` the
equalized rectangle is empty and `scaled_window_area` is `0`, so the code
computes `v = 0/0 - (0/0)^2`, a NaN.  It is not negative, and the claim gives
its square root, a NaN; the code uses `1`. -/
theorem windowVarianceF32_nan_is_one :
    scaledWindowAreaF32 zeroAreaCascade (CFloat.finite 1) = 0 ∧
    rawVarianceF32 onesImage zeroAreaCascade (CFloat.finite 1) 0 0 = CFloat.nan ∧
    CFloat.lt (rawVarianceF32 onesImage zeroAreaCascade (CFloat.finite 1) 0 0) (CFloat.finite 0)
      = false ∧
    CFloat.sqrt sqrtF32 (rawVarianceF32 onesImage zeroAreaCascade (CFloat.finite 1) 0 0)
      = CFloat.nan ∧
    windowVarianceF32 sqrtF32 onesImage zeroAreaCascade (CFloat.finite 1) 0 0
      = CFloat.finite 1 := by
  decide!

/-- C8 (amended): for every window, with `v = E[x^2] - E[x]^2` over the
equalized rectangle as the code computes it in single precision, the
normalisation value is the square root of `v` when `v >= 0` holds and `1`
otherwise, that is when `v` is negative or a NaN; hence it is never negative
and never a NaN, as long as the square root of a non-negative number is not
negative, and the square root is asked only at non-negative arguments: two
square root functions that agree there give the same value. -/
theorem windowVarianceF32_clamps (sq : ℚ → ℚ) (image : Image)
    (cascade : CvHaarClassifierCascade) (current_scale : CFloat) (x y : Int) :
    (CFloat.ge (rawVarianceF32 image cascade current_scale x y) (CFloat.finite 0) = true →
      windowVarianceF32 sq image cascade current_scale x y
        = CFloat.sqrt sq (rawVarianceF32 image cascade current_scale x y)) ∧
    (CFloat.ge (rawVarianceF32 image cascade current_scale x y) (CFloat.finite 0) = false →
      windowVarianceF32 sq image cascade current_scale x y = CFloat.finite 1) ∧
    (CFloat.ge (rawVarianceF32 image cascade current_scale x y) (CFloat.finite 0) = false ↔
      rawVarianceF32 image cascade current_scale x y = CFloat.nan ∨
      rawVarianceF32 image cascade current_scale x y = CFloat.negInf ∨
      ∃ q, rawVarianceF32 image cascade current_scale x y = CFloat.finite q ∧ q < 0) ∧
    ((∀ u : ℚ, 0 ≤ u → 0 ≤ sq u) →
      windowVarianceF32 sq image cascade current_scale x y ≠ CFloat.nan ∧
      CFloat.ge (windowVarianceF32 sq image cascade current_scale x y) (CFloat.finite 0)
        = true) ∧
    (∀ sq2 : ℚ → ℚ, (∀ u : ℚ, 0 ≤ u → sq u = sq2 u) →
      windowVarianceF32 sq image cascade current_scale x y
        = windowVarianceF32 sq2 image cascade current_scale x y) := by
  refine ⟨fun h => ?_, fun h => ?_, CFloat.ge_zero_eq_false_iff _, fun h => ?_, fun sq2 h => ?_⟩
  · unfold windowVarianceF32 normVarianceF32
    rw [if_pos h]
  · unfold windowVarianceF32 normVarianceF32
    rw [if_neg (by rw [h]; simp)]
  · exact normVarianceF32_nonneg sq h _
  · exact normVarianceF32_congr sq sq2 h _

/-- C8 (amended), at the window `(0, 0)` of the all-ones image, whose computed
variance `0` is not negative, at the window of the all-`255` image, whose
computed variance is `-1/256`, and at a NaN. -/
theorem windowVarianceF32_clamps_witness :
    windowVarianceF32 sqrtF32 onesImage threeRectCascade (CFloat.finite 1) 0 0
      = CFloat.sqrt sqrtF32 (CFloat.finite 0) ∧
    windowVarianceF32 sqrtF32 brightImage wideWindowCascade (CFloat.finite 1) 0 0
      = CFloat.finite 1 ∧
    normVarianceF32 sqrtF32 CFloat.nan = CFloat.finite 1 ∧
    normVarianceF32 sqrtF32 (CFloat.finite 4) = CFloat.finite 2 :=
  ⟨by
      have h := (windowVarianceF32_clamps sqrtF32 onesImage threeRectCascade (CFloat.finite 1)
        0 0).1 (by decide!)
      rw [h]
      decide!,
    (windowVarianceF32_clamps sqrtF32 brightImage wideWindowCascade (CFloat.finite 1) 0 0).2.1
      (by decide!),
    by decide!, by decide!⟩

/-- C9: for the sum table of a `H x W` image (entry `(r, c)` is the sum of
the pixels above and to the left, in 32 bits, stride `W + 1`) and a rectangle
with `x + w <= W` and `y + h <= H`, the four-corner expression
`mats(T, W+1, x, y, w, h)` is the sum of the pixels of the rectangle modulo
`2^32`; for the all-ones image it is `w * h` modulo `2^32`, that is `w * h`
exactly whenever `w * h` is a 32-bit value, as in every image of fewer than
`2^32` pixels. -/
theorem mats_integral_rect_sum (W H : Nat) (pixel : Nat → Nat → Nat) (x y w h : Nat)
    (hx : x + w ≤ W) (hy : y + h ≤ H) :
    mats (integralTable W H pixel) (W + 1) x y w h = rectPixelSum pixel x y w h % 2 ^ 32 ∧
    mats (integralTable W H fun _ _ => 1) (W + 1) x y w h = (w * h) % 2 ^ 32 ∧
    (w * h < 2 ^ 32 → mats (integralTable W H fun _ _ => 1) (W + 1) x y w h = w * h) ∧
    (W * H < 2 ^ 32 → mats (integralTable W H fun _ _ => 1) (W + 1) x y w h = w * h) := by
  have hones : rectPixelSum (fun _ _ => 1) x y w h = w * h := by
    simp [rectPixelSum, Nat.mul_comm]
  have hmod : mats (integralTable W H fun _ _ => 1) (W + 1) x y w h = (w * h) % 2 ^ 32 := by
    rw [mats_integralTable W H _ x y w h hx hy, hones]
  refine ⟨mats_integralTable W H pixel x y w h hx hy, hmod, fun hsize => ?_, fun hsize => ?_⟩
  · rw [hmod]
    exact Nat.mod_eq_of_lt hsize
  · rw [hmod]
    apply Nat.mod_eq_of_lt
    have h1 : w * h ≤ W * H := Nat.mul_le_mul (by omega) (by omega)
    omega

/-- C9, at the equalized rectangle `(1, 1, 8, 8)` of the `21 x 21` all-ones
image. -/
theorem mats_integral_rect_sum_witness :
    1 + 8 ≤ 21 ∧ 8 * 8 < 2 ^ 32 ∧
    mats (integralTable 21 21 fun _ _ => 1) (21 + 1) 1 1 8 8 = 8 * 8 :=
  ⟨by decide, by decide,
    (mats_integral_rect_sum 21 21 (fun _ _ => 1) 1 1 8 8 (by decide) (by decide)).2.2.1
      (by decide)⟩

/-- C10 (the claim as stated fails): for the cascade with canonical window
`2 x 2`, whose `scaled_window_area` is `0`, the feature response at the
window `(0, 0)` of the all-ones image is a NaN (`inf - inf`).  It is not
strictly below the classifier threshold times the variance, which is `0`, so
the claim selects the right alpha, `1`, and the window passes the stage of
threshold `1/2`; the code selects the left alpha, `0`, because
`rect_sum >= norm_threshold` is false, and rejects the window. -/
theorem windowExitF32_nan_selects_left :
    rectSumF32 onesImage (CFloat.finite 1) (scaledWindowAreaF32 zeroAreaCascade (CFloat.finite 1))
      0 0 unitPairFeature = CFloat.nan ∧
    CFloat.mul f32 (CFloat.finite unitPairClassifier.threshold)
      (windowVarianceF32 sqrtF32 onesImage zeroAreaCascade (CFloat.finite 1) 0 0)
      = CFloat.finite 0 ∧
    CFloat.lt
      (rectSumF32 onesImage (CFloat.finite 1)
        (scaledWindowAreaF32 zeroAreaCascade (CFloat.finite 1)) 0 0 unitPairFeature)
      (CFloat.mul f32 (CFloat.finite unitPairClassifier.threshold)
        (windowVarianceF32 sqrtF32 onesImage zeroAreaCascade (CFloat.finite 1) 0 0)) = false ∧
    selectedAlphaF32 onesImage (CFloat.finite 1)
      (scaledWindowAreaF32 zeroAreaCascade (CFloat.finite 1))
      (windowVarianceF32 sqrtF32 onesImage zeroAreaCascade (CFloat.finite 1) 0 0) 0 0
      unitPairClassifier = unitPairClassifier.alpha0 ∧
    windowExitF32 sqrtF32 onesImage zeroAreaCascade (CFloat.finite 1) 0 0 = 0 := by
  decide!

/-- C10 (amended): in `detectObjects`, in single precision, the sum of a stage
is the sum, accumulated in order and rounded to `float` at each step, of the
selected alphas of its classifiers: the right alpha when
`rect_sum >= norm_threshold` holds for the feature response and the
classifier threshold times the window variance, and the left alpha otherwise,
that is when the response is strictly below or when one of the two is a NaN;
the window passes (`exit_stage > 0`, the condition under which it is
recorded) exactly when no stage sum is strictly below the threshold of its
stage; the first stage whose sum is strictly below its threshold rejects the
window (`exit_stage` is minus its index), and the verdict of the loop that
stops there is the verdict of evaluating all the stages.  The number of
stages is an `int` in the source, hence below `2^31`. -/
theorem windowExitF32_verdict (sq : ℚ → ℚ) (image : Image) (cascade : CvHaarClassifierCascade)
    (current_scale : CFloat) (x y : Int) (hcount : cascade.count < 2 ^ 31) :
    (∀ stage : CvHaarStageClassifier,
      stageSumF32 image current_scale (scaledWindowAreaF32 cascade current_scale)
          (windowVarianceF32 sq image cascade current_scale x y) x y stage =
        (stage.classifier.map fun c =>
          if CFloat.ge
              (rectSumF32 image current_scale (scaledWindowAreaF32 cascade current_scale) x y
                c.haar_feature)
              (CFloat.mul f32 (CFloat.finite c.threshold)
                (windowVarianceF32 sq image cascade current_scale x y)) = true
          then CFloat.finite c.alpha1 else CFloat.finite c.alpha0).foldl
          (CFloat.add f32) (CFloat.finite 0)) ∧
    (∀ response norm_threshold : CFloat,
      CFloat.ge response norm_threshold = false ↔
        CFloat.lt response norm_threshold = true ∨ response = CFloat.nan ∨
          norm_threshold = CFloat.nan) ∧
    (0 < windowExitF32 sq image cascade current_scale x y ↔
      ∀ stage ∈ cascade.stage_classifier,
        CFloat.lt
          (stageSumF32 image current_scale (scaledWindowAreaF32 cascade current_scale)
            (windowVarianceF32 sq image cascade current_scale x y) x y stage)
          (CFloat.finite stage.threshold) = false) ∧
    (∀ (pre : List CvHaarStageClassifier) (stage : CvHaarStageClassifier)
        (post : List CvHaarStageClassifier),
      cascade.stage_classifier = pre ++ stage :: post →
      (∀ s ∈ pre, CFloat.lt
        (stageSumF32 image current_scale (scaledWindowAreaF32 cascade current_scale)
          (windowVarianceF32 sq image cascade current_scale x y) x y s)
        (CFloat.finite s.threshold) = false) →
      CFloat.lt
        (stageSumF32 image current_scale (scaledWindowAreaF32 cascade current_scale)
          (windowVarianceF32 sq image cascade current_scale x y) x y stage)
        (CFloat.finite stage.threshold) = true →
      windowExitF32 sq image cascade current_scale x y = -(pre.length : Int) ∧
        ¬ 0 < windowExitF32 sq image cascade current_scale x y) ∧
    (0 < windowExitF32 sq image cascade current_scale x y ↔
      (cascade.stage_classifier.all fun stage =>
        !CFloat.lt
          (stageSumF32 image current_scale (scaledWindowAreaF32 cascade current_scale)
            (windowVarianceF32 sq image cascade current_scale x y) x y stage)
          (CFloat.finite stage.threshold)) = true) := by
  have hpos := runStagesF32_pos_iff
    (stageSumF32 image current_scale (scaledWindowAreaF32 cascade current_scale)
      (windowVarianceF32 sq image cascade current_scale x y) x y) cascade.stage_classifier hcount
  refine ⟨fun stage => stageSumF32_eq_foldl _ _ _ _ _ _ stage, CFloat.ge_eq_false_iff, hpos,
    ?_, ?_⟩
  · intro pre stage post hsplit hpre hrej
    have hlen : pre.length ≤ 2 ^ 31 := by
      have : cascade.count = (pre ++ stage :: post).length := by
        rw [← hsplit]
        rfl
      simp only [List.length_append, List.length_cons] at this
      omega
    have hexit : windowExitF32 sq image cascade current_scale x y = -(pre.length : Int) := by
      unfold windowExitF32
      rw [hsplit, runStagesF32_first_reject _ pre stage post 0 hpre hrej, Nat.zero_add,
        exitStageOf_eq _ hlen]
    refine ⟨hexit, ?_⟩
    rw [hexit]
    omega
  · unfold windowExitF32
    rw [hpos, List.all_eq_true]
    simp

/-- C10 (amended), at the step image: the window at `(0, 0)` is rejected by
the one stage of the cascade and the window at `(2, 0)` passes it. -/
theorem windowExitF32_verdict_witness :
    pixelPairCascade.count < 2 ^ 31 ∧
    ¬ 0 < windowExitF32 sqrtF32 stepImage pixelPairCascade (CFloat.finite 1) 0 0 ∧
    (0 < windowExitF32 sqrtF32 stepImage pixelPairCascade (CFloat.finite 1) 2 0 ↔
      ∀ stage ∈ pixelPairCascade.stage_classifier,
        CFloat.lt
          (stageSumF32 stepImage (CFloat.finite 1)
            (scaledWindowAreaF32 pixelPairCascade (CFloat.finite 1))
            (windowVarianceF32 sqrtF32 stepImage pixelPairCascade (CFloat.finite 1) 2 0) 2 0 stage)
          (CFloat.finite stage.threshold) = false) ∧
    0 < windowExitF32 sqrtF32 stepImage pixelPairCascade (CFloat.finite 1) 2 0 :=
  ⟨by decide!, by decide!,
    (windowExitF32_verdict sqrtF32 stepImage pixelPairCascade (CFloat.finite 1) 2 0
      (by decide!)).2.2.1, by decide!⟩

/-- C11: `partitionData` returns (for every fuel above `N * N`), puts any two
similar rectangles in the same class, transitively: for all indices `a`, `b`,
`c` with `areRectSimilar(a, b)` and `areRectSimilar(b, c)` the three labels
are equal; and for every permutation of the input list the partition is the
same up to the renaming of the class ids: two rectangles have the same label
after the permutation exactly when they had the same label before, and the
number of classes is the same. -/
theorem partitionData_joins_similar (fuel : Nat) (data : List CLWeightedRect) (eps : ℚ)
    (hfuel : data.length * data.length + 1 ≤ fuel) :
    ∃ labels nclasses, partitionData fuel data eps = some (labels, nclasses) ∧
      (∀ a b c, a < data.length → b < data.length → c < data.length →
        areRectSimilar (data.getD a zeroRect) (data.getD b zeroRect) eps = true →
        areRectSimilar (data.getD b zeroRect) (data.getD c zeroRect) eps = true →
        labels.getD a 0 = labels.getD b 0 ∧ labels.getD b 0 = labels.getD c 0) ∧
      (∀ σ : Equiv.Perm (Fin data.length),
        ∃ labels2 nclasses2,
          partitionData fuel (permuteData data σ) eps = some (labels2, nclasses2) ∧
          nclasses2 = nclasses ∧
          ∀ i j : Fin data.length,
            labels2.getD i 0 = labels2.getD j 0 ↔
              labels.getD (σ i) 0 = labels.getD (σ j) 0) := by
  obtain ⟨labels, nclasses, hpart, hlen, hn0, hnle, hrange, hused, hclass⟩ :=
    partitionData_spec fuel data eps hfuel
  have hpair : ∀ a b, a < data.length → b < data.length →
      areRectSimilar (data.getD a zeroRect) (data.getD b zeroRect) eps = true →
      labels.getD a 0 = labels.getD b 0 := by
    intro a b ha hb hsim
    by_cases e : a = b
    · rw [e]
    · exact (hclass a b ha hb).mpr (Relation.EqvGen.rel _ _ ⟨ha, hb, e, hsim⟩)
  refine ⟨labels, nclasses, hpart, fun a b c ha hb hc h1 h2 =>
    ⟨hpair a b ha hb h1, hpair b c hb hc h2⟩, ?_⟩
  intro σ
  have hlen2 := permuteData_length data σ
  obtain ⟨labels2, nclasses2, hpart2, _, hn02, _, hrange2, hused2, hclass2⟩ :=
    partitionData_spec fuel (permuteData data σ) eps (by rw [hlen2]; exact hfuel)
  have hsame : ∀ i j : Fin data.length,
      labels2.getD i 0 = labels2.getD j 0 ↔ labels.getD (σ i) 0 = labels.getD (σ j) 0 := by
    intro i j
    rw [hclass2 i j (by rw [hlen2]; exact i.2) (by rw [hlen2]; exact j.2),
      hclass (σ i) (σ j) (σ i).2 (σ j).2]
    exact eqvGen_permuteData data eps σ i j
  refine ⟨labels2, nclasses2, hpart2, ?_, hsame⟩
  have h1 := nclasses_eq_card (fun i : Fin data.length => labels.getD i 0) nclasses hn0
    (fun i => hrange i i.2)
    (fun c hc0 hc => by
      obtain ⟨i, hi, hli⟩ := hused c hc0 hc
      exact ⟨⟨i, hi⟩, hli⟩)
  have h2 := nclasses_eq_card (fun i : Fin data.length => labels2.getD i 0) nclasses2 hn02
    (fun i => hrange2 i (by rw [hlen2]; exact i.2))
    (fun c hc0 hc => by
      obtain ⟨i, hi, hli⟩ := hused2 c hc0 hc
      rw [hlen2] at hi
      exact ⟨⟨i, hi⟩, hli⟩)
  have h3 := card_image_eq_of_same_classes (fun i : Fin data.length => labels2.getD i 0)
    (fun i : Fin data.length => labels.getD (σ i) 0) hsame
  have h4 : (Finset.univ.image fun i : Fin data.length => labels.getD (σ i) 0)
      = Finset.univ.image fun i : Fin data.length => labels.getD i 0 := by
    ext c
    simp only [Finset.mem_image, Finset.mem_univ, true_and]
    constructor
    · rintro ⟨i, hi⟩
      exact ⟨σ i, hi⟩
    · rintro ⟨i, hi⟩
      exact ⟨σ.symm i, by simpa using hi⟩
  rw [h1, h2, h3, h4]

/-- C11, at a chain of three rectangles with fuel `10`: all three get the
label `0` although the first and the third are not similar. -/
theorem partitionData_joins_similar_witness :
    chainData.length * chainData.length + 1 ≤ 10 ∧
    areRectSimilar (chainData.getD 0 zeroRect) (chainData.getD 2 zeroRect) (1 / 5) = false ∧
    partitionData 10 chainData (1 / 5) = some ([0, 0, 0], 1) ∧
    ∃ labels nclasses, partitionData 10 chainData (1 / 5) = some (labels, nclasses) ∧
      (∀ a b c, a < chainData.length → b < chainData.length → c < chainData.length →
        areRectSimilar (chainData.getD a zeroRect) (chainData.getD b zeroRect) (1 / 5) = true →
        areRectSimilar (chainData.getD b zeroRect) (chainData.getD c zeroRect) (1 / 5) = true →
        labels.getD a 0 = labels.getD b 0 ∧ labels.getD b 0 = labels.getD c 0) :=
  ⟨by decide, by decide!, by decide!,
    (partitionData_joins_similar 10 chainData (1 / 5) (by decide)).imp fun _ h =>
      h.imp fun _ h2 => ⟨h2.1, h2.2.1⟩⟩

/-- C12 (the claim as stated fails, in two ways).  The code holds the
rectangles `(0, 0, 10, 10)` and `(1, 0, 8, 10)` similar at tolerance `0.2`,
although their widths differ by `2`, more than `delta = 1.8`: it compares the
four edges.  And it holds `(0, 0, 83886080, 83886080)` and
`(16777217, 0, 83886080, 83886080)` similar, although their centers are
`2^24 + 1` apart and `delta` is `2^24`: the difference is converted to
`float`, where it is `2^24`. -/
theorem areRectSimilarF32_not_centers_extents :
    areRectSimilarF32 wideRect narrowRect epsF32 = true ∧
    centersAndExtentsClose wideRect narrowRect EPS = false ∧
    areRectSimilarF32 hugeRect shiftedHugeRect epsF32 = true ∧
    similarityDelta hugeRect shiftedHugeRect EPS = 16777216 ∧
    centerOffsetX hugeRect shiftedHugeRect = 16777217 ∧
    centersAndExtentsClose hugeRect shiftedHugeRect EPS = false := by
  decide!

/-- C12 (amended): for rectangles whose coordinates and sizes lie between
`-2^22` and `2^22`, `areRectSimilar(r1, r2, eps)` is true exactly when the
left edges, the top edges, the right edges and the bottom edges of the two
rectangles each differ by no more than `delta`, where `delta` is
`eps * (min(r1.width, r2.width) + min(r1.height, r2.height)) * 0.5` as the
code computes it in single precision. -/
theorem areRectSimilarF32_iff_edges (r1 r2 : CLWeightedRect) (eps : CFloat) (h1 : ExactRect r1)
    (h2 : ExactRect r2) :
    areRectSimilarF32 r1 r2 eps = true ↔
      CFloat.le (CFloat.finite |(r1.x : ℚ) - (r2.x : ℚ)|) (similarityDeltaF32 r1 r2 eps) = true ∧
      CFloat.le (CFloat.finite |(r1.y : ℚ) - (r2.y : ℚ)|) (similarityDeltaF32 r1 r2 eps) = true ∧
      CFloat.le (CFloat.finite |((r1.x : ℚ) + (r1.width : ℚ)) - ((r2.x : ℚ) + (r2.width : ℚ))|)
        (similarityDeltaF32 r1 r2 eps) = true ∧
      CFloat.le (CFloat.finite |((r1.y : ℚ) + (r1.height : ℚ)) - ((r2.y : ℚ) + (r2.height : ℚ))|)
        (similarityDeltaF32 r1 r2 eps) = true := by
  rw [areRectSimilarF32_eq_edgesCloseF32 r1 r2 eps h1 h2]
  unfold edgesCloseF32
  simp only [Bool.and_eq_true, and_assoc]

/-- C12 (amended), at the rectangles `(0, 0, 10, 10)` and `(1, 0, 8, 10)` with
the tolerance `0.2f`: the four edges differ by `1`, `0`, `1` and `0`, and
`delta` is the `float` next to `1.8`. -/
theorem areRectSimilarF32_iff_edges_witness :
    ExactRect wideRect ∧ ExactRect narrowRect ∧
    similarityDeltaF32 wideRect narrowRect epsF32 = CFloat.finite (15099495 / 8388608) ∧
    (areRectSimilarF32 wideRect narrowRect epsF32 = true ↔
      CFloat.le (CFloat.finite |(wideRect.x : ℚ) - (narrowRect.x : ℚ)|)
        (similarityDeltaF32 wideRect narrowRect epsF32) = true ∧
      CFloat.le (CFloat.finite |(wideRect.y : ℚ) - (narrowRect.y : ℚ)|)
        (similarityDeltaF32 wideRect narrowRect epsF32) = true ∧
      CFloat.le (CFloat.finite |((wideRect.x : ℚ) + (wideRect.width : ℚ))
          - ((narrowRect.x : ℚ) + (narrowRect.width : ℚ))|)
        (similarityDeltaF32 wideRect narrowRect epsF32) = true ∧
      CFloat.le (CFloat.finite |((wideRect.y : ℚ) + (wideRect.height : ℚ))
          - ((narrowRect.y : ℚ) + (narrowRect.height : ℚ))|)
        (similarityDeltaF32 wideRect narrowRect epsF32) = true) :=
  ⟨by unfold ExactRect wideRect; norm_num, by unfold ExactRect narrowRect; norm_num,
    by decide!,
    areRectSimilarF32_iff_edges wideRect narrowRect epsF32
      (by unfold ExactRect wideRect; norm_num) (by unfold ExactRect narrowRect; norm_num)⟩

/-- C13 (the claim as stated fails): the centers of the rectangles
`(0, 0, 83886080, 83886080)` and `(16777217, 0, 83886080, 83886080)` are
`2^24 + 1` apart in x, more than `delta = 2^24`, and `partitionData` gives
them one class and the same label, because the similarity test converts the
difference to `float`, where it is `2^24`. -/
theorem partitionDataF32_merges_offset_centers :
    similarityDelta hugeRect shiftedHugeRect EPS = 16777216 ∧
    similarityDeltaF32 hugeRect shiftedHugeRect epsF32 = CFloat.finite 16777216 ∧
    centerOffsetX hugeRect shiftedHugeRect = 16777217 ∧
    partitionDataF32 10 [hugeRect, shiftedHugeRect] epsF32 = some ([0, 0], 1) := by
  decide!

/-- C13 (amended): for every input of exactly two rectangles whose
coordinates and sizes lie between `-2^22` and `2^22` and whose centers are
offset, in x or in y, by more than `delta`, where `delta` is
`eps * (min of the widths + min of the heights) * 0.5` as the code computes
it in single precision, `partitionData` returns 2 classes and gives the two
rectangles the labels `0` and `1`. -/
theorem partitionDataF32_separates_offset_centers (fuel : Nat) (r1 r2 : CLWeightedRect)
    (eps : CFloat) (h1 : ExactRect r1) (h2 : ExactRect r2)
    (hoff : CFloat.lt (similarityDeltaF32 r1 r2 eps) (CFloat.finite (centerOffsetX r1 r2)) = true ∨
      CFloat.lt (similarityDeltaF32 r1 r2 eps) (CFloat.finite (centerOffsetY r1 r2)) = true) :
    partitionDataF32 (fuel + 1) [r1, r2] eps = some ([0, 1], 2) := by
  apply partitionDataF32_pair_of_not_similar
  · exact areRectSimilarF32_false_of_offset r1 r2 eps h1 h2 hoff
  · apply areRectSimilarF32_false_of_offset r2 r1 eps h2 h1
    rw [similarityDeltaF32_comm, centerOffsetX_comm, centerOffsetY_comm]
    exact hoff

/-- C13 (amended), at the rectangles `(0, 0, 10, 10)` and `(100, 0, 10, 10)`
with the tolerance `0.2f` and fuel `1`: their centers are `100` apart, more
than `delta`, which is `2` up to rounding. -/
theorem partitionDataF32_separates_offset_centers_witness :
    ExactRect (rawRect 0 0 10 10) ∧ ExactRect (rawRect 100 0 10 10) ∧
    centerOffsetX (rawRect 0 0 10 10) (rawRect 100 0 10 10) = 100 ∧
    partitionDataF32 (0 + 1) [rawRect 0 0 10 10, rawRect 100 0 10 10] epsF32
      = some ([0, 1], 2) :=
  ⟨by unfold ExactRect rawRect; norm_num, by unfold ExactRect rawRect; norm_num,
    by decide!,
    partitionDataF32_separates_offset_centers 0 (rawRect 0 0 10 10) (rawRect 100 0 10 10) epsF32
      (by unfold ExactRect rawRect; norm_num) (by unfold ExactRect rawRect; norm_num)
      (Or.inl (by decide!))⟩

/-- C14 (the code departs from the claim): the two similar rectangles
`(10, 20, 30, 40)` and `(12, 20, 30, 40)` form one class, whose average is
`(11, 20, 30, 40)` with weight `2`; `filterResult` returns the weight `2` but
every coordinate of the representative is `INT_MAX`, the value of
`MAX(sum * s, INT_MAX)`. -/
theorem filterResult_representative_is_int_max :
    partitionData 10 nearPair (1 / 5) = some ([0, 0], 1) ∧
    meanRect nearPair = { x := 11, y := 20, width := 30, height := 40, weight := 2 } ∧
    filterResult 10 nearPair 1 (1 / 5) = some
      [{ x := INT_MAX, y := INT_MAX, width := INT_MAX, height := INT_MAX, weight := 2 }] := by
  decide!

/-- C17 (the code departs from the claim): for five copies of the rectangle
`(1, 2, 3, 4)`, threshold `3` and tolerance `1/5`, `filterResult` returns one
rectangle of weight `5`, and its `x`, `y`, `width` and `height` are `INT_MAX`,
not those of the rectangle. -/
theorem filterResult_five_copies :
    filterResult 30 (List.replicate 5 (rawRect 1 2 3 4)) 3 (1 / 5) = some
      [{ x := INT_MAX, y := INT_MAX, width := INT_MAX, height := INT_MAX, weight := 5 }] ∧
    (rawRect 1 2 3 4).x ≠ INT_MAX := by
  decide!

/-- C19 (the claim as stated fails): on a `1321 x 1321` image with a canonical
window of `100 x 100` the loop of the code counts 27 scales, because the
single-precision product `current_scale * 100` is exactly `1311` after 27
steps, while `1.1 ^ 27 * 100` is below `1311`: the least `k` of the claim is
28, which is what the count in exact arithmetic gives. -/
theorem scaleCountF32_not_exact_least :
    scaleCountF32 40 largeImage largeWindowCascade = some 27 ∧
      scaleFits largeImage largeWindowCascade 27 ∧
      scaleCount 40 largeImage largeWindowCascade = some 28 := by
  decide!

/-- C19 (amended): the scale-counting loop terminates for every image and
every canonical window, after at most 1152 steps, and `scale_count` is the
least `k` at which the loop condition fails in single precision, that is with
`current_scale` the result of `k` multiplications of `1` by the `float`
nearest to `1.1`, each rounded to `float`, and the products with the window
sizes rounded to `float`. -/
theorem scaleCountF32_terminates_at_least (image : Image) (cascade : CvHaarClassifierCascade) :
    ∃ n, n ≤ 1152 ∧
      (∀ fuel, n < fuel → scaleCountF32 fuel image cascade = some n) ∧
      scaleFitsF32 image cascade (scaleAtF32 n) = false ∧
      ∀ k, k < n → scaleFitsF32 image cascade (scaleAtF32 k) = true := by
  have hex : ∃ k, scaleFitsF32 image cascade (scaleAtF32 k) = false :=
    ⟨1152, by rw [scaleAtF32_overflow, scaleFitsF32_posInf]⟩
  have hle : Nat.find hex ≤ 1152 :=
    Nat.find_min' hex (by rw [scaleAtF32_overflow, scaleFitsF32_posInf])
  have hfits : ∀ k, k < Nat.find hex → scaleFitsF32 image cascade (scaleAtF32 k) = true := by
    intro k hk
    have := Nat.find_min hex hk
    simpa using this
  refine ⟨Nat.find hex, hle, ?_, Nat.find_spec hex, hfits⟩
  intro fuel hfuel
  exact scaleCountLoopF32_of_least image cascade _ hfits (Nat.find_spec hex) _ 0 (by omega)
    fuel hfuel

/-- C20: for a scale count `n` that the loop returned and every scale index
`k` with `k + 1 < n`, on an image whose sizes fit an `int`, the scaled window
width `(cl_uint)round(canonical width * 1.1 ^ (k + 1))` is at least
`(cl_uint)round(canonical width * 1.1 ^ k)`, and likewise for the height; the
same holds of the rounded values before the conversion. -/
theorem scaledWindow_monotone (fuel : Nat) (image : Image) (cascade : CvHaarClassifierCascade)
    (n k : Nat) (hn : scaleCount fuel image cascade = some n) (hk : k + 1 < n)
    (hW : image.width < 2 ^ 31) (hH : image.height < 2 ^ 31) :
    scaledWindow cascade.orig_window_width (scaleAt k)
      ≤ scaledWindow cascade.orig_window_width (scaleAt (k + 1)) ∧
    scaledWindow cascade.orig_window_height (scaleAt k)
      ≤ scaledWindow cascade.orig_window_height (scaleAt (k + 1)) ∧
    cround ((cascade.orig_window_width : ℚ) * scaleAt k)
      ≤ cround ((cascade.orig_window_width : ℚ) * scaleAt (k + 1)) ∧
    cround ((cascade.orig_window_height : ℚ) * scaleAt k)
      ≤ cround ((cascade.orig_window_height : ℚ) * scaleAt (k + 1)) := by
  have hloop : scaleCountLoop image cascade fuel (scaleAt 0) 0 = some n := by
    rw [scaleAt_zero]
    exact hn
  obtain ⟨-, hfit, -⟩ := scaleCountLoop_some image cascade fuel 0 0 n hloop
  have hfit1 : scaleFits image cascade (k + 1) := by
    have := hfit (k + 1) (by omega)
    rwa [Nat.zero_add] at this
  have key : ∀ (orig size : Nat), size < 2 ^ 31 →
      scaleAt (k + 1) * (orig : ℚ) < (((size : Int) - 10 : Int) : ℚ) →
      scaledWindow orig (scaleAt k) ≤ scaledWindow orig (scaleAt (k + 1)) ∧
      cround ((orig : ℚ) * scaleAt k) ≤ cround ((orig : ℚ) * scaleAt (k + 1)) := by
    intro orig size hsize hlt
    have h0 : (0 : ℚ) ≤ (orig : ℚ) := Nat.cast_nonneg _
    have hle : (orig : ℚ) * scaleAt k ≤ (orig : ℚ) * scaleAt (k + 1) :=
      mul_le_mul_of_nonneg_left (scaleAt_le_succ k) h0
    have hmono := cround_mono hle
    have hq0 : (0 : ℚ) ≤ (orig : ℚ) * scaleAt k :=
      mul_nonneg h0 (le_of_lt (scaleAt_pos k))
    have hlo := cround_nonneg _ hq0
    have hhi := cround_le _ (le_trans hq0 hle)
    have hb : cround ((orig : ℚ) * scaleAt (k + 1)) < (size : Int) := by
      have : ((cround ((orig : ℚ) * scaleAt (k + 1)) : Int) : ℚ) < ((size : Int) : ℚ) := by
        push_cast at hlt ⊢
        rw [mul_comm] at hlt
        linarith
      exact_mod_cast this
    refine ⟨?_, hmono⟩
    unfold scaledWindow toU32
    have hs : (size : Int) < 2 ^ 31 := by exact_mod_cast hsize
    omega
  obtain ⟨a1, a2⟩ := key cascade.orig_window_width image.width hW hfit1.1
  obtain ⟨b1, b2⟩ := key cascade.orig_window_height image.height hH hfit1.2
  exact ⟨a1, b1, a2, b2⟩

/-- C20, at a `40 x 40` image, the canonical window `10 x 10` and the scale
indices `4` and `5` of the `12` counted: the window widths are `15` and
`16`. -/
theorem scaledWindow_monotone_witness :
    scaleCount 13 plainImage threeRectCascade = some 12 ∧ 4 + 1 < 12 ∧
    scaledWindow threeRectCascade.orig_window_width (scaleAt 4) = 15 ∧
    scaledWindow threeRectCascade.orig_window_width (scaleAt (4 + 1)) = 16 ∧
    scaledWindow threeRectCascade.orig_window_width (scaleAt 4)
      ≤ scaledWindow threeRectCascade.orig_window_width (scaleAt (4 + 1)) ∧
    scaledWindow threeRectCascade.orig_window_height (scaleAt 4)
      ≤ scaledWindow threeRectCascade.orig_window_height (scaleAt (4 + 1)) ∧
    cround ((threeRectCascade.orig_window_width : ℚ) * scaleAt 4)
      ≤ cround ((threeRectCascade.orig_window_width : ℚ) * scaleAt (4 + 1)) ∧
    cround ((threeRectCascade.orig_window_height : ℚ) * scaleAt 4)
      ≤ cround ((threeRectCascade.orig_window_height : ℚ) * scaleAt (4 + 1)) :=
  ⟨by decide!, by decide, by decide!, by decide!,
    scaledWindow_monotone 13 plainImage threeRectCascade 12 4 (by decide!) (by decide)
      (by decide) (by decide)⟩

/-- C23: `partitionData` returns (for every fuel above `N * N`) labels such
that two rectangles `i` and `j` have the same label exactly when there is a
chain `i = k0, k1, ..., km = j` in which every consecutive pair is similar
under `areRectSimilar`: no unrelated rectangles are merged, every similar
pair is in one class, and the classes are the connected components of the
similarity graph. -/
theorem partitionData_classes_are_components (fuel : Nat) (data : List CLWeightedRect)
    (eps : ℚ) (hfuel : data.length * data.length + 1 ≤ fuel) :
    ∃ labels nclasses, partitionData fuel data eps = some (labels, nclasses) ∧
      (∀ i j, i < data.length → j < data.length →
        (labels.getD i 0 = labels.getD j 0 ↔
          ∃ chain : List Nat, List.Chain (similarAt data eps) i chain ∧
            (i :: chain).getLast (List.cons_ne_nil i chain) = j)) ∧
      (∀ i j, similarAt data eps i j → labels.getD i 0 = labels.getD j 0) := by
  obtain ⟨labels, nclasses, hpart, -, -, -, -, -, hclass⟩ :=
    partitionData_spec fuel data eps hfuel
  refine ⟨labels, nclasses, hpart, fun i j hi hj => ?_, fun i j hsim => ?_⟩
  · rw [hclass i j hi hj]
    exact eqvGen_similarAt_iff_chain data eps i j
  · exact (hclass i j hsim.1 hsim.2.1).mpr (Relation.EqvGen.rel _ _ hsim)

/-- C23, at four copies of one rectangle and a distant fifth with fuel `30`:
the labels are `0, 0, 0, 0, 1`; no chain of similar pairs leads from the
first rectangle to the fifth. -/
theorem partitionData_classes_are_components_witness :
    groupAndOutlier.length * groupAndOutlier.length + 1 ≤ 30 ∧
    partitionData 30 groupAndOutlier (1 / 5) = some ([0, 0, 0, 0, 1], 2) ∧
    ∃ labels nclasses, partitionData 30 groupAndOutlier (1 / 5) = some (labels, nclasses) ∧
      (∀ i j, i < groupAndOutlier.length → j < groupAndOutlier.length →
        (labels.getD i 0 = labels.getD j 0 ↔
          ∃ chain : List Nat, List.Chain (similarAt groupAndOutlier (1 / 5)) i chain ∧
            (i :: chain).getLast (List.cons_ne_nil i chain) = j)) ∧
      (∀ i j, similarAt groupAndOutlier (1 / 5) i j → labels.getD i 0 = labels.getD j 0) :=
  ⟨by decide, by decide!,
    partitionData_classes_are_components 30 groupAndOutlier (1 / 5) (by decide)⟩

/-- C25: `partitionData` returns on every input, with every fuel above
`N * N`; and at every point of the merge pass, before the iteration `j` of the
loop over `j` in the row `i` (and after the last one, `j = N`), the loops
before it have ended and the parent links form a forest: every parent entry
is `-1` or an index in `[0, N)`, and from every node the loop `findRoot` ends,
at a root whose rank is not negative. -/
theorem partitionData_terminates (fuel : Nat) (data : List CLWeightedRect) (eps : ℚ)
    (hfuel : data.length * data.length + 1 ≤ fuel) :
    (∃ labels nclasses, partitionData fuel data eps = some (labels, nclasses)) ∧
    ∀ i j, i < data.length → j ≤ data.length →
      ∃ nodes root st,
        (List.range i).foldlM (mergeRow fuel data eps)
          { parent := fun _ => -1, rank := fun _ => 0 } = some nodes ∧
        findRoot nodes.parent fuel i = some root ∧
        (List.range j).foldlM (mergeStep fuel data eps i) (nodes, root) = some st ∧
        (∀ k, st.1.parent k = -1 ∨ (0 ≤ st.1.parent k ∧ st.1.parent k < (data.length : Int))) ∧
        (∀ k, ∃ r, findRoot st.1.parent fuel k = some r ∧ st.1.parent r = -1 ∧
          0 ≤ st.1.rank r) := by
  constructor
  · obtain ⟨labels, nclasses, hpart, -⟩ := partitionData_spec fuel data eps hfuel
    exact ⟨labels, nclasses, hpart⟩
  · intro i j hi hj
    have hrows : (i + 1) * data.length ≤ data.length * data.length :=
      Nat.mul_le_mul_right _ hi
    rw [Nat.succ_mul] at hrows
    obtain ⟨nodes, hnodes, hf, -⟩ :=
      mergePass_prefix_spec fuel data eps hfuel i (le_of_lt hi)
    obtain ⟨root, hroot⟩ := hf.findRoot_total i fuel (by omega)
    obtain ⟨st, hst, hfst⟩ :=
      mergeRow_prefix_spec fuel data eps i nodes root hf hroot hi (by omega) j hj
    obtain ⟨h1, h2⟩ := hfst.parent_links fuel (by omega)
    exact ⟨nodes, root, st, hnodes, hroot, hst, h1, h2⟩

/-- C25, at a chain of three rectangles with fuel `10`: the function returns,
and so does every loop of the merge pass. -/
theorem partitionData_terminates_witness :
    chainData.length * chainData.length + 1 ≤ 10 ∧
    (∃ labels nclasses, partitionData 10 chainData (1 / 5) = some (labels, nclasses)) ∧
    ∀ i j, i < chainData.length → j ≤ chainData.length →
      ∃ nodes root st,
        (List.range i).foldlM (mergeRow 10 chainData (1 / 5))
          { parent := fun _ => -1, rank := fun _ => 0 } = some nodes ∧
        findRoot nodes.parent 10 i = some root ∧
        (List.range j).foldlM (mergeStep 10 chainData (1 / 5) i) (nodes, root) = some st ∧
        (∀ k, st.1.parent k = -1 ∨
          (0 ≤ st.1.parent k ∧ st.1.parent k < (chainData.length : Int))) ∧
        (∀ k, ∃ r, findRoot st.1.parent 10 k = some r ∧ st.1.parent r = -1 ∧
          0 ≤ st.1.rank r) :=
  ⟨by decide, partitionData_terminates 10 chainData (1 / 5) (by decide)⟩

/-- C26: for an input of `N` rectangles `partitionData` returns (for every
fuel above `N * N`) `N` labels and a number `nclasses <= N`, which is `0`
exactly when `N = 0`; every label is in `[0, nclasses)`, every class id is
the label of some rectangle, and the ids are handed out in the order of first
appearance: `labels[0] = 0`, and every id below `labels[i]` is the label of a
rectangle before `i`.  So `labels[i]` indexes the arrays of `nclasses`
entries that `filterResult` allocates. -/
theorem partitionData_labels_onto (fuel : Nat) (data : List CLWeightedRect) (eps : ℚ)
    (hfuel : data.length * data.length + 1 ≤ fuel) :
    ∃ labels nclasses, partitionData fuel data eps = some (labels, nclasses) ∧
      labels.length = data.length ∧ 0 ≤ nclasses ∧ nclasses ≤ (data.length : Int) ∧
      (nclasses = 0 ↔ data.length = 0) ∧
      (∀ i, i < data.length → 0 ≤ labels.getD i 0 ∧ labels.getD i 0 < nclasses) ∧
      (∀ c : Int, 0 ≤ c → c < nclasses → ∃ i, i < data.length ∧ labels.getD i 0 = c) ∧
      (0 < data.length → labels.getD 0 0 = 0) ∧
      (∀ i, i < data.length → ∀ c : Int, 0 ≤ c → c < labels.getD i 0 →
        ∃ j, j < i ∧ labels.getD j 0 = c) ∧
      (∀ i, i < data.length → (labels.getD i 0).toNat < nclasses.toNat) := by
  obtain ⟨labels, nclasses, hpart, hlen, hn0, hnle, hrange, hused, -⟩ :=
    partitionData_spec fuel data eps hfuel
  obtain ⟨labels2, nclasses2, hpart2, hord⟩ := partitionData_order fuel data eps hfuel
  have e : labels2 = labels := by
    have := Option.some.inj (hpart2.symm.trans hpart)
    exact congrArg Prod.fst this
  rw [e] at hord
  refine ⟨labels, nclasses, hpart, hlen, hn0, hnle, ⟨fun h => ?_, fun h => ?_⟩, hrange, hused,
    fun h => ?_, hord, fun i hi => ?_⟩
  · by_contra hne
    have := hrange 0 (Nat.pos_of_ne_zero hne)
    omega
  · have : ((data.length : Nat) : Int) = 0 := by exact_mod_cast h
    omega
  · have h1 := (hrange 0 h).1
    by_contra hne
    obtain ⟨j, hj, -⟩ := hord 0 h 0 (le_refl _) (lt_of_le_of_ne h1 (Ne.symm hne))
    exact Nat.not_lt_zero j hj
  · have := hrange i hi
    omega

/-- C26, at four copies of one rectangle and a distant fifth with fuel `30`:
the labels are `0, 0, 0, 0, 1` and there are `2` classes. -/
theorem partitionData_labels_onto_witness :
    groupAndOutlier.length * groupAndOutlier.length + 1 ≤ 30 ∧
    partitionData 30 groupAndOutlier (1 / 5) = some ([0, 0, 0, 0, 1], 2) ∧
    ∃ labels nclasses, partitionData 30 groupAndOutlier (1 / 5) = some (labels, nclasses) ∧
      labels.length = groupAndOutlier.length ∧ 0 ≤ nclasses ∧
      nclasses ≤ (groupAndOutlier.length : Int) ∧
      (nclasses = 0 ↔ groupAndOutlier.length = 0) ∧
      (∀ i, i < groupAndOutlier.length → 0 ≤ labels.getD i 0 ∧ labels.getD i 0 < nclasses) ∧
      (∀ c : Int, 0 ≤ c → c < nclasses →
        ∃ i, i < groupAndOutlier.length ∧ labels.getD i 0 = c) ∧
      (0 < groupAndOutlier.length → labels.getD 0 0 = 0) ∧
      (∀ i, i < groupAndOutlier.length → ∀ c : Int, 0 ≤ c → c < labels.getD i 0 →
        ∃ j, j < i ∧ labels.getD j 0 = c) ∧
      (∀ i, i < groupAndOutlier.length → (labels.getD i 0).toNat < nclasses.toNat) :=
  ⟨by decide, by decide!, partitionData_labels_onto 30 groupAndOutlier (1 / 5) (by decide)⟩

/-- C24: with `min_neighbors = 0` both `detectObjects` and
`detectObjectsOptimized` return the raw candidate list as it is, without a
call of `filterResult`: the count is the number of raw candidates, every
rectangle has weight `0`, and the list of `detectObjects` is in scan order
(scale, then row, then column).  With `min_neighbors` not `0` the result is
that of `filterResult` on the raw list, with `group_threshold` the `int`
value of `min_neighbors`, which is `min_neighbors` below `2^31`. -/
theorem detectObjects_without_clustering (sq : ℚ → ℚ) (fuel : Nat)
    (arena : Nat → OptimizedRect) (image : Image) (cascade : CvHaarClassifierCascade)
    (min_window_width min_window_height max_window_width max_window_height : Nat) :
    detectObjects sq fuel image cascade min_window_width min_window_height max_window_width
        max_window_height 0
      = rawMatches sq fuel image cascade min_window_width min_window_height max_window_width
        max_window_height ∧
    detectObjectsOptimized sq fuel arena image cascade min_window_width min_window_height
        max_window_width max_window_height 0
      = rawMatchesOptimized sq fuel arena image cascade min_window_width min_window_height
        max_window_width max_window_height ∧
    (∀ raw, rawMatches sq fuel image cascade min_window_width min_window_height
        max_window_width max_window_height = some raw → ∀ r ∈ raw, r.weight = 0) ∧
    (∀ raw, rawMatchesOptimized sq fuel arena image cascade min_window_width min_window_height
        max_window_width max_window_height = some raw → ∀ r ∈ raw, r.weight = 0) ∧
    (∀ n, cascade.count < 2 ^ 31 → scaleCount fuel image cascade = some n →
      detectObjects sq fuel image cascade min_window_width min_window_height max_window_width
          max_window_height 0
        = some (survivors sq image cascade min_window_width min_window_height
          max_window_width max_window_height n)) ∧
    (∀ min_neighbors : Nat, min_neighbors ≠ 0 →
      detectObjects sq fuel image cascade min_window_width min_window_height max_window_width
          max_window_height min_neighbors
        = (rawMatches sq fuel image cascade min_window_width min_window_height
            max_window_width max_window_height).bind
          (fun raw => filterResult fuel raw (toI32 (min_neighbors : Int)) EPS) ∧
      detectObjectsOptimized sq fuel arena image cascade min_window_width min_window_height
          max_window_width max_window_height min_neighbors
        = (rawMatchesOptimized sq fuel arena image cascade min_window_width min_window_height
            max_window_width max_window_height).bind
          (fun raw => filterResult fuel raw (toI32 (min_neighbors : Int)) EPS) ∧
      (min_neighbors < 2 ^ 31 → toI32 (min_neighbors : Int) = (min_neighbors : Int))) := by
  have hd : detectObjects sq fuel image cascade min_window_width min_window_height
      max_window_width max_window_height 0
      = rawMatches sq fuel image cascade min_window_width min_window_height max_window_width
        max_window_height := by
    unfold detectObjects
    cases rawMatches sq fuel image cascade min_window_width min_window_height max_window_width
      max_window_height <;> simp
  refine ⟨hd, ?_, ?_, ?_, ?_, ?_⟩
  · unfold detectObjectsOptimized
    cases rawMatchesOptimized sq fuel arena image cascade min_window_width min_window_height
      max_window_width max_window_height <;> simp
  · intro raw hraw r hr
    unfold rawMatches at hraw
    cases hn : scaleCount fuel image cascade with
    | none => simp [hn] at hraw
    | some n =>
      rw [hn, Option.map_some'] at hraw
      rw [← Option.some.inj hraw] at hr
      exact scanScales_weight _ _ _ _ _ _ _ _ _ r hr
  · intro raw hraw r hr
    unfold rawMatchesOptimized at hraw
    cases hn : scaleCount fuel image cascade with
    | none => simp [hn] at hraw
    | some n =>
      rw [hn, Option.map_some'] at hraw
      rw [← Option.some.inj hraw] at hr
      exact scanScalesOptimized_weight _ _ _ _ _ _ _ _ _ _ r hr
  · intro n hcount hn
    rw [hd]
    exact rawMatches_survivors sq fuel image cascade min_window_width min_window_height
      max_window_width max_window_height n hcount hn
  · intro min_neighbors hne
    have hmax : MAX (min_neighbors : Int) 1 = (min_neighbors : Int) := by
      unfold MAX
      have : 0 < min_neighbors := Nat.pos_of_ne_zero hne
      exact max_eq_left (by omega)
    refine ⟨?_, ?_, fun hlt => ?_⟩
    · unfold detectObjects
      simp only [hne, ne_eq, not_false_eq_true, if_true, hmax]
    · unfold detectObjectsOptimized
      simp only [hne, ne_eq, not_false_eq_true, if_true, hmax]
    · apply toI32_of_range
      · have : (0 : Int) ≤ (min_neighbors : Int) := Int.natCast_nonneg _
        omega
      · exact_mod_cast hlt

/-- C21: in the precomputation of `detectObjectsOptimized`, at every scale
and every position in `opt_rectangles`, for a feature whose first two
rectangles have non-zero weight and whose first rectangle has a positive
scaled area (a product that fits 32 bits), the normalised weights satisfy
`w0 * area0 + w1 * area1 + w2 * area2 = 0`, the last term present only when
the third weight is non-zero; and on a constant-intensity image the feature
response, read from any array that holds the entries of the feature, is `0`
at every window at which the scaled rectangles lie in the image (with sums
that fit 32 bits). -/
theorem normalised_weights_zero_mean (image : Image) (s : ℚ) (area : Nat)
    (arr : Nat → OptimizedRect) (idx : Nat) (classifier : CvHaarClassifier)
    (h0 : classifier.haar_feature.rect0.weight ≠ 0)
    (h1 : classifier.haar_feature.rect1.weight ≠ 0)
    (hpos : 0 < scaledCoord classifier.haar_feature.rect0.r.width s
      * scaledCoord classifier.haar_feature.rect0.r.height s)
    (hfit : scaledCoord classifier.haar_feature.rect0.r.width s
      * scaledCoord classifier.haar_feature.rect0.r.height s < 2 ^ 32) :
    ((precomputeFeature image s area (arr, idx) classifier).1 idx).weight
        * ((scaledCoord classifier.haar_feature.rect0.r.width s : ℚ)
          * (scaledCoord classifier.haar_feature.rect0.r.height s : ℚ))
      + ((precomputeFeature image s area (arr, idx) classifier).1 (idx + 1)).weight
        * ((scaledCoord classifier.haar_feature.rect1.r.width s : ℚ)
          * (scaledCoord classifier.haar_feature.rect1.r.height s : ℚ))
      + (if classifier.haar_feature.rect2.weight ≠ 0 then
          ((precomputeFeature image s area (arr, idx) classifier).1 (idx + 1 + 1)).weight
            * ((scaledCoord classifier.haar_feature.rect2.r.width s : ℚ)
              * (scaledCoord classifier.haar_feature.rect2.r.height s : ℚ))
        else 0) = 0 ∧
    ∀ c X Y : Nat,
      image.integral_image = integralTable image.width image.height (fun _ _ => c) →
      (∀ i, i < 3 → (classifier.haar_feature.rect i).weight ≠ 0 →
        X + scaledCoord (classifier.haar_feature.rect i).r.x s
            + scaledCoord (classifier.haar_feature.rect i).r.width s ≤ image.width ∧
          Y + scaledCoord (classifier.haar_feature.rect i).r.y s
            + scaledCoord (classifier.haar_feature.rect i).r.height s ≤ image.height ∧
          c * (scaledCoord (classifier.haar_feature.rect i).r.width s
            * scaledCoord (classifier.haar_feature.rect i).r.height s) < 2 ^ 32) →
      ∀ final : Nat → OptimizedRect,
        (∀ j, idx ≤ j → j < idx + 3 →
          final j = (precomputeFeature image s area (arr, idx) classifier).1 j) →
        rectSumOptimized image final (mato (image.width + 1) X Y) idx
          classifier.haar_feature = 0 := by
  obtain ⟨e0, e1, e2, -, -⟩ := precomputeFeature_spec image s area arr idx classifier h0 h1
  have hfirst : (firstRectAreaOptimized classifier.haar_feature s : ℚ)
      = (scaledCoord classifier.haar_feature.rect0.r.width s : ℚ)
        * (scaledCoord classifier.haar_feature.rect0.r.height s : ℚ) := by
    unfold firstRectAreaOptimized
    rw [Nat.mod_eq_of_lt hfit]
    push_cast
    ring
  have hne : (scaledCoord classifier.haar_feature.rect0.r.width s : ℚ)
      * (scaledCoord classifier.haar_feature.rect0.r.height s : ℚ) ≠ 0 := by
    have : (0 : ℚ) < ((scaledCoord classifier.haar_feature.rect0.r.width s
        * scaledCoord classifier.haar_feature.rect0.r.height s : Nat) : ℚ) := by
      exact_mod_cast hpos
    push_cast at this
    exact ne_of_gt this
  have hident : (-sumRectAreaOptimized classifier.haar_feature s area
        / (firstRectAreaOptimized classifier.haar_feature s : ℚ))
        * ((scaledCoord classifier.haar_feature.rect0.r.width s : ℚ)
          * (scaledCoord classifier.haar_feature.rect0.r.height s : ℚ))
      + classifier.haar_feature.rect1.weight / (area : ℚ)
        * ((scaledCoord classifier.haar_feature.rect1.r.width s : ℚ)
          * (scaledCoord classifier.haar_feature.rect1.r.height s : ℚ))
      + (if classifier.haar_feature.rect2.weight ≠ 0 then
          classifier.haar_feature.rect2.weight / (area : ℚ)
            * ((scaledCoord classifier.haar_feature.rect2.r.width s : ℚ)
              * (scaledCoord classifier.haar_feature.rect2.r.height s : ℚ))
        else 0) = 0 := by
    rw [hfirst, div_mul_cancel₀ _ hne]
    unfold sumRectAreaOptimized
    simp only []
    split_ifs <;> ring
  constructor
  · rw [e0, e1]
    by_cases h2 : classifier.haar_feature.rect2.weight ≠ 0
    · rw [if_pos h2, e2 h2]
      rw [if_pos h2] at hident
      exact hident
    · rw [if_neg h2]
      rw [if_neg h2] at hident
      exact hident
  · intro c X Y htable hin final hfinal
    rw [rectSumOptimized_precomputed image s area final idx classifier.haar_feature X Y
        ((hfinal idx (le_refl _) (by omega)).trans e0)
        ((hfinal (idx + 1) (by omega) (by omega)).trans e1)
        (fun h => (hfinal (idx + 1 + 1) (by omega) (by omega)).trans (e2 h)),
      htable]
    obtain ⟨a1, a2, a3⟩ := hin 0 (by decide) h0
    obtain ⟨b1, b2, b3⟩ := hin 1 (by decide) h1
    rw [mats_const _ _ c _ _ _ _ (by simpa [CvHaarFeature.rect, Nat.add_assoc] using a1)
        (by simpa [CvHaarFeature.rect, Nat.add_assoc] using a2)
        (by simpa [CvHaarFeature.rect] using a3),
      mats_const _ _ c _ _ _ _ (by simpa [CvHaarFeature.rect, Nat.add_assoc] using b1)
        (by simpa [CvHaarFeature.rect, Nat.add_assoc] using b2)
        (by simpa [CvHaarFeature.rect] using b3)]
    by_cases h2 : classifier.haar_feature.rect2.weight ≠ 0
    · obtain ⟨c1, c2, c3⟩ := hin 2 (by decide) h2
      rw [if_pos h2,
        mats_const _ _ c _ _ _ _ (by simpa [CvHaarFeature.rect, Nat.add_assoc] using c1)
          (by simpa [CvHaarFeature.rect, Nat.add_assoc] using c2)
          (by simpa [CvHaarFeature.rect] using c3)]
      rw [if_pos h2] at hident
      push_cast
      linear_combination (c : ℚ) * hident
    · rw [if_neg h2]
      rw [if_neg h2] at hident
      push_cast
      linear_combination (c : ℚ) * hident

/-- C21, at the scale `1.1 ^ 4` (window area `144`) and the feature with the
rectangles `(0,0,4,4)`, `(0,0,2,2)` and `(2,2,2,2)` of weights `-1`, `-1` and
`2`, scaled to `6 x 6`, `3 x 3` and `3 x 3`: the normalised weights are
`-1/576`, `-1/144` and `2/144`, and the response at the window `(6, 4)` of
the image of constant intensity `7` is `0`. -/
theorem normalised_weights_zero_mean_witness :
    threeRectClassifier.haar_feature.rect0.weight ≠ 0 ∧
    threeRectClassifier.haar_feature.rect1.weight ≠ 0 ∧
    0 < scaledCoord threeRectClassifier.haar_feature.rect0.r.width (scaleAt 4)
      * scaledCoord threeRectClassifier.haar_feature.rect0.r.height (scaleAt 4) ∧
    scaledCoord threeRectClassifier.haar_feature.rect0.r.width (scaleAt 4)
      * scaledCoord threeRectClassifier.haar_feature.rect0.r.height (scaleAt 4) < 2 ^ 32 ∧
    ((precomputeFeature flatImage (scaleAt 4) 144 (zeroArena, 0) threeRectClassifier).1 0).weight
      = -1 / 576 ∧
    rectSumOptimized flatImage
      (precomputeFeature flatImage (scaleAt 4) 144 (zeroArena, 0) threeRectClassifier).1
      (mato (flatImage.width + 1) 6 4) 0 threeRectClassifier.haar_feature = 0 :=
  ⟨by decide!, by decide!, by decide!, by decide!, by decide!,
    (normalised_weights_zero_mean flatImage (scaleAt 4) 144 zeroArena 0 threeRectClassifier
      (by decide!) (by decide!) (by decide!) (by decide!)).2 7 6 4 rfl (by decide!) _
      (fun _ _ _ => rfl)⟩

end CLFaceDetection
